import Mathlib

/-!
# Software rasterizer: `cg::renderer::rasterizer<VB, RT>`

A shallow embedding of `src/renderer/rasterizer/rasterizer.h`.

Modelling conventions.

* The arithmetic of `draw` is embedded twice.  The functions without a suffix
  (`edge_function`, `get_equation_plane`, `to_screen`, `draw`, ...) read every
  `float` operation as exact over `ℚ`: they carry the algebra of the formulas
  and the properties that no rounding touches (the order of the writes, the
  depth test, the loop over the triples).  The functions with the suffix `_f32`
  read the same source lines in binary32, every operation rounded, with
  overflow to infinity and NaN; what the source computes for coverage, depth
  and screen coordinates is stated about them.
* Depth values, and in binary32 every intermediate result, live in `fval`,
  which adds the IEEE results `nan`, `pinf`, `ninf` to the finite values.
* `draw` returns `Option`: `none` stands for behaviour the C++ leaves undefined
  (a null buffer dereferenced, an element access out of range, a cast to `int`
  out of range) and for vertex-stage outputs whose screen coordinates are not
  finite (`w = 0`), which are not followed.
* `size_t` is `Nat`; the one `size_t` sum of two caller-supplied values, the
  loop bound of `draw`, wraps with an explicit `% 2 ^ 64`.  Pixel coordinates of
  type `int` are integers; in the exact reading they are unbounded, in binary32
  the cast checks the range of a 32-bit `int`.
-/

namespace cg.renderer

/-! ## Values -/

/-- The values of a `float` that holds a depth: finite, or one of the three
IEEE specials a division by zero produces. -/
inductive fval where
  | nan : fval
  | ninf : fval
  | fin (q : ℚ) : fval
  | pinf : fval
deriving DecidableEq

/-- IEEE `a > b` on depth values: every comparison with `nan` is false. -/
def fval.gt : fval → fval → Bool
  | .fin a, .fin b => decide (b < a)
  | .pinf, .fin _ => true
  | .pinf, .ninf => true
  | .fin _, .ninf => true
  | _, _ => false

/-- IEEE `a / b` on finite operands.  A zero divisor gives `nan` for `0 / 0`
and an infinity otherwise (the zero divisor is taken as `+0`). -/
def fdiv (a b : ℚ) : fval :=
  if b = 0 then
    if a = 0 then .nan else if 0 < a then .pinf else .ninf
  else .fin (a / b)

/-- `linalg::aliases::float2`. -/
structure float2 where
  x : ℚ
  y : ℚ
deriving DecidableEq

/-- `linalg::aliases::float4`. -/
structure float4 where
  x : ℚ
  y : ℚ
  z : ℚ
  w : ℚ
deriving DecidableEq

/-- The vertex record `VB`: the three fields the rasterizer reads and writes,
and whatever else the application keeps in it. -/
structure vertex (A : Type) where
  x : ℚ
  y : ℚ
  z : ℚ
  attr : A
deriving DecidableEq

/-- `std::clamp(v, lo, hi)`. -/
def clamp (v lo hi : ℚ) : ℚ :=
  if v < lo then lo else if hi < v then hi else v

/-- `static_cast<int>(f)`: truncation toward zero. -/
def static_cast_int (f : ℚ) : Int :=
  if 0 ≤ f then ⌊f⌋ else ⌈f⌉

/-! ## Raster buffer -/

/-- Modelled from the spec: `resource<T>` (resource.h is not among the
sources).  A contiguous sequence of elements with a logical width and height;
`item(x, y)` is `item(y * width + x)` and requires `x < width`, `y < height`. -/
structure resource (T : Type) where
  data : List T
  width : Nat
  height : Nat

namespace resource

variable {T : Type}

/-- Modelled from the spec: `get_number_of_elements()`, the element count. -/
def get_number_of_elements (r : resource T) : Nat :=
  r.data.length

/-- Modelled from the spec: the linear index that `item(x, y)` addresses,
`none` when the precondition on `x`, `y` or on the linear index fails. -/
def index (r : resource T) (x y : Nat) : Option Nat :=
  if x < r.width ∧ y < r.height ∧ y * r.width + x < r.data.length then
    some (y * r.width + x)
  else none

/-- Modelled from the spec: reading `item(x, y)`. -/
def item (r : resource T) (x y : Nat) : Option T :=
  (r.index x y).bind fun i => r.data[i]?

/-- Modelled from the spec: the assignment `item(x, y) = v`. -/
def set_item (r : resource T) (x y : Nat) (v : T) : Option (resource T) :=
  (r.index x y).map fun i => { r with data := r.data.set i v }

/-- The call `item(x, y)` with `int` arguments: a negative `int` converts to a
`size_t` beyond every buffer dimension. -/
def item_at (r : resource T) (x y : Int) : Option T :=
  if x < 0 ∨ y < 0 then none else r.item x.toNat y.toNat

/-- The assignment `item(x, y) = v` with `int` arguments. -/
def set_item_at (r : resource T) (x y : Int) (v : T) : Option (resource T) :=
  if x < 0 ∨ y < 0 then none else r.set_item x.toNat y.toNat v

/-- Modelled from the spec: reading `item(i)` by linear index. -/
def item_linear (r : resource T) (i : Nat) : Option T :=
  r.data[i]?

/-- Modelled from the spec: the assignment `item(i) = v` by linear index (not
reached out of range by the one loop that uses it). -/
def set_item_linear (r : resource T) (i : Nat) (v : T) : resource T :=
  { r with data := r.data.set i v }

/-- The loop `for (i = 0; i < get_number_of_elements(); i++) item(i) = v`. -/
def fill (r : resource T) (v : T) : resource T :=
  (List.range r.get_number_of_elements).foldl (fun b i => b.set_item_linear i v) r

end resource

/-! ## Rasterizer state -/

/-- The members of `rasterizer<VB, RT>`; a `shared_ptr` that is null is `none`.
`Color` is `cg::color`. -/
structure rasterizer (A RT Color : Type) where
  vertex_buffer : Option (resource (vertex A))
  render_target : Option (resource RT)
  depth_buffer : Option (resource fval)
  width : Nat
  height : Nat
  vertex_shader : float4 → vertex A → float4 × vertex A
  pixel_shader : vertex A → ℚ → Color

/-- The loop indices `lo, lo + 1, ..., hi` of `for (int i = lo; i <= hi; i++)`. -/
def int_range (lo hi : Int) : List Int :=
  (List.range (hi + 1 - lo).toNat).map fun (k : Nat) => lo + (k : Int)

/-- Runs a loop body over the indices in order; a fault stops the run. -/
def for_each {I S : Type} : List I → (I → S → Option S) → S → Option S
  | [], _, s => some s
  | i :: rest, body, s => (body i s).bind (for_each rest body)

namespace rasterizer

variable {A RT Color : Type}

/-- `set_render_target(in_render_target, in_depth_buffer)`. -/
def set_render_target (r : rasterizer A RT Color)
    (in_render_target : Option (resource RT))
    (in_depth_buffer : Option (resource fval)) : rasterizer A RT Color :=
  let r1 := match in_render_target with
    | some t => { r with render_target := some t }
    | none => r
  match in_depth_buffer with
  | some d => { r1 with depth_buffer := some d }
  | none => r1

/-- `clear_render_target(in_clear_value, in_depth)`. -/
def clear_render_target (r : rasterizer A RT Color) (in_clear_value : RT)
    (in_depth : fval) : rasterizer A RT Color :=
  let r1 := match r.render_target with
    | some t => { r with render_target := some (t.fill in_clear_value) }
    | none => r
  match r1.depth_buffer with
  | some d => { r1 with depth_buffer := some (d.fill in_depth) }
  | none => r1

/-- `set_vertex_buffer(in_vertex_buffer)`. -/
def set_vertex_buffer (r : rasterizer A RT Color)
    (in_vertex_buffer : Option (resource (vertex A))) : rasterizer A RT Color :=
  { r with vertex_buffer := in_vertex_buffer }

/-- `set_viewport(in_width, in_height)`. -/
def set_viewport (r : rasterizer A RT Color) (in_width in_height : Nat) :
    rasterizer A RT Color :=
  { r with width := in_width, height := in_height }

/-- `edge_function(a, b, c)`. -/
def edge_function (a b c : float2) : ℚ :=
  (c.x - a.x) * (b.y - a.y) - (c.y - a.y) * (b.x - a.x)

/-- `get_equation_plane(x1, y1, z1, x2, y2, z2, x3, y3, z3)`. -/
def get_equation_plane (x1 y1 z1 x2 y2 z2 x3 y3 z3 : ℚ) : float4 :=
  let a1 := x2 - x1
  let b1 := y2 - y1
  let c1 := z2 - z1
  let a2 := x3 - x1
  let b2 := y3 - y1
  let c2 := z3 - z1
  let a := b1 * c2 - b2 * c1
  let b := a2 * c1 - a1 * c2
  let c := a1 * b2 - b1 * a2
  let d := -a * x1 - b * y1 - c * z1
  ⟨a, b, c, d⟩

/-- `depth_test(z, x, y)`; `none` when the read of the depth element faults. -/
def depth_test (r : rasterizer A RT Color) (z : fval) (x y : Int) : Option Bool :=
  match r.depth_buffer with
  | none => some true
  | some d => (d.item_at x y).map fun stored => stored.gt z

/-- Lines 103-111 of `draw`: the vertex stage, the perspective divide and the
viewport mapping of one vertex.  The record kept is the vertex-buffer copy with
`x`, `y`, `z` overwritten. -/
def to_screen (r : rasterizer A RT Color) (v : vertex A) : Option (vertex A) :=
  let coords : float4 := ⟨v.x, v.y, v.z, 1⟩
  let processed_v := r.vertex_shader coords v
  if processed_v.1.w = 0 then none
  else
    let x := processed_v.1.x / processed_v.1.w
    let y := processed_v.1.y / processed_v.1.w
    let z := processed_v.1.z / processed_v.1.w
    some { v with x := (x + 1) * (r.width : ℚ) / 2, y := (-y + 1) * (r.height : ℚ) / 2, z := z }

/-- Lines 114-123 of `draw`. -/
def bounding_box_begin (r : rasterizer A RT Color) (v0 v1 v2 : vertex A) : float2 :=
  ⟨clamp (min (min v0.x v1.x) v2.x) 0 ((r.width : ℚ) - 1),
   clamp (min (min v0.y v1.y) v2.y) 0 ((r.height : ℚ) - 1)⟩

/-- Lines 124-133 of `draw`. -/
def bounding_box_end (r : rasterizer A RT Color) (v0 v1 v2 : vertex A) : float2 :=
  ⟨clamp (max (max v0.x v1.x) v2.x) 0 ((r.width : ℚ) - 1),
   clamp (max (max v0.y v1.y) v2.y) 0 ((r.height : ℚ) - 1)⟩

/-- The weights `u`, `v`, `w` of lines 156-158 (computed, never used). -/
def weights (edge edge0 edge1 edge2 : ℚ) : fval × fval × fval :=
  (fdiv edge1 edge, fdiv edge2 edge, fdiv edge0 edge)

/-- The depth of lines 160-165 at pixel `(x, y)`. -/
def pixel_depth (v0 v1 v2 : vertex A) (x y : Int) : fval :=
  let plane := get_equation_plane v0.x v0.y v0.z v1.x v1.y v1.z v2.x v2.y v2.z
  fdiv (-plane.x * (x : ℚ) - plane.y * (y : ℚ) - plane.w) plane.z

/-- The coverage test of lines 148-154 at pixel `(x, y)`. -/
def covered (v0 v1 v2 : vertex A) (x y : Int) : Bool :=
  let a : float2 := ⟨v0.x, v0.y⟩
  let b : float2 := ⟨v1.x, v1.y⟩
  let c : float2 := ⟨v2.x, v2.y⟩
  let p : float2 := ⟨(x : ℚ), (y : ℚ)⟩
  decide (0 ≤ edge_function a b p) && decide (0 ≤ edge_function b c p)
    && decide (0 ≤ edge_function c a p)

/-- Lines 172-178 of `draw`: the depth test and the write-back at `(x, y)`. -/
def write_pixel (from_color : Color → RT) (v0 : vertex A) (z : fval) (x y : Int)
    (r : rasterizer A RT Color) : Option (rasterizer A RT Color) :=
  (r.depth_test z x y).bind fun pass =>
    if pass then
      let ps_res := r.pixel_shader v0 0
      r.render_target.bind fun rt =>
        (rt.set_item_at x y (from_color ps_res)).bind fun rt1 =>
          match r.depth_buffer with
          | none => some { r with render_target := some rt1 }
          | some d =>
            (d.set_item_at x y z).map fun d1 =>
              { r with render_target := some rt1, depth_buffer := some d1 }
    else some r

/-- Lines 146-179 of `draw`: the body of the pixel loop. -/
def pixel (from_color : Color → RT) (v0 v1 v2 : vertex A) (x y : Int)
    (r : rasterizer A RT Color) : Option (rasterizer A RT Color) :=
  if covered v0 v1 v2 x y then
    write_pixel from_color v0 (pixel_depth v0 v1 v2 x y) x y r
  else some r

/-- Lines 114-181 of `draw`: the scan of one triangle given by its three
screen-space vertices. -/
def draw_triangle (from_color : Color → RT) (v0 v1 v2 : vertex A)
    (r : rasterizer A RT Color) : Option (rasterizer A RT Color) :=
  let bb_begin := r.bounding_box_begin v0 v1 v2
  let bb_end := r.bounding_box_end v0 v1 v2
  for_each (int_range (static_cast_int bb_begin.x) (static_cast_int bb_end.x))
    (fun x => for_each (int_range (static_cast_int bb_begin.y) (static_cast_int bb_end.y))
      (fun y => pixel from_color v0 v1 v2 x y)) r

/-- One iteration of the `while` loop of `draw`: three reads of the vertex
buffer, the vertex stage on each, and the scan. -/
def draw_step (from_color : Color → RT) (vertex_id : Nat)
    (r : rasterizer A RT Color) : Option (rasterizer A RT Color) :=
  r.vertex_buffer.bind fun vb =>
    (vb.item_linear vertex_id).bind fun i0 =>
    (vb.item_linear (vertex_id + 1)).bind fun i1 =>
    (vb.item_linear (vertex_id + 2)).bind fun i2 =>
    (r.to_screen i0).bind fun v0 =>
    (r.to_screen i1).bind fun v1 =>
    (r.to_screen i2).bind fun v2 =>
    draw_triangle from_color v0 v1 v2 r

/-- The `while (vertex_id < vertex_offest + num_vertexes)` loop of `draw`, with
fuel; `none` also when the fuel runs out. -/
def draw_loop (from_color : Color → RT) (bound : Nat) :
    Nat → Nat → rasterizer A RT Color → Option (rasterizer A RT Color)
  | 0, vertex_id, r => if vertex_id < bound then none else some r
  | fuel + 1, vertex_id, r =>
    if vertex_id < bound then
      (draw_step from_color vertex_id r).bind (draw_loop from_color bound fuel (vertex_id + 3))
    else some r

/-- `draw(num_vertexes, vertex_offest)`.  The fuel `num_vertexes` always
suffices, every iteration advancing `vertex_id` by three. -/
def draw (from_color : Color → RT) (r : rasterizer A RT Color)
    (num_vertexes vertex_offest : Nat) : Option (rasterizer A RT Color) :=
  draw_loop from_color ((vertex_offest + num_vertexes) % 2 ^ 64) num_vertexes vertex_offest r

end rasterizer

/-! ## Observations of a state -/

namespace resource

variable {T : Type}

/-- A two-dimensional buffer holds `width * height` elements. -/
def is_2d (r : resource T) : Prop :=
  r.data.length = r.width * r.height

/-- The dimensions and the element count of a buffer. -/
def shape (r : resource T) : Nat × Nat × Nat :=
  (r.width, r.height, r.data.length)

end resource

namespace rasterizer

variable {A RT Color : Type}

/-- The render-target element at pixel `(x, y)`, when there is one. -/
def color_at (r : rasterizer A RT Color) (x y : Int) : Option RT :=
  r.render_target.bind fun t => t.item_at x y

/-- The depth-buffer element at pixel `(x, y)`, when there is one. -/
def depth_at (r : rasterizer A RT Color) (x y : Int) : Option fval :=
  r.depth_buffer.bind fun d => d.item_at x y

/-- A render target is bound, and every bound destination buffer is
two-dimensional and at least as large as the viewport. -/
def fits (r : rasterizer A RT Color) : Prop :=
  (∃ t, r.render_target = some t ∧ t.is_2d ∧ r.width ≤ t.width ∧ r.height ≤ t.height) ∧
  (∀ d, r.depth_buffer = some d → d.is_2d ∧ r.width ≤ d.width ∧ r.height ≤ d.height)

/-- Between `r` and `r1` only the contents of the destination buffers may differ. -/
def frame (r r1 : rasterizer A RT Color) : Prop :=
  r1.vertex_buffer = r.vertex_buffer ∧ r1.width = r.width ∧ r1.height = r.height ∧
  r1.vertex_shader = r.vertex_shader ∧ r1.pixel_shader = r.pixel_shader ∧
  r1.render_target.map resource.shape = r.render_target.map resource.shape ∧
  r1.depth_buffer.map resource.shape = r.depth_buffer.map resource.shape

/-- Pixel `(x, y)` is covered by the triangle and its depth passes the depth
test against the state `r`. -/
def hit (r : rasterizer A RT Color) (v0 v1 v2 : vertex A) (x y : Int) : Bool :=
  covered v0 v1 v2 x y && (r.depth_test (pixel_depth v0 v1 v2 x y) x y == some true)

/-- Pixel `(x, y)` is one the scan of the triangle visits. -/
def in_box (r : rasterizer A RT Color) (v0 v1 v2 : vertex A) (x y : Int) : Prop :=
  static_cast_int (r.bounding_box_begin v0 v1 v2).x ≤ x ∧
  x ≤ static_cast_int (r.bounding_box_end v0 v1 v2).x ∧
  static_cast_int (r.bounding_box_begin v0 v1 v2).y ≤ y ∧
  y ≤ static_cast_int (r.bounding_box_end v0 v1 v2).y

instance in_box_decidable (r : rasterizer A RT Color) (v0 v1 v2 : vertex A) (x y : Int) :
    Decidable (in_box r v0 v1 v2 x y) := by
  unfold in_box
  infer_instance

end rasterizer

/-! ## Depth, restated -/

/-- Depth values compared as "at most": equal, or strictly below in the IEEE
order. -/
def fval.le (a b : fval) : Prop :=
  a = b ∨ b.gt a = true

namespace rasterizer

variable {A RT Color : Type}

/-- The depth of lines 160-165 solved at any point `(x, y)`:
`(-a * x - b * y - d) / c` for the plane through the three vertices. -/
def plane_depth (v0 v1 v2 : vertex A) (x y : ℚ) : fval :=
  let plane := get_equation_plane v0.x v0.y v0.z v1.x v1.y v1.z v2.x v2.y v2.z
  fdiv (-plane.x * x - plane.y * y - plane.w) plane.z

/-- The depth of the commented-out lines 167-170, in the words of the spec:
`u * z0 + v * z1 + w * z2` with `u = e1 / E`, `v = e2 / E`, `w = e0 / E`. -/
def barycentric_depth (v0 v1 v2 : vertex A) (x y : ℚ) : ℚ :=
  let a : float2 := ⟨v0.x, v0.y⟩
  let b : float2 := ⟨v1.x, v1.y⟩
  let c : float2 := ⟨v2.x, v2.y⟩
  let p : float2 := ⟨x, y⟩
  let edge := edge_function a b c
  let edge0 := edge_function a b p
  let edge1 := edge_function b c p
  let edge2 := edge_function c a p
  let u := edge1 / edge
  let v := edge2 / edge
  let w := edge0 / edge
  u * v0.z + v * v1.z + w * v2.z

/-- The run of `draw` over `n` whole triangles: iteration `k` is the loop body
at `vertex_id = offset + 3 * k`. -/
def draw_triples (from_color : Color → RT) (offset n : Nat)
    (r : rasterizer A RT Color) : Option (rasterizer A RT Color) :=
  for_each (List.range n) (fun k => draw_step from_color (offset + 3 * k)) r

/-- What the scan of one triangle does to the colour and depth held at a
pixel when a depth buffer is bound: `g` says that the scan visits the pixel and
the triangle covers it, `c` is the triangle's colour and `z` its depth there. -/
def pixel_after (g : Bool) (c : RT) (z : fval) (s : Option RT × Option fval) :
    Option RT × Option fval :=
  if g && (s.2.map (fun stored => stored.gt z) == some true) then
    (some c, s.2.map fun _ => z)
  else s

/-- From `r` to `r1` every pixel either keeps its colour and depth or has its
depth strictly lowered. -/
def no_rise (r r1 : rasterizer A RT Color) : Prop :=
  ∀ x y, (r1.color_at x y = r.color_at x y ∧ r1.depth_at x y = r.depth_at x y) ∨
    ∃ D D1, r.depth_at x y = some D ∧ r1.depth_at x y = some D1 ∧ D.gt D1 = true

/-- Assignment to the public member `vertex_shader`. -/
def set_vertex_shader (r : rasterizer A RT Color)
    (stage : float4 → vertex A → float4 × vertex A) : rasterizer A RT Color :=
  { r with vertex_shader := stage }

/-- The destination buffers of a state. -/
def buffers (r : rasterizer A RT Color) : Option (resource RT) × Option (resource fval) :=
  (r.render_target, r.depth_buffer)

end rasterizer

/-! ## Binary32 arithmetic

The functions above read every `float` operation as exact.  The functions of
this section and the next read the same source lines in binary32: every
operation is rounded to the nearest value of 24 significant bits (ties to even,
spacing `2 ^ (-149)` below the normal range), a result of magnitude `2 ^ 128`
or more is an infinity, and the infinities and NaN propagate as in IEEE 754.
There is one rounding per operation, in the evaluation order of the source
(no wider intermediate format, no fused multiply-add).  The sign of a zero is
not represented: a zero divisor is taken as `+0`. -/

/-- The integer nearest to `m`, a tie going to the even neighbour. -/
def round_half_even (m : ℚ) : Int :=
  let f := ⌊m⌋
  let d := m - (f : ℚ)
  if d < 1 / 2 then f else if 1 / 2 < d then f + 1 else if f % 2 = 0 then f else f + 1

/-- The number of halvings that bring `n` below 2, at most `fuel` of them. -/
def halvings : Nat → Nat → Nat
  | 0, _ => 0
  | fuel + 1, n => if n < 2 then 0 else halvings fuel (n / 2) + 1

/-- The binary exponent of a non-zero `q`: `2 ^ e ≤ |q| < 2 ^ (e + 1)`. -/
def ilog2 (q : ℚ) : Int :=
  let e : Int := (halvings q.num.natAbs q.num.natAbs : Int) - (halvings q.den q.den : Int)
  if (2 : ℚ) ^ e ≤ |q| then e else e - 1

/-- The multiple of the binary32 spacing at `q` that is nearest to `q`, ties to
even: 24 significant bits in the normal range, multiples of `2 ^ (-149)` below
it.  Overflow is left to `fval.of_rat`. -/
def round32 (q : ℚ) : ℚ :=
  if q = 0 then 0
  else
    let ulp : ℚ := 2 ^ max (ilog2 q - 23) (-149)
    (round_half_even (q / ulp) : ℚ) * ulp

/-- The binary32 result of an operation whose exact result is `q`. -/
def fval.of_rat (q : ℚ) : fval :=
  if 2 ^ 128 ≤ round32 q then .pinf
  else if round32 q ≤ -2 ^ 128 then .ninf
  else .fin (round32 q)

/-- The rational `q` is a finite binary32 value: rounding returns it. -/
def is_binary32 (q : ℚ) : Prop :=
  fval.of_rat q = fval.fin q

instance is_binary32_decidable (q : ℚ) : Decidable (is_binary32 q) := by
  unfold is_binary32
  infer_instance

/-- Binary32 `-a`. -/
def fval.neg : fval → fval
  | .nan => .nan
  | .ninf => .pinf
  | .fin a => .fin (-a)
  | .pinf => .ninf

/-- Binary32 `a + b`. -/
def fval.add : fval → fval → fval
  | .fin a, .fin b => fval.of_rat (a + b)
  | .nan, _ => .nan
  | _, .nan => .nan
  | .pinf, .ninf => .nan
  | .ninf, .pinf => .nan
  | .pinf, _ => .pinf
  | _, .pinf => .pinf
  | .ninf, _ => .ninf
  | _, .ninf => .ninf

/-- Binary32 `a - b`. -/
def fval.sub (a b : fval) : fval :=
  a.add b.neg

/-- Binary32 `a * b`. -/
def fval.mul : fval → fval → fval
  | .fin a, .fin b => fval.of_rat (a * b)
  | .nan, _ => .nan
  | _, .nan => .nan
  | .pinf, .pinf => .pinf
  | .pinf, .ninf => .ninf
  | .ninf, .pinf => .ninf
  | .ninf, .ninf => .pinf
  | .pinf, .fin b => if b = 0 then .nan else if 0 < b then .pinf else .ninf
  | .ninf, .fin b => if b = 0 then .nan else if 0 < b then .ninf else .pinf
  | .fin a, .pinf => if a = 0 then .nan else if 0 < a then .pinf else .ninf
  | .fin a, .ninf => if a = 0 then .nan else if 0 < a then .ninf else .pinf

/-- Binary32 `a / b`. -/
def fval.div : fval → fval → fval
  | .fin a, .fin b =>
    if b = 0 then
      if a = 0 then .nan else if 0 < a then .pinf else .ninf
    else fval.of_rat (a / b)
  | .nan, _ => .nan
  | _, .nan => .nan
  | .fin _, .pinf => .fin 0
  | .fin _, .ninf => .fin 0
  | .pinf, .fin b => if 0 ≤ b then .pinf else .ninf
  | .ninf, .fin b => if 0 ≤ b then .ninf else .pinf
  | .pinf, .pinf => .nan
  | .pinf, .ninf => .nan
  | .ninf, .pinf => .nan
  | .ninf, .ninf => .nan

/-- IEEE `a >= 0.f`. -/
def fval.nonneg : fval → Bool
  | .fin a => decide (0 ≤ a)
  | .pinf => true
  | _ => false

/-- A `float4` whose components can be infinite or NaN. -/
structure float4_f32 where
  x : fval
  y : fval
  z : fval
  w : fval
deriving DecidableEq

/-- `static_cast<int>(f)` with the range of a 32-bit `int`: truncation toward
zero, undefined (`none`) when the truncated value is not an `int`. -/
def static_cast_int32 (f : ℚ) : Option Int :=
  if -2 ^ 31 ≤ static_cast_int f ∧ static_cast_int f < 2 ^ 31 then some (static_cast_int f)
  else none

namespace rasterizer

variable {A RT Color : Type}

/-! ## The rasterizer in binary32 -/

/-- `edge_function(a, b, c)` in binary32. -/
def edge_function_f32 (a b c : float2) : fval :=
  (((fval.fin c.x).sub (.fin a.x)).mul ((fval.fin b.y).sub (.fin a.y))).sub
    (((fval.fin c.y).sub (.fin a.y)).mul ((fval.fin b.x).sub (.fin a.x)))

/-- `get_equation_plane(x1, y1, z1, x2, y2, z2, x3, y3, z3)` in binary32. -/
def get_equation_plane_f32 (x1 y1 z1 x2 y2 z2 x3 y3 z3 : ℚ) : float4_f32 :=
  let a1 := (fval.fin x2).sub (.fin x1)
  let b1 := (fval.fin y2).sub (.fin y1)
  let c1 := (fval.fin z2).sub (.fin z1)
  let a2 := (fval.fin x3).sub (.fin x1)
  let b2 := (fval.fin y3).sub (.fin y1)
  let c2 := (fval.fin z3).sub (.fin z1)
  let a := (b1.mul c2).sub (b2.mul c1)
  let b := (a2.mul c1).sub (a1.mul c2)
  let c := (a1.mul b2).sub (b1.mul a2)
  let d := ((a.neg.mul (.fin x1)).sub (b.mul (.fin y1))).sub (c.mul (.fin z1))
  ⟨a, b, c, d⟩

/-- Lines 103-111 of `draw` in binary32; `width` and `height` are converted to
`float` before they are multiplied.  The result is `none` when a screen
coordinate is not finite (`w = 0`, or an overflow): the source carries on with
the infinity or NaN, which this model does not follow. -/
def to_screen_f32 (r : rasterizer A RT Color) (v : vertex A) : Option (vertex A) :=
  let coords : float4 := ⟨v.x, v.y, v.z, 1⟩
  let processed_v := r.vertex_shader coords v
  let x := (fval.fin processed_v.1.x).div (.fin processed_v.1.w)
  let y := (fval.fin processed_v.1.y).div (.fin processed_v.1.w)
  let z := (fval.fin processed_v.1.z).div (.fin processed_v.1.w)
  let sx := (((x.add (.fin 1)).mul (fval.of_rat (r.width : ℚ))).div (.fin 2))
  let sy := (((y.neg.add (.fin 1)).mul (fval.of_rat (r.height : ℚ))).div (.fin 2))
  match sx, sy, z with
  | .fin px, .fin py, .fin pz => some { v with x := px, y := py, z := pz }
  | _, _, _ => none

/-- The bound `static_cast<float>(n) - 1.f` of lines 117-131 for a `size_t` n
(below `2 ^ 64`, so neither operation overflows). -/
def box_bound (n : Nat) : ℚ :=
  round32 (round32 (n : ℚ) - 1)

/-- Lines 114-123 of `draw` in binary32. -/
def bounding_box_begin_f32 (r : rasterizer A RT Color) (v0 v1 v2 : vertex A) : float2 :=
  ⟨clamp (min (min v0.x v1.x) v2.x) 0 (box_bound r.width),
   clamp (min (min v0.y v1.y) v2.y) 0 (box_bound r.height)⟩

/-- Lines 124-133 of `draw` in binary32. -/
def bounding_box_end_f32 (r : rasterizer A RT Color) (v0 v1 v2 : vertex A) : float2 :=
  ⟨clamp (max (max v0.x v1.x) v2.x) 0 (box_bound r.width),
   clamp (max (max v0.y v1.y) v2.y) 0 (box_bound r.height)⟩

/-- The coverage test of lines 148-154 at pixel `(x, y)` in binary32; the `int`
coordinates are converted to `float`. -/
def covered_f32 (v0 v1 v2 : vertex A) (x y : Int) : Bool :=
  let a : float2 := ⟨v0.x, v0.y⟩
  let b : float2 := ⟨v1.x, v1.y⟩
  let c : float2 := ⟨v2.x, v2.y⟩
  let p : float2 := ⟨round32 (x : ℚ), round32 (y : ℚ)⟩
  (edge_function_f32 a b p).nonneg && (edge_function_f32 b c p).nonneg
    && (edge_function_f32 c a p).nonneg

/-- The depth of lines 160-165 solved at a point `(x, y)` in binary32. -/
def plane_depth_f32 (v0 v1 v2 : vertex A) (x y : ℚ) : fval :=
  let plane := get_equation_plane_f32 v0.x v0.y v0.z v1.x v1.y v1.z v2.x v2.y v2.z
  (((plane.x.neg.mul (.fin x)).sub (plane.y.mul (.fin y))).sub plane.w).div plane.z

/-- The depth of lines 160-165 at pixel `(x, y)` in binary32; the `int`
coordinates are converted to `float` before they are multiplied. -/
def pixel_depth_f32 (v0 v1 v2 : vertex A) (x y : Int) : fval :=
  plane_depth_f32 v0 v1 v2 (round32 (x : ℚ)) (round32 (y : ℚ))

/-- Lines 146-179 of `draw` in binary32: the body of the pixel loop. -/
def pixel_f32 (from_color : Color → RT) (v0 v1 v2 : vertex A) (x y : Int)
    (r : rasterizer A RT Color) : Option (rasterizer A RT Color) :=
  if covered_f32 v0 v1 v2 x y then
    write_pixel from_color v0 (pixel_depth_f32 v0 v1 v2 x y) x y r
  else some r

/-- Lines 114-181 of `draw` in binary32: the scan of one triangle given by its
three screen-space vertices.  Each loop evaluates the cast of its start once
and the cast of its end before every iteration. -/
def draw_triangle_f32 (from_color : Color → RT) (v0 v1 v2 : vertex A)
    (r : rasterizer A RT Color) : Option (rasterizer A RT Color) :=
  let bb_begin := r.bounding_box_begin_f32 v0 v1 v2
  let bb_end := r.bounding_box_end_f32 v0 v1 v2
  (static_cast_int32 bb_begin.x).bind fun x0 =>
  (static_cast_int32 bb_end.x).bind fun x1 =>
  for_each (int_range x0 x1) (fun x s =>
    (static_cast_int32 bb_begin.y).bind fun y0 =>
    (static_cast_int32 bb_end.y).bind fun y1 =>
    for_each (int_range y0 y1) (fun y => pixel_f32 from_color v0 v1 v2 x y) s) r

/-- One iteration of the `while` loop of `draw` in binary32. -/
def draw_step_f32 (from_color : Color → RT) (vertex_id : Nat)
    (r : rasterizer A RT Color) : Option (rasterizer A RT Color) :=
  r.vertex_buffer.bind fun vb =>
    (vb.item_linear vertex_id).bind fun i0 =>
    (vb.item_linear (vertex_id + 1)).bind fun i1 =>
    (vb.item_linear (vertex_id + 2)).bind fun i2 =>
    (r.to_screen_f32 i0).bind fun v0 =>
    (r.to_screen_f32 i1).bind fun v1 =>
    (r.to_screen_f32 i2).bind fun v2 =>
    draw_triangle_f32 from_color v0 v1 v2 r

/-- The `while` loop of `draw` in binary32, with fuel. -/
def draw_loop_f32 (from_color : Color → RT) (bound : Nat) :
    Nat → Nat → rasterizer A RT Color → Option (rasterizer A RT Color)
  | 0, vertex_id, r => if vertex_id < bound then none else some r
  | fuel + 1, vertex_id, r =>
    if vertex_id < bound then
      (draw_step_f32 from_color vertex_id r).bind
        (draw_loop_f32 from_color bound fuel (vertex_id + 3))
    else some r

/-- `draw(num_vertexes, vertex_offest)` in binary32. -/
def draw_f32 (from_color : Color → RT) (r : rasterizer A RT Color)
    (num_vertexes vertex_offest : Nat) : Option (rasterizer A RT Color) :=
  draw_loop_f32 from_color ((vertex_offest + num_vertexes) % 2 ^ 64) num_vertexes
    vertex_offest r

/-- The run of `draw` in binary32 over `n` whole triangles: iteration `k` is the
loop body at `vertex_id = offset + 3 * k`. -/
def draw_triples_f32 (from_color : Color → RT) (offset n : Nat)
    (r : rasterizer A RT Color) : Option (rasterizer A RT Color) :=
  for_each (List.range n) (fun k => draw_step_f32 from_color (offset + 3 * k)) r

/-- Pixel `(x, y)` is one the binary32 scan of the triangle visits. -/
def in_box_f32 (r : rasterizer A RT Color) (v0 v1 v2 : vertex A) (x y : Int) : Prop :=
  static_cast_int (r.bounding_box_begin_f32 v0 v1 v2).x ≤ x ∧
  x ≤ static_cast_int (r.bounding_box_end_f32 v0 v1 v2).x ∧
  static_cast_int (r.bounding_box_begin_f32 v0 v1 v2).y ≤ y ∧
  y ≤ static_cast_int (r.bounding_box_end_f32 v0 v1 v2).y

instance in_box_f32_decidable (r : rasterizer A RT Color) (v0 v1 v2 : vertex A) (x y : Int) :
    Decidable (in_box_f32 r v0 v1 v2 x y) := by
  unfold in_box_f32
  infer_instance

/-- Pixel `(x, y)` passes the binary32 coverage test and its binary32 depth
passes the depth test against the state `r`. -/
def hit_f32 (r : rasterizer A RT Color) (v0 v1 v2 : vertex A) (x y : Int) : Bool :=
  covered_f32 v0 v1 v2 x y && (r.depth_test (pixel_depth_f32 v0 v1 v2 x y) x y == some true)

/-- No operation of `get_equation_plane` rounds on these inputs: each of its
twenty exact intermediate results is a binary32 value. -/
def plane_unrounded (x1 y1 z1 x2 y2 z2 x3 y3 z3 : ℚ) : Prop :=
  is_binary32 (x2 - x1) ∧ is_binary32 (y2 - y1) ∧ is_binary32 (z2 - z1) ∧
  is_binary32 (x3 - x1) ∧ is_binary32 (y3 - y1) ∧ is_binary32 (z3 - z1) ∧
  is_binary32 ((y2 - y1) * (z3 - z1)) ∧ is_binary32 ((y3 - y1) * (z2 - z1)) ∧
  is_binary32 ((x3 - x1) * (z2 - z1)) ∧ is_binary32 ((x2 - x1) * (z3 - z1)) ∧
  is_binary32 ((x2 - x1) * (y3 - y1)) ∧ is_binary32 ((y2 - y1) * (x3 - x1)) ∧
  is_binary32 (get_equation_plane x1 y1 z1 x2 y2 z2 x3 y3 z3).x ∧
  is_binary32 (get_equation_plane x1 y1 z1 x2 y2 z2 x3 y3 z3).y ∧
  is_binary32 (get_equation_plane x1 y1 z1 x2 y2 z2 x3 y3 z3).z ∧
  is_binary32 (-(get_equation_plane x1 y1 z1 x2 y2 z2 x3 y3 z3).x * x1) ∧
  is_binary32 ((get_equation_plane x1 y1 z1 x2 y2 z2 x3 y3 z3).y * y1) ∧
  is_binary32 (-(get_equation_plane x1 y1 z1 x2 y2 z2 x3 y3 z3).x * x1
    - (get_equation_plane x1 y1 z1 x2 y2 z2 x3 y3 z3).y * y1) ∧
  is_binary32 ((get_equation_plane x1 y1 z1 x2 y2 z2 x3 y3 z3).z * z1) ∧
  is_binary32 (get_equation_plane x1 y1 z1 x2 y2 z2 x3 y3 z3).w

instance plane_unrounded_decidable (x1 y1 z1 x2 y2 z2 x3 y3 z3 : ℚ) :
    Decidable (plane_unrounded x1 y1 z1 x2 y2 z2 x3 y3 z3) := by
  unfold plane_unrounded
  infer_instance

/-- No operation of the depth `(-a * x - b * y - d) / c` of lines 160-165 rounds
at the point `(x, y)` for the plane `p = (a, b, c, d)`, and `c` is not zero. -/
def depth_unrounded (p : float4) (x y : ℚ) : Prop :=
  p.z ≠ 0 ∧ is_binary32 (-p.x * x) ∧ is_binary32 (p.y * y) ∧
  is_binary32 (-p.x * x - p.y * y) ∧ is_binary32 (-p.x * x - p.y * y - p.w) ∧
  is_binary32 ((-p.x * x - p.y * y - p.w) / p.z)

instance depth_unrounded_decidable (p : float4) (x y : ℚ) :
    Decidable (depth_unrounded p x y) := by
  unfold depth_unrounded
  infer_instance

/-- The pixel at which a screen-space vertex lands in binary32. -/
def landing_pixel_f32 (r : rasterizer A RT Color) (s : vertex A) : Int × Int :=
  (static_cast_int (r.bounding_box_begin_f32 s s s).x,
   static_cast_int (r.bounding_box_begin_f32 s s s).y)

end rasterizer

/-! ## Sample inputs -/

/-- A 4 x 4 render target of zeros. -/
def sample_target : resource Nat :=
  ⟨List.replicate 16 0, 4, 4⟩

/-- A 4 x 4 depth buffer cleared to `+infinity`. -/
def sample_depth : resource fval :=
  ⟨List.replicate 16 fval.pinf, 4, 4⟩

/-- The vertex stage that returns its input: every `w` is 1. -/
def identity_stage {A : Type} : float4 → vertex A → float4 × vertex A :=
  fun c v => (c, v)

/-- Three vertices that map, in a 4 x 4 viewport, to the screen points
`(0, 0)`, `(0, 3)`, `(3, 0)`: signed area `9`. -/
def sample_vertices : resource (vertex Unit) :=
  ⟨[⟨-1, 1, 0, ()⟩, ⟨-1, -1 / 2, 0, ()⟩, ⟨1 / 2, 1, 0, ()⟩], 0, 0⟩

/-- The same three vertices with the last two exchanged: signed area `-9`. -/
def sample_vertices_reversed : resource (vertex Unit) :=
  ⟨[⟨-1, 1, 0, ()⟩, ⟨1 / 2, 1, 0, ()⟩, ⟨-1, -1 / 2, 0, ()⟩], 0, 0⟩

/-- A rasterizer with a 4 x 4 viewport and target, no depth buffer, the identity
vertex stage and a pixel stage that returns the colour `7`. -/
def sample_rasterizer : rasterizer Unit Nat Nat :=
  ⟨some sample_vertices, some sample_target, none, 4, 4, identity_stage, fun _ _ => 7⟩

/-- Three copies of one vertex, which maps to the screen point `(0, 0)`. -/
def sample_vertices_coincident : resource (vertex Unit) :=
  ⟨[⟨-1, 1, 0, ()⟩, ⟨-1, 1, 0, ()⟩, ⟨-1, 1, 0, ()⟩], 0, 0⟩

/-- Two triangles over the same screen points `(0, 0)`, `(0, 3)`, `(3, 0)`: the
first at depth `1 / 5` with colour `1`, the second at depth `4 / 5` with
colour `2`. -/
def sample_two_triangles : resource (vertex Nat) :=
  ⟨[⟨-1, 1, 1 / 5, 1⟩, ⟨-1, -1 / 2, 1 / 5, 1⟩, ⟨1 / 2, 1, 1 / 5, 1⟩,
    ⟨-1, 1, 4 / 5, 2⟩, ⟨-1, -1 / 2, 4 / 5, 2⟩, ⟨1 / 2, 1, 4 / 5, 2⟩], 0, 0⟩

/-- A rasterizer with a 4 x 4 viewport, target and depth buffer, the identity
vertex stage and a pixel stage that returns the colour kept in the vertex. -/
def sample_depth_rasterizer : rasterizer Nat Nat Nat :=
  ⟨some sample_two_triangles, some sample_target, some sample_depth, 4, 4, identity_stage,
    fun v _ => v.attr⟩

/-- The two sample triangles of colours `1` and `2` with no depth buffer bound. -/
def sample_flat_rasterizer : rasterizer Nat Nat Nat :=
  ⟨some sample_two_triangles, some sample_target, none, 4, 4, identity_stage,
    fun v _ => v.attr⟩

/-- An 8 x 8 render target of zeros. -/
def sample_target8 : resource Nat :=
  ⟨List.replicate 64 0, 8, 8⟩

/-- An 8 x 8 depth buffer cleared to `+infinity`. -/
def sample_depth8 : resource fval :=
  ⟨List.replicate 64 fval.pinf, 8, 8⟩

/-- Three binary32 vertices that map, in an 8 x 8 viewport, to the screen points
`(9437181 / 2 ^ 22, 9 / 4)`, `(6815745 / 2 ^ 20, 13 / 2)` and
`(3276801 / 2 ^ 19, 786431 / 2 ^ 20)`, all inside the viewport; the edge from
the first to the second passes pixel `(4, 4)` at a distance of about `2 ^ (-25)`. -/
def sample_vertices_grazing : resource (vertex Unit) :=
  ⟨[⟨-7340035 / 16777216, 7 / 16, 0, ()⟩, ⟨2621441 / 4194304, -5 / 8, 0, ()⟩,
    ⟨1179649 / 2097152, 3407873 / 4194304, 0, ()⟩], 0, 0⟩

/-- A rasterizer with an 8 x 8 viewport and target, no depth buffer, the
identity vertex stage and a pixel stage that returns the colour `7`. -/
def sample_grazing_rasterizer : rasterizer Unit Nat Nat :=
  ⟨some sample_vertices_grazing, some sample_target8, none, 8, 8, identity_stage,
    fun _ _ => 7⟩

/-- Three binary32 vertices that map, in a 4 x 4 viewport, to the screen points
`(1 / 4, 1 / 4)`, `(11 / 4, 11 / 4)` and `(1 / 2, 1 / 2 + 2 ^ (-23))`: a sliver of
signed area `-5 / 2 ^ 24`. -/
def sample_vertices_sliver : resource (vertex Unit) :=
  ⟨[⟨-7 / 8, 7 / 8, 0, ()⟩, ⟨3 / 8, -3 / 8, 0, ()⟩,
    ⟨-3 / 4, 12582911 / 16777216, 0, ()⟩], 0, 0⟩

/-- Three binary32 vertices that map, in an 8 x 8 viewport, to the collinear
screen points `(0, 6)`, `(3 / 4, 45 / 8)`, `(2, 5)`; their depths are the
binary32 values nearest to `0.2`, `0.1` and `0.3`. -/
def sample_vertices_collinear : resource (vertex Unit) :=
  ⟨[⟨-1, -1 / 2, 13421773 / 67108864, ()⟩, ⟨-13 / 16, -13 / 32, 13421773 / 134217728, ()⟩,
    ⟨-1 / 2, -1 / 4, 5033165 / 16777216, ()⟩], 0, 0⟩

/-- A rasterizer with an 8 x 8 viewport, target and depth buffer, bound to the
three collinear vertices. -/
def sample_collinear_rasterizer : rasterizer Unit Nat Nat :=
  ⟨some sample_vertices_collinear, some sample_target8, some sample_depth8, 8, 8,
    identity_stage, fun _ _ => 7⟩

/-- Two triangles of constant depth in an 8 x 8 viewport.  The first, over the
screen points `(0, 0)`, `(0, 5)`, `(1, 0)`, has depth `4080219 / 2 ^ 33` and
colour `1`; the second, over `(0, 0)`, `(0, 3)`, `(3, 0)`, has the next binary32
value above, `16320877 / 2 ^ 35`, as its depth and colour `2`. -/
def sample_adjacent_triangles : resource (vertex Nat) :=
  ⟨[⟨-1, 1, 4080219 / 8589934592, 1⟩, ⟨-1, -1 / 4, 4080219 / 8589934592, 1⟩,
    ⟨-3 / 4, 1, 4080219 / 8589934592, 1⟩,
    ⟨-1, 1, 16320877 / 34359738368, 2⟩, ⟨-1, 1 / 4, 16320877 / 34359738368, 2⟩,
    ⟨-1 / 4, 1, 16320877 / 34359738368, 2⟩], 0, 0⟩

/-- A rasterizer with an 8 x 8 viewport, target and depth buffer, bound to the
two triangles of adjacent depths. -/
def sample_adjacent_rasterizer : rasterizer Nat Nat Nat :=
  ⟨some sample_adjacent_triangles, some sample_target8, some sample_depth8, 8, 8,
    identity_stage, fun v _ => v.attr⟩

/-- Three vertices that map, in a viewport of width 16777220 and height 1, to
the screen points `(16777220, 0)`, `(16777220, 2)`, `(33554440, 0)`. -/
def sample_vertices_wide : resource (vertex Unit) :=
  ⟨[⟨1, 1, 0, ()⟩, ⟨1, -3, 0, ()⟩, ⟨3, 1, 0, ()⟩], 0, 0⟩

/-- A rasterizer with a viewport and a render target of width 16777220 and
height 1. -/
def sample_wide_rasterizer : rasterizer Unit Nat Nat :=
  ⟨some sample_vertices_wide, some ⟨List.replicate 16777220 0, 16777220, 1⟩, none,
    16777220, 1, identity_stage, fun _ _ => 7⟩

/-- A rasterizer with a 4 x 4 viewport whose vertex stage sets `w = 3`. -/
def sample_third_rasterizer : rasterizer Unit Nat Nat :=
  ⟨none, none, none, 4, 4, fun c v => (⟨c.x, c.y, c.z, 3⟩, v), fun _ _ => 7⟩

/-! ## Buffer access -/

theorem index_inj {W x y x1 y1 : Nat} (hx : x < W) (hx1 : x1 < W)
    (h : y * W + x = y1 * W + x1) : x = x1 ∧ y = y1 := by
  have h1 : (y * W + x) % W = (y1 * W + x1) % W := by rw [h]
  have h2 : (y * W + x) / W = (y1 * W + x1) / W := by rw [h]
  have hW : 0 < W := by omega
  rw [Nat.mul_comm y W, Nat.mul_comm y1 W] at h1 h2
  rw [Nat.mul_add_mod, Nat.mul_add_mod, Nat.mod_eq_of_lt hx, Nat.mod_eq_of_lt hx1] at h1
  rw [Nat.mul_add_div hW, Nat.mul_add_div hW, Nat.div_eq_of_lt hx, Nat.div_eq_of_lt hx1] at h2
  exact ⟨h1, by simpa using h2⟩

namespace resource

variable {T : Type}

theorem index_of_lt {r : resource T} (h2 : r.is_2d) {x y : Nat} (hx : x < r.width)
    (hy : y < r.height) : r.index x y = some (y * r.width + x) := by
  have : y * r.width + x < r.data.length := by
    rw [h2]
    calc y * r.width + x < y * r.width + r.width := by omega
      _ = (y + 1) * r.width := by ring
      _ ≤ r.height * r.width := Nat.mul_le_mul_right _ hy
      _ = r.width * r.height := Nat.mul_comm _ _
  simp [index, hx, hy, this]

theorem index_eq_some {r : resource T} {x y i : Nat} (h : r.index x y = some i) :
    x < r.width ∧ y < r.height ∧ i < r.data.length ∧ i = y * r.width + x := by
  unfold index at h
  split at h
  · rename_i hc
    simp only [Option.some.injEq] at h
    subst h
    exact ⟨hc.1, hc.2.1, hc.2.2, rfl⟩
  · simp at h

theorem item_set_item {r r1 : resource T} {x y : Nat} {v : T}
    (h : r.set_item x y v = some r1) (x1 y1 : Nat) :
    r1.item x1 y1 = if x1 = x ∧ y1 = y then some v else r.item x1 y1 := by
  unfold set_item at h
  cases hi : r.index x y with
  | none => simp [hi] at h
  | some i =>
    simp only [hi, Option.map_some', Option.some.injEq] at h
    subst h
    obtain ⟨hx, hy, hlen, hidx⟩ := index_eq_some hi
    have hsame : index { r with data := r.data.set i v } x1 y1 = r.index x1 y1 := by
      simp [index]
    unfold item
    rw [hsame]
    cases hj : r.index x1 y1 with
    | none =>
      have : ¬ (x1 = x ∧ y1 = y) := by
        rintro ⟨rfl, rfl⟩
        simp [hi] at hj
      simp [this]
    | some j =>
      obtain ⟨hx1, hy1, hlen1, hjdx⟩ := index_eq_some hj
      simp only [Option.some_bind, List.getElem?_set]
      by_cases hc : x1 = x ∧ y1 = y
      · obtain ⟨rfl, rfl⟩ := hc
        have : i = j := by omega
        simp [this, hlen1]
      · have : i ≠ j := by
          intro hij
          apply hc
          subst hidx hjdx
          exact index_inj hx1 hx hij.symm
        simp [this, hc]

theorem set_item_shape {r r1 : resource T} {x y : Nat} {v : T}
    (h : r.set_item x y v = some r1) : r1.shape = r.shape := by
  unfold set_item at h
  cases hi : r.index x y with
  | none => simp [hi] at h
  | some i =>
    simp only [hi, Option.map_some', Option.some.injEq] at h
    subst h
    simp [shape]

theorem set_item_isSome {r : resource T} (h2 : r.is_2d) {x y : Nat} (hx : x < r.width)
    (hy : y < r.height) (v : T) : ∃ r1, r.set_item x y v = some r1 := by
  simp [set_item, index_of_lt h2 hx hy]

theorem item_isSome {r : resource T} (h2 : r.is_2d) {x y : Nat} (hx : x < r.width)
    (hy : y < r.height) : ∃ v, r.item x y = some v := by
  have hi := index_of_lt h2 hx hy
  obtain ⟨_, _, hlen, _⟩ := index_eq_some hi
  refine ⟨r.data[y * r.width + x], ?_⟩
  simp [item, hi, hlen]

theorem item_at_set_item_at {r r1 : resource T} {x y : Int} {v : T}
    (h : r.set_item_at x y v = some r1) (x1 y1 : Int) :
    r1.item_at x1 y1 = if x1 = x ∧ y1 = y then some v else r.item_at x1 y1 := by
  unfold set_item_at at h
  split at h
  · simp at h
  · rename_i hneg
    unfold item_at
    by_cases hn1 : x1 < 0 ∨ y1 < 0
    · have : ¬ (x1 = x ∧ y1 = y) := by
        rintro ⟨rfl, rfl⟩
        exact hneg hn1
      simp [hn1, this]
    · simp only [hn1, if_false]
      rw [item_set_item h]
      have hiff : (x1.toNat = x.toNat ∧ y1.toNat = y.toNat) ↔ (x1 = x ∧ y1 = y) := by
        constructor
        · rintro ⟨ha, hb⟩
          constructor <;> omega
        · rintro ⟨rfl, rfl⟩
          exact ⟨rfl, rfl⟩
      simp only [hiff]

theorem set_item_at_shape {r r1 : resource T} {x y : Int} {v : T}
    (h : r.set_item_at x y v = some r1) : r1.shape = r.shape := by
  unfold set_item_at at h
  split at h
  · simp at h
  · exact set_item_shape h

theorem set_item_at_isSome {r : resource T} (h2 : r.is_2d) {x y : Int} (hx0 : 0 ≤ x)
    (hx : x < r.width) (hy0 : 0 ≤ y) (hy : y < r.height) (v : T) :
    ∃ r1, r.set_item_at x y v = some r1 := by
  have hneg : ¬ (x < 0 ∨ y < 0) := by omega
  simp only [set_item_at, hneg, if_false]
  exact set_item_isSome h2 (by omega) (by omega) v

theorem item_at_isSome {r : resource T} (h2 : r.is_2d) {x y : Int} (hx0 : 0 ≤ x)
    (hx : x < r.width) (hy0 : 0 ≤ y) (hy : y < r.height) :
    ∃ v, r.item_at x y = some v := by
  have hneg : ¬ (x < 0 ∨ y < 0) := by omega
  simp only [item_at, hneg, if_false]
  exact item_isSome h2 (by omega) (by omega)

theorem is_2d_of_shape {r r1 : resource T} (h : r1.shape = r.shape) (h2 : r.is_2d) :
    r1.is_2d := by
  simp only [shape, Prod.mk.injEq] at h
  unfold is_2d at *
  rw [h.1, h.2.1, h.2.2, h2]

end resource

namespace rasterizer

variable {A RT Color : Type}

/-! ## Frame and fit -/

theorem frame_refl (r : rasterizer A RT Color) : frame r r :=
  ⟨rfl, rfl, rfl, rfl, rfl, rfl, rfl⟩

theorem frame_trans {r r1 r2 : rasterizer A RT Color} (h1 : frame r r1) (h2 : frame r1 r2) :
    frame r r2 := by
  obtain ⟨a1, a2, a3, a4, a5, a6, a7⟩ := h1
  obtain ⟨b1, b2, b3, b4, b5, b6, b7⟩ := h2
  exact ⟨b1.trans a1, b2.trans a2, b3.trans a3, b4.trans a4, b5.trans a5, b6.trans a6,
    b7.trans a7⟩

theorem fits_of_frame {r r1 : rasterizer A RT Color} (h : frame r r1) (hf : fits r) :
    fits r1 := by
  obtain ⟨-, hw, hh, -, -, hrt, hdb⟩ := h
  obtain ⟨⟨t, ht, ht2, htw, hth⟩, hd⟩ := hf
  constructor
  · rw [ht] at hrt
    cases ht1 : r1.render_target with
    | none => simp [ht1] at hrt
    | some t1 =>
      simp only [ht1, Option.map_some', Option.some.injEq] at hrt
      refine ⟨t1, rfl, resource.is_2d_of_shape hrt ht2, ?_, ?_⟩
      · simp only [resource.shape, Prod.mk.injEq] at hrt
        omega
      · simp only [resource.shape, Prod.mk.injEq] at hrt
        omega
  · intro d1 hd1
    rw [hd1] at hdb
    cases hd0 : r.depth_buffer with
    | none => simp [hd0] at hdb
    | some d =>
      simp only [hd0, Option.map_some', Option.some.injEq] at hdb
      obtain ⟨hd2, hdw, hdh⟩ := hd d hd0
      refine ⟨resource.is_2d_of_shape hdb hd2, ?_, ?_⟩
      · simp only [resource.shape, Prod.mk.injEq] at hdb
        omega
      · simp only [resource.shape, Prod.mk.injEq] at hdb
        omega

theorem depth_test_eq (r : rasterizer A RT Color) (z : fval) (x y : Int) :
    r.depth_test z x y =
      if r.depth_buffer.isSome then (r.depth_at x y).map fun stored => stored.gt z
      else some true := by
  unfold depth_test depth_at
  cases r.depth_buffer <;> simp

theorem depth_test_congr {r r1 : rasterizer A RT Color} (h : frame r r1) {x y : Int}
    (hd : r1.depth_at x y = r.depth_at x y) (z : fval) :
    r1.depth_test z x y = r.depth_test z x y := by
  rw [depth_test_eq, depth_test_eq, hd]
  have : r1.depth_buffer.isSome = r.depth_buffer.isSome := by
    have h7 := h.2.2.2.2.2.2
    cases h1 : r1.depth_buffer <;> cases h0 : r.depth_buffer <;> simp [h1, h0] at h7 ⊢
  rw [this]

theorem hit_congr {r r1 : rasterizer A RT Color} (h : frame r r1) {x y : Int}
    (hd : r1.depth_at x y = r.depth_at x y) (v0 v1 v2 : vertex A) :
    hit r1 v0 v1 v2 x y = hit r v0 v1 v2 x y := by
  unfold hit
  rw [depth_test_congr h hd]

/-! ## One pixel -/

theorem write_pixel_spec (from_color : Color → RT) (v0 : vertex A) (z : fval) {x y : Int}
    {r : rasterizer A RT Color} (hf : fits r) (hx0 : 0 ≤ x) (hx : x < r.width)
    (hy0 : 0 ≤ y) (hy : y < r.height) :
    ∃ r1, write_pixel from_color v0 z x y r = some r1 ∧ frame r r1 ∧
      (∀ x1 y1, r1.color_at x1 y1 =
        if (x1 = x ∧ y1 = y) ∧ r.depth_test z x y = some true
        then some (from_color (r.pixel_shader v0 0)) else r.color_at x1 y1) ∧
      (∀ x1 y1, r1.depth_at x1 y1 =
        if (x1 = x ∧ y1 = y) ∧ r.depth_test z x y = some true
        then (r.depth_at x1 y1).map (fun _ => z) else r.depth_at x1 y1) := by
  obtain ⟨⟨t, ht, ht2, htw, hth⟩, hd⟩ := hf
  have hxt : x < t.width := by omega
  have hyt : y < t.height := by omega
  obtain ⟨t1, ht1⟩ := resource.set_item_at_isSome ht2 hx0 hxt hy0 hyt
    (from_color (r.pixel_shader v0 0))
  cases hdb : r.depth_buffer with
  | none =>
    have hdt : r.depth_test z x y = some true := by simp [depth_test, hdb]
    refine ⟨{ r with render_target := some t1 }, ?_, ?_, ?_, ?_⟩
    · simp [write_pixel, hdt, ht, ht1, hdb]
    · refine ⟨rfl, rfl, rfl, rfl, rfl, ?_, rfl⟩
      simp [ht, resource.set_item_at_shape ht1]
    · intro x1 y1
      simp only [color_at, ht, Option.some_bind, hdt, and_true]
      exact resource.item_at_set_item_at ht1 x1 y1
    · intro x1 y1
      simp [depth_at, hdb]
  | some d =>
    obtain ⟨hd2, hdw, hdh⟩ := hd d hdb
    have hxd : x < d.width := by omega
    have hyd : y < d.height := by omega
    obtain ⟨s, hs⟩ := resource.item_at_isSome hd2 hx0 hxd hy0 hyd
    obtain ⟨d1, hd1⟩ := resource.set_item_at_isSome hd2 hx0 hxd hy0 hyd z
    have hdt : r.depth_test z x y = some (s.gt z) := by simp [depth_test, hdb, hs]
    cases hpass : s.gt z with
    | false =>
      refine ⟨r, ?_, frame_refl r, ?_, ?_⟩
      · simp [write_pixel, hdt, hpass]
      · intro x1 y1
        simp [hdt, hpass]
      · intro x1 y1
        simp [hdt, hpass]
    | true =>
      refine ⟨{ r with render_target := some t1, depth_buffer := some d1 }, ?_, ?_, ?_, ?_⟩
      · simp [write_pixel, hdt, hpass, ht, ht1, hdb, hd1]
      · refine ⟨rfl, rfl, rfl, rfl, rfl, ?_, ?_⟩
        · simp [ht, resource.set_item_at_shape ht1]
        · simp [hdb, resource.set_item_at_shape hd1]
      · intro x1 y1
        simp only [color_at, ht, Option.some_bind, hdt, hpass, and_true]
        exact resource.item_at_set_item_at ht1 x1 y1
      · intro x1 y1
        simp only [depth_at, hdb, Option.some_bind, hdt, hpass, and_true]
        rw [resource.item_at_set_item_at hd1 x1 y1]
        by_cases hc : x1 = x ∧ y1 = y
        · obtain ⟨rfl, rfl⟩ := hc
          simp [hs]
        · simp [hc]

theorem pixel_spec (from_color : Color → RT) (v0 v1 v2 : vertex A) {x y : Int}
    {r : rasterizer A RT Color} (hf : fits r) (hx0 : 0 ≤ x) (hx : x < r.width)
    (hy0 : 0 ≤ y) (hy : y < r.height) :
    ∃ r1, pixel from_color v0 v1 v2 x y r = some r1 ∧ frame r r1 ∧
      (∀ x1 y1, r1.color_at x1 y1 =
        if (x1 = x ∧ y1 = y) ∧ hit r v0 v1 v2 x y = true
        then some (from_color (r.pixel_shader v0 0)) else r.color_at x1 y1) ∧
      (∀ x1 y1, r1.depth_at x1 y1 =
        if (x1 = x ∧ y1 = y) ∧ hit r v0 v1 v2 x y = true
        then (r.depth_at x1 y1).map (fun _ => pixel_depth v0 v1 v2 x y)
        else r.depth_at x1 y1) := by
  cases hc : covered v0 v1 v2 x y with
  | false =>
    refine ⟨r, by simp [pixel, hc], frame_refl r, ?_, ?_⟩ <;> intro x1 y1 <;> simp [hit, hc]
  | true =>
    obtain ⟨r1, h1, h2, h3, h4⟩ :=
      write_pixel_spec from_color v0 (pixel_depth v0 v1 v2 x y) hf hx0 hx hy0 hy
    refine ⟨r1, by simp [pixel, hc, h1], h2, ?_, ?_⟩
    · intro x1 y1
      rw [h3]
      simp [hit, hc]
    · intro x1 y1
      rw [h4]
      simp [hit, hc]

end rasterizer

/-! ## Loops -/

theorem mem_int_range {lo hi x : Int} : x ∈ int_range lo hi ↔ lo ≤ x ∧ x ≤ hi := by
  unfold int_range
  simp only [List.mem_map, List.mem_range]
  constructor
  · rintro ⟨k, hk, rfl⟩
    omega
  · rintro ⟨h1, h2⟩
    exact ⟨(x - lo).toNat, by omega, by omega⟩

theorem nodup_int_range (lo hi : Int) : (int_range lo hi).Nodup := by
  unfold int_range
  apply List.Nodup.map _ (List.nodup_range _)
  intro a b h
  simpa using h

theorem for_each_append {I S : Type} (l1 l2 : List I) (body : I → S → Option S) (s : S) :
    for_each (l1 ++ l2) body s = (for_each l1 body s).bind (for_each l2 body) := by
  induction l1 generalizing s with
  | nil => simp [for_each]
  | cons i rest ih =>
    simp only [List.cons_append, for_each]
    cases body i s with
    | none => simp
    | some s1 => simp [ih]

theorem for_each_map {I J S : Type} (f : J → I) (l : List J) (body : I → S → Option S)
    (s : S) : for_each (l.map f) body s = for_each l (fun j => body (f j)) s := by
  induction l generalizing s with
  | nil => simp [for_each]
  | cons j rest ih =>
    simp only [List.map_cons, for_each]
    cases body (f j) s with
    | none => simp
    | some s1 => simp [ih]

theorem for_each_product {I J S : Type} (xs : List I) (ys : List J)
    (body : I → J → S → Option S) (s : S) :
    for_each xs (fun x => for_each ys (body x)) s =
      for_each (xs ×ˢ ys) (fun p => body p.1 p.2) s := by
  induction xs generalizing s with
  | nil => simp [for_each]
  | cons x rest ih =>
    rw [List.product_cons, for_each_append, for_each_map]
    simp only [for_each]
    cases for_each ys (body x) s with
    | none => simp
    | some s1 => simp [ih]

theorem for_each_skip {I S : Type} (l : List I) (body : I → S → Option S) (s : S)
    (h : ∀ i ∈ l, body i s = some s) : for_each l body s = some s := by
  induction l with
  | nil => simp [for_each]
  | cons i rest ih =>
    simp only [for_each, h i (List.mem_cons_self _ _), Option.some_bind]
    exact ih fun j hj => h j (List.mem_cons_of_mem _ hj)

namespace rasterizer
variable {A RT Color : Type}

theorem scan_spec (from_color : Color → RT) (v0 v1 v2 : vertex A) (ps : List (Int × Int))
    (hnd : ps.Nodup) (r : rasterizer A RT Color) (hf : fits r)
    (hin : ∀ p ∈ ps, 0 ≤ p.1 ∧ p.1 < r.width ∧ 0 ≤ p.2 ∧ p.2 < r.height) :
    ∃ r1, for_each ps (fun p => pixel from_color v0 v1 v2 p.1 p.2) r = some r1 ∧ frame r r1 ∧
      (∀ x y, r1.color_at x y =
        if (x, y) ∈ ps ∧ hit r v0 v1 v2 x y = true
        then some (from_color (r.pixel_shader v0 0)) else r.color_at x y) ∧
      (∀ x y, r1.depth_at x y =
        if (x, y) ∈ ps ∧ hit r v0 v1 v2 x y = true
        then (r.depth_at x y).map (fun _ => pixel_depth v0 v1 v2 x y)
        else r.depth_at x y) := by
  induction ps generalizing r with
  | nil =>
    exact ⟨r, by simp [for_each], frame_refl r, by simp, by simp⟩
  | cons p rest ih =>
    obtain ⟨hp, hrest⟩ := List.nodup_cons.mp hnd
    obtain ⟨hx0, hx, hy0, hy⟩ := hin p (List.mem_cons_self _ _)
    obtain ⟨r1, h1, hfr1, hc1, hd1⟩ := pixel_spec from_color v0 v1 v2 hf hx0 hx hy0 hy
    have hin1 : ∀ q ∈ rest, 0 ≤ q.1 ∧ q.1 < r1.width ∧ 0 ≤ q.2 ∧ q.2 < r1.height := by
      intro q hq
      rw [hfr1.2.1, hfr1.2.2.1]
      exact hin q (List.mem_cons_of_mem _ hq)
    obtain ⟨r2, h2, hfr2, hc2, hd2⟩ := ih hrest r1 (fits_of_frame hfr1 hf) hin1
    have hps : r1.pixel_shader = r.pixel_shader := hfr1.2.2.2.2.1
    refine ⟨r2, by simp [for_each, h1, h2], frame_trans hfr1 hfr2, ?_, ?_⟩
    · intro x y
      rw [hc2, hc1, hps]
      by_cases hxy : (x, y) = p
      · have hnot : (x, y) ∉ rest := hxy ▸ hp
        have hxy2 : x = p.1 ∧ y = p.2 := by
          rw [← hxy]; exact ⟨rfl, rfl⟩
        obtain ⟨rfl, rfl⟩ := hxy2
        simp [hnot]
      · have hxy2 : ¬ (x = p.1 ∧ y = p.2) := by
          rintro ⟨rfl, rfl⟩
          exact hxy rfl
        have hdeq : r1.depth_at x y = r.depth_at x y := by
          rw [hd1]; simp [hxy2]
        rw [hit_congr hfr1 hdeq]
        simp [hxy, hxy2]
    · intro x y
      rw [hd2, hd1]
      by_cases hxy : (x, y) = p
      · have hnot : (x, y) ∉ rest := hxy ▸ hp
        have hxy2 : x = p.1 ∧ y = p.2 := by
          rw [← hxy]; exact ⟨rfl, rfl⟩
        obtain ⟨rfl, rfl⟩ := hxy2
        simp [hnot]
      · have hxy2 : ¬ (x = p.1 ∧ y = p.2) := by
          rintro ⟨rfl, rfl⟩
          exact hxy rfl
        have hdeq : r1.depth_at x y = r.depth_at x y := by
          rw [hd1]; simp [hxy2]
        rw [hit_congr hfr1 hdeq]
        simp [hxy, hxy2]

end rasterizer

/-! ## Bounding box -/

theorem clamp_bounds {v lo hi : ℚ} (h : lo ≤ hi) : lo ≤ clamp v lo hi ∧ clamp v lo hi ≤ hi := by
  unfold clamp
  split
  · exact ⟨le_refl _, h⟩
  · split
    · exact ⟨h, le_refl _⟩
    · constructor <;> linarith

theorem static_cast_int_clamp {v : ℚ} {W : Nat} (hW : 1 ≤ W) :
    0 ≤ static_cast_int (clamp v 0 ((W : ℚ) - 1)) ∧
      static_cast_int (clamp v 0 ((W : ℚ) - 1)) < W := by
  have hW1 : (0 : ℚ) ≤ (W : ℚ) - 1 := by
    have : (1 : ℚ) ≤ (W : ℚ) := by exact_mod_cast hW
    linarith
  obtain ⟨h0, h1⟩ := clamp_bounds (v := v) hW1
  unfold static_cast_int
  rw [if_pos h0]
  constructor
  · exact Int.floor_nonneg.mpr h0
  · rw [Int.floor_lt]
    push_cast
    linarith

/-- An integer between the clamped bounds of a range lies between their casts. -/
theorem le_static_cast_int_clamp {v : ℚ} {W : Nat} {x : Int} (hx0 : 0 ≤ x) (hxW : x < W)
    (h : v ≤ (x : ℚ)) : static_cast_int (clamp v 0 ((W : ℚ) - 1)) ≤ x := by
  have hW1 : (0 : ℚ) ≤ (W : ℚ) - 1 := by
    have : ((x : ℚ)) < (W : ℚ) := by exact_mod_cast hxW
    have : (x : ℚ) + 1 ≤ (W : ℚ) := by exact_mod_cast hxW
    have : (0 : ℚ) ≤ (x : ℚ) := by exact_mod_cast hx0
    linarith
  obtain ⟨h0, h1⟩ := clamp_bounds (v := v) hW1
  unfold static_cast_int
  rw [if_pos h0]
  have hc : clamp v 0 ((W : ℚ) - 1) ≤ (x : ℚ) := by
    unfold clamp
    split
    · exact_mod_cast hx0
    · split
      · linarith
      · exact h
  have hfl := Int.floor_le (clamp v 0 ((W : ℚ) - 1))
  exact Int.cast_le.mp (hfl.trans hc)

theorem static_cast_int_clamp_ge {v : ℚ} {W : Nat} {x : Int} (hx0 : 0 ≤ x) (hxW : x < W)
    (h : (x : ℚ) ≤ v) : x ≤ static_cast_int (clamp v 0 ((W : ℚ) - 1)) := by
  have hxW1 : (x : ℚ) ≤ (W : ℚ) - 1 := by
    have : (x : ℚ) + 1 ≤ (W : ℚ) := by exact_mod_cast hxW
    linarith
  have hx0q : (0 : ℚ) ≤ (x : ℚ) := by exact_mod_cast hx0
  have hW1 : (0 : ℚ) ≤ (W : ℚ) - 1 := by linarith
  obtain ⟨h0, h1⟩ := clamp_bounds (v := v) hW1
  unfold static_cast_int
  rw [if_pos h0, Int.le_floor]
  unfold clamp
  split
  · linarith
  · split
    · exact hxW1
    · exact h

namespace rasterizer
variable {A RT Color : Type}

theorem in_box_range {r : rasterizer A RT Color} (hw : 1 ≤ r.width) (hh : 1 ≤ r.height)
    {v0 v1 v2 : vertex A} {x y : Int} (h : in_box r v0 v1 v2 x y) :
    0 ≤ x ∧ x < r.width ∧ 0 ≤ y ∧ y < r.height := by
  obtain ⟨h1, h2, h3, h4⟩ := h
  unfold bounding_box_begin at h1 h3
  unfold bounding_box_end at h2 h4
  simp only at h1 h2 h3 h4
  have a1 := static_cast_int_clamp (v := min (min v0.x v1.x) v2.x) hw
  have a2 := static_cast_int_clamp (v := max (max v0.x v1.x) v2.x) hw
  have a3 := static_cast_int_clamp (v := min (min v0.y v1.y) v2.y) hh
  have a4 := static_cast_int_clamp (v := max (max v0.y v1.y) v2.y) hh
  omega

/-- What the scan of one triangle leaves in the destination buffers. -/
theorem draw_triangle_spec (from_color : Color → RT) (v0 v1 v2 : vertex A)
    (r : rasterizer A RT Color) (hf : fits r) (hw : 1 ≤ r.width) (hh : 1 ≤ r.height) :
    ∃ r1, draw_triangle from_color v0 v1 v2 r = some r1 ∧ frame r r1 ∧
      (∀ x y, r1.color_at x y =
        if in_box r v0 v1 v2 x y ∧ hit r v0 v1 v2 x y = true
        then some (from_color (r.pixel_shader v0 0)) else r.color_at x y) ∧
      (∀ x y, r1.depth_at x y =
        if in_box r v0 v1 v2 x y ∧ hit r v0 v1 v2 x y = true
        then (r.depth_at x y).map (fun _ => pixel_depth v0 v1 v2 x y)
        else r.depth_at x y) := by
  have hmem : ∀ x y, (x, y) ∈
      int_range (static_cast_int (r.bounding_box_begin v0 v1 v2).x)
        (static_cast_int (r.bounding_box_end v0 v1 v2).x) ×ˢ
      int_range (static_cast_int (r.bounding_box_begin v0 v1 v2).y)
        (static_cast_int (r.bounding_box_end v0 v1 v2).y) ↔ in_box r v0 v1 v2 x y := by
    intro x y
    rw [List.mem_product, mem_int_range, mem_int_range]
    unfold in_box
    tauto
  obtain ⟨r1, h1, h2, h3, h4⟩ := scan_spec from_color v0 v1 v2 _
    (List.Nodup.product (nodup_int_range _ _) (nodup_int_range _ _)) r hf
    (fun p hp => in_box_range hw hh ((hmem p.1 p.2).mp hp))
  refine ⟨r1, ?_, h2, ?_, ?_⟩
  · unfold draw_triangle
    simp only
    rw [for_each_product]
    exact h1
  · intro x y
    rw [h3]
    simp only [hmem]
  · intro x y
    rw [h4]
    simp only [hmem]

/-! ## Edge functions -/

/-- The signed area `edge` of line 139, from the screen-space vertices. -/
theorem edge_sum (a b c p : float2) :
    edge_function a b p + edge_function b c p + edge_function c a p = edge_function a b c := by
  unfold edge_function
  ring

theorem edge_bary_x (a b c p : float2) :
    edge_function a b c * p.x =
      edge_function b c p * a.x + edge_function c a p * b.x + edge_function a b p * c.x := by
  unfold edge_function
  ring

theorem edge_bary_y (a b c p : float2) :
    edge_function a b c * p.y =
      edge_function b c p * a.y + edge_function c a p * b.y + edge_function a b p * c.y := by
  unfold edge_function
  ring

/-- A convex combination lies between the least and the greatest of its points. -/
theorem convex_bounds {E e0 e1 e2 a b c p : ℚ} (hE : 0 < E) (h0 : 0 ≤ e0) (h1 : 0 ≤ e1)
    (h2 : 0 ≤ e2) (hsum : e0 + e1 + e2 = E) (hp : E * p = e1 * a + e2 * b + e0 * c) :
    min (min a b) c ≤ p ∧ p ≤ max (max a b) c := by
  have hma : min (min a b) c ≤ a := (min_le_left _ _).trans (min_le_left _ _)
  have hmb : min (min a b) c ≤ b := (min_le_left _ _).trans (min_le_right _ _)
  have hmc : min (min a b) c ≤ c := min_le_right _ _
  have hMa : a ≤ max (max a b) c := (le_max_left _ _).trans (le_max_left _ _)
  have hMb : b ≤ max (max a b) c := (le_max_right _ _).trans (le_max_left _ _)
  have hMc : c ≤ max (max a b) c := le_max_right _ _
  constructor
  · have key : 0 ≤ E * (p - min (min a b) c) := by
      have : E * (p - min (min a b) c) =
          e1 * (a - min (min a b) c) + e2 * (b - min (min a b) c)
            + e0 * (c - min (min a b) c) := by
        rw [mul_sub, hp, ← hsum]; ring
      rw [this]
      have t1 := mul_nonneg h1 (sub_nonneg.mpr hma)
      have t2 := mul_nonneg h2 (sub_nonneg.mpr hmb)
      have t0 := mul_nonneg h0 (sub_nonneg.mpr hmc)
      linarith
    have := nonneg_of_mul_nonneg_right key hE
    linarith
  · have key : 0 ≤ E * (max (max a b) c - p) := by
      have : E * (max (max a b) c - p) =
          e1 * (max (max a b) c - a) + e2 * (max (max a b) c - b)
            + e0 * (max (max a b) c - c) := by
        rw [mul_sub, hp, ← hsum]; ring
      rw [this]
      have t1 := mul_nonneg h1 (sub_nonneg.mpr hMa)
      have t2 := mul_nonneg h2 (sub_nonneg.mpr hMb)
      have t0 := mul_nonneg h0 (sub_nonneg.mpr hMc)
      linarith
    have := nonneg_of_mul_nonneg_right key hE
    linarith

theorem covered_iff (v0 v1 v2 : vertex A) (x y : Int) :
    covered v0 v1 v2 x y = true ↔
      0 ≤ edge_function ⟨v0.x, v0.y⟩ ⟨v1.x, v1.y⟩ ⟨(x : ℚ), (y : ℚ)⟩ ∧
      0 ≤ edge_function ⟨v1.x, v1.y⟩ ⟨v2.x, v2.y⟩ ⟨(x : ℚ), (y : ℚ)⟩ ∧
      0 ≤ edge_function ⟨v2.x, v2.y⟩ ⟨v0.x, v0.y⟩ ⟨(x : ℚ), (y : ℚ)⟩ := by
  simp [covered, and_assoc]

/-- A covered pixel of the viewport, for a triangle of positive signed area, is
one the scan visits. -/
theorem in_box_of_covered {r : rasterizer A RT Color} {v0 v1 v2 : vertex A} {x y : Int}
    (hE : 0 < edge_function ⟨v0.x, v0.y⟩ ⟨v1.x, v1.y⟩ ⟨v2.x, v2.y⟩)
    (hc : covered v0 v1 v2 x y = true)
    (hx0 : 0 ≤ x) (hx : x < r.width) (hy0 : 0 ≤ y) (hy : y < r.height) :
    in_box r v0 v1 v2 x y := by
  obtain ⟨c0, c1, c2⟩ := (covered_iff v0 v1 v2 x y).mp hc
  have hs := edge_sum ⟨v0.x, v0.y⟩ ⟨v1.x, v1.y⟩ ⟨v2.x, v2.y⟩ ⟨(x : ℚ), (y : ℚ)⟩
  have bx := convex_bounds hE c0 c1 c2 hs
    (edge_bary_x ⟨v0.x, v0.y⟩ ⟨v1.x, v1.y⟩ ⟨v2.x, v2.y⟩ ⟨(x : ℚ), (y : ℚ)⟩)
  have bY := convex_bounds hE c0 c1 c2 hs
    (edge_bary_y ⟨v0.x, v0.y⟩ ⟨v1.x, v1.y⟩ ⟨v2.x, v2.y⟩ ⟨(x : ℚ), (y : ℚ)⟩)
  simp only at bx bY
  exact ⟨le_static_cast_int_clamp hx0 hx bx.1, static_cast_int_clamp_ge hx0 hx bx.2,
    le_static_cast_int_clamp hy0 hy bY.1, static_cast_int_clamp_ge hy0 hy bY.2⟩

/-- With a negative signed area no pixel passes the coverage test. -/
theorem not_covered_of_neg {v0 v1 v2 : vertex A}
    (hE : edge_function ⟨v0.x, v0.y⟩ ⟨v1.x, v1.y⟩ ⟨v2.x, v2.y⟩ < 0) (x y : Int) :
    covered v0 v1 v2 x y = false := by
  cases hc : covered v0 v1 v2 x y with
  | false => rfl
  | true =>
    obtain ⟨c0, c1, c2⟩ := (covered_iff v0 v1 v2 x y).mp hc
    have hs := edge_sum ⟨v0.x, v0.y⟩ ⟨v1.x, v1.y⟩ ⟨v2.x, v2.y⟩ ⟨(x : ℚ), (y : ℚ)⟩
    linarith

/-! ## The `while` loop on one and on two triangles -/

theorem draw_step_eq {from_color : Color → RT} {r : rasterizer A RT Color} {id : Nat}
    {vb : resource (vertex A)} {i0 i1 i2 v0 v1 v2 : vertex A}
    (hvb : r.vertex_buffer = some vb)
    (h0 : vb.item_linear id = some i0) (h1 : vb.item_linear (id + 1) = some i1)
    (h2 : vb.item_linear (id + 2) = some i2)
    (hs0 : r.to_screen i0 = some v0) (hs1 : r.to_screen i1 = some v1)
    (hs2 : r.to_screen i2 = some v2) :
    draw_step from_color id r = draw_triangle from_color v0 v1 v2 r := by
  simp [draw_step, hvb, h0, h1, h2, hs0, hs1, hs2]

theorem draw_three {from_color : Color → RT} {r : rasterizer A RT Color} {offset : Nat}
    {vb : resource (vertex A)} {i0 i1 i2 v0 v1 v2 : vertex A}
    (hvb : r.vertex_buffer = some vb)
    (h0 : vb.item_linear offset = some i0) (h1 : vb.item_linear (offset + 1) = some i1)
    (h2 : vb.item_linear (offset + 2) = some i2)
    (hs0 : r.to_screen i0 = some v0) (hs1 : r.to_screen i1 = some v1)
    (hs2 : r.to_screen i2 = some v2) (hoff : offset + 3 < 2 ^ 64) :
    draw from_color r 3 offset = draw_triangle from_color v0 v1 v2 r := by
  have hb : (offset + 3) % 2 ^ 64 = offset + 3 := Nat.mod_eq_of_lt hoff
  unfold draw
  rw [hb]
  have hlt : offset < offset + 3 := by omega
  have hge : ¬ (offset + 3 < offset + 3) := by omega
  simp only [draw_loop, hlt, if_true, hge, if_false]
  rw [draw_step_eq hvb h0 h1 h2 hs0 hs1 hs2]
  cases draw_triangle from_color v0 v1 v2 r <;> simp

/-! ## Sample inputs: facts -/

theorem sample_fits : fits sample_rasterizer := by
  refine ⟨⟨sample_target, rfl, ?_, ?_, ?_⟩, ?_⟩
  · simp [resource.is_2d, sample_target]
  · simp [sample_rasterizer, sample_target]
  · simp [sample_rasterizer, sample_target]
  · intro d hd
    simp [sample_rasterizer] at hd

/-! ## Depth from the plane equation -/

/-- The divisor of the depth is the negated signed area. -/
theorem plane_z_eq (v0 v1 v2 : vertex A) :
    (get_equation_plane v0.x v0.y v0.z v1.x v1.y v1.z v2.x v2.y v2.z).z =
      -edge_function ⟨v0.x, v0.y⟩ ⟨v1.x, v1.y⟩ ⟨v2.x, v2.y⟩ := by
  simp only [get_equation_plane, edge_function]
  ring

/-- The dividend of the depth, in terms of two edge values and the divisor. -/
theorem plane_num_eq (v0 v1 v2 : vertex A) (x y : ℚ) :
    -(get_equation_plane v0.x v0.y v0.z v1.x v1.y v1.z v2.x v2.y v2.z).x * x
      - (get_equation_plane v0.x v0.y v0.z v1.x v1.y v1.z v2.x v2.y v2.z).y * y
      - (get_equation_plane v0.x v0.y v0.z v1.x v1.y v1.z v2.x v2.y v2.z).w =
    -(v2.z - v0.z) * edge_function ⟨v0.x, v0.y⟩ ⟨v1.x, v1.y⟩ ⟨x, y⟩
      - (v1.z - v0.z) * edge_function ⟨v2.x, v2.y⟩ ⟨v0.x, v0.y⟩ ⟨x, y⟩
      + (get_equation_plane v0.x v0.y v0.z v1.x v1.y v1.z v2.x v2.y v2.z).z * v0.z := by
  simp only [get_equation_plane, edge_function]
  ring

theorem gt_nan (s : fval) : s.gt fval.nan = false := by
  cases s <;> rfl

/-! ## One pixel of one triangle -/

theorem depth_bound_frame {r r1 : rasterizer A RT Color} (h : frame r r1) :
    r1.depth_buffer.isSome = r.depth_buffer.isSome := by
  have h7 := h.2.2.2.2.2.2
  cases h1 : r1.depth_buffer <;> cases h0 : r.depth_buffer <;> simp [h1, h0] at h7 ⊢

theorem depth_test_of_depth_at {r : rasterizer A RT Color} {x y : Int} {s : fval}
    (hb : r.depth_buffer.isSome = true) (hs : r.depth_at x y = some s) (z : fval) :
    r.depth_test z x y = some (s.gt z) := by
  rw [depth_test_eq, hb, hs]
  simp

/-- The effect of the scan of one triangle of positive signed area on a pixel
of the viewport that the triangle covers. -/
theorem draw_triangle_at (from_color : Color → RT) {v0 v1 v2 : vertex A}
    {r : rasterizer A RT Color} (hf : fits r) (hw : 1 ≤ r.width) (hh : 1 ≤ r.height)
    (hE : 0 < edge_function ⟨v0.x, v0.y⟩ ⟨v1.x, v1.y⟩ ⟨v2.x, v2.y⟩) {x y : Int}
    (hc : covered v0 v1 v2 x y = true)
    (hx0 : 0 ≤ x) (hx : x < r.width) (hy0 : 0 ≤ y) (hy : y < r.height) :
    ∃ r1, draw_triangle from_color v0 v1 v2 r = some r1 ∧ frame r r1 ∧
      r1.color_at x y =
        (if r.depth_test (pixel_depth v0 v1 v2 x y) x y = some true
         then some (from_color (r.pixel_shader v0 0)) else r.color_at x y) ∧
      r1.depth_at x y =
        (if r.depth_test (pixel_depth v0 v1 v2 x y) x y = some true
         then (r.depth_at x y).map (fun _ => pixel_depth v0 v1 v2 x y)
         else r.depth_at x y) := by
  obtain ⟨r1, h1, h2, h3, h4⟩ := draw_triangle_spec from_color v0 v1 v2 r hf hw hh
  have hbox := in_box_of_covered hE hc hx0 hx hy0 hy
  refine ⟨r1, h1, h2, ?_, ?_⟩
  · rw [h3]
    simp [hbox, hit, hc]
  · rw [h4]
    simp [hbox, hit, hc]

theorem gt_fin_trans {D : fval} {a b : ℚ} (h : D.gt (fval.fin b) = true) (hab : a < b) :
    D.gt (fval.fin a) = true := by
  cases D with
  | nan => simp [fval.gt] at h
  | ninf => simp [fval.gt] at h
  | pinf => rfl
  | fin q =>
    simp only [fval.gt, decide_eq_true_eq] at h ⊢
    exact hab.trans h

theorem sample_depth_fits : fits sample_depth_rasterizer := by
  refine ⟨⟨sample_target, rfl, ?_, ?_, ?_⟩, ?_⟩
  · simp [resource.is_2d, sample_target]
  · simp [sample_depth_rasterizer, sample_target]
  · simp [sample_depth_rasterizer, sample_target]
  · intro d hd
    simp only [sample_depth_rasterizer, Option.some.injEq] at hd
    subst hd
    simp [resource.is_2d, sample_depth, sample_depth_rasterizer]

end rasterizer

/-! ## Clearing -/

namespace resource
variable {T : Type}

theorem set_item_linear_width (r : resource T) (i : Nat) (v : T) :
    (r.set_item_linear i v).width = r.width := rfl

theorem set_item_linear_height (r : resource T) (i : Nat) (v : T) :
    (r.set_item_linear i v).height = r.height := rfl

theorem set_item_linear_data (r : resource T) (i : Nat) (v : T) :
    (r.set_item_linear i v).data = r.data.set i v := rfl

theorem fill_loop (v : T) (n : Nat) (r : resource T) :
    ((List.range n).foldl (fun b i => b.set_item_linear i v) r).width = r.width ∧
    ((List.range n).foldl (fun b i => b.set_item_linear i v) r).height = r.height ∧
    ((List.range n).foldl (fun b i => b.set_item_linear i v) r).data.length = r.data.length ∧
    ∀ j, ((List.range n).foldl (fun b i => b.set_item_linear i v) r).data[j]? =
      if j < n ∧ j < r.data.length then some v else r.data[j]? := by
  induction n with
  | zero => simp
  | succ n ih =>
    obtain ⟨hw, hh, hl, hj⟩ := ih
    rw [List.range_succ, List.foldl_append]
    simp only [List.foldl_cons, List.foldl_nil, set_item_linear_width, set_item_linear_height,
      set_item_linear_data, List.length_set]
    refine ⟨hw, hh, hl, ?_⟩
    intro j
    rw [List.getElem?_set, hl, hj]
    by_cases hjn : n = j
    · subst hjn
      by_cases hlt : n < r.data.length
      · simp [hlt]
      · have : r.data[n]? = none := List.getElem?_eq_none (by omega)
        simp [hlt, this]
    · have h1 : (j < n + 1 ∧ j < r.data.length) ↔ (j < n ∧ j < r.data.length) := by
        constructor
        · rintro ⟨a, b⟩
          exact ⟨by omega, b⟩
        · rintro ⟨a, b⟩
          exact ⟨by omega, b⟩
      simp only [hjn, if_false, h1]

theorem fill_shape (r : resource T) (v : T) : (r.fill v).shape = r.shape := by
  obtain ⟨hw, hh, hl, -⟩ := fill_loop v r.get_number_of_elements r
  simp only [shape, fill, hw, hh, hl]

theorem fill_item (r : resource T) (v : T) (i : Nat)
    (hi : i < (r.fill v).get_number_of_elements) : (r.fill v).item_linear i = some v := by
  obtain ⟨-, -, hl, hj⟩ := fill_loop v r.get_number_of_elements r
  unfold get_number_of_elements fill at hi
  rw [hl] at hi
  unfold item_linear fill
  rw [hj]
  simp [get_number_of_elements, hi]

end resource

namespace rasterizer
variable {A RT Color : Type}

/-- C5. `depth_test(z, x, y)` is true when no depth buffer is bound; with one
bound it is the strict comparison `stored > z` on the element at `(x, y)`, so an
equal stored value fails; and when the test passes for a pixel of the viewport
with a depth buffer bound, the write-back of `draw` leaves exactly `z` in the
depth element at `(x, y)`. -/
theorem depth_test_strict (r : rasterizer A RT Color) (z : fval) (x y : Int) :
    (r.depth_buffer = none → r.depth_test z x y = some true) ∧
    (∀ d stored, r.depth_buffer = some d → d.item_at x y = some stored →
      r.depth_test z x y = some (stored.gt z)) ∧
    (∀ a b : ℚ, (fval.fin a).gt (fval.fin b) = true ↔ b < a) ∧
    (∀ s : fval, s.gt s = false) ∧
    (∀ (from_color : Color → RT) (v0 : vertex A) (d : resource fval),
      r.depth_buffer = some d → fits r → 0 ≤ x → x < r.width → 0 ≤ y → y < r.height →
      r.depth_test z x y = some true →
      ∃ r1, write_pixel from_color v0 z x y r = some r1 ∧ r1.depth_at x y = some z) := by
  refine ⟨?_, ?_, ?_, ?_, ?_⟩
  · intro h
    simp [depth_test, h]
  · intro d stored hd hs
    simp [depth_test, hd, hs]
  · intro a b
    simp [fval.gt]
  · intro s
    cases s <;> simp [fval.gt]
  · intro from_color v0 d hd hf hx0 hx hy0 hy hpass
    obtain ⟨r1, h1, -, -, h4⟩ := write_pixel_spec from_color v0 z hf hx0 hx hy0 hy
    refine ⟨r1, h1, ?_⟩
    rw [h4]
    obtain ⟨hd2, hdw, hdh⟩ := hf.2 d hd
    obtain ⟨s, hs⟩ := resource.item_at_isSome hd2 hx0 (by omega : x < d.width) hy0
      (by omega : y < d.height)
    simp [hpass, depth_at, hd, hs]

/-- Witness for C5: the depth `1 / 5` tested and written at pixel `(1, 1)` of the
sample depth buffer, which holds `+infinity` there. -/
theorem depth_test_strict_witness :
    sample_depth_rasterizer.depth_test (fval.fin (1 / 5)) 1 1 = some true ∧
    ∃ r1, write_pixel id (⟨0, 0, 1 / 5, 1⟩ : vertex Nat) (fval.fin (1 / 5)) 1 1
        sample_depth_rasterizer = some r1 ∧
      r1.depth_at 1 1 = some (fval.fin (1 / 5)) :=
  have hpass : sample_depth_rasterizer.depth_test (fval.fin (1 / 5)) 1 1 = some true :=
    (depth_test_strict sample_depth_rasterizer (fval.fin (1 / 5)) 1 1).2.1 sample_depth
      fval.pinf rfl
      (by simp [sample_depth, resource.item_at, resource.item, resource.index])
  ⟨hpass, (depth_test_strict sample_depth_rasterizer (fval.fin (1 / 5)) 1 1).2.2.2.2 id
    ⟨0, 0, 1 / 5, 1⟩ sample_depth rfl sample_depth_fits (by decide) (by decide) (by decide)
    (by decide) hpass⟩

/-- C6. `clear_render_target(C, D)`: afterwards every element of the bound
render target equals `C` and every element of the bound depth buffer equals
`D`; an unbound buffer stays unbound; the dimensions and element counts of the
buffers, the vertex buffer, the viewport and the two stages are unchanged. -/
theorem clear_render_target_spec (r : rasterizer A RT Color) (C : RT) (D : fval) :
    (∀ t, r.render_target = some t →
      ∃ t1, (r.clear_render_target C D).render_target = some t1 ∧ t1.shape = t.shape ∧
        ∀ i, i < t1.get_number_of_elements → t1.item_linear i = some C) ∧
    (∀ d, r.depth_buffer = some d →
      ∃ d1, (r.clear_render_target C D).depth_buffer = some d1 ∧ d1.shape = d.shape ∧
        ∀ i, i < d1.get_number_of_elements → d1.item_linear i = some D) ∧
    (r.render_target = none → (r.clear_render_target C D).render_target = none) ∧
    (r.depth_buffer = none → (r.clear_render_target C D).depth_buffer = none) ∧
    (r.clear_render_target C D).vertex_buffer = r.vertex_buffer ∧
    (r.clear_render_target C D).width = r.width ∧
    (r.clear_render_target C D).height = r.height ∧
    (r.clear_render_target C D).vertex_shader = r.vertex_shader ∧
    (r.clear_render_target C D).pixel_shader = r.pixel_shader := by
  cases ht : r.render_target with
  | none =>
    cases hd : r.depth_buffer with
    | none =>
      have heq : r.clear_render_target C D = r := by
        simp [clear_render_target, ht, hd]
      rw [heq]
      exact ⟨by simp [ht], by simp [hd], fun _ => ht, fun _ => hd, rfl, rfl, rfl, rfl, rfl⟩
    | some d =>
      have heq : r.clear_render_target C D = { r with depth_buffer := some (d.fill D) } := by
        simp [clear_render_target, ht, hd]
      rw [heq]
      refine ⟨by simp, ?_, fun _ => ht, by simp, rfl, rfl, rfl, rfl, rfl⟩
      intro d0 hd0
      simp only [Option.some.injEq] at hd0
      subst hd0
      exact ⟨d.fill D, rfl, resource.fill_shape d D, resource.fill_item d D⟩
  | some t =>
    cases hd : r.depth_buffer with
    | none =>
      have heq : r.clear_render_target C D = { r with render_target := some (t.fill C) } := by
        simp [clear_render_target, ht, hd]
      rw [heq]
      refine ⟨?_, by simp, by simp, fun _ => hd, rfl, rfl, rfl, rfl, rfl⟩
      intro t0 ht0
      simp only [Option.some.injEq] at ht0
      subst ht0
      exact ⟨t.fill C, rfl, resource.fill_shape t C, resource.fill_item t C⟩
    | some d =>
      have heq : r.clear_render_target C D =
          { r with render_target := some (t.fill C), depth_buffer := some (d.fill D) } := by
        simp [clear_render_target, ht, hd]
      rw [heq]
      refine ⟨?_, ?_, by simp, by simp, rfl, rfl, rfl, rfl, rfl⟩
      · intro t0 ht0
        simp only [Option.some.injEq] at ht0
        subst ht0
        exact ⟨t.fill C, rfl, resource.fill_shape t C, resource.fill_item t C⟩
      · intro d0 hd0
        simp only [Option.some.injEq] at hd0
        subst hd0
        exact ⟨d.fill D, rfl, resource.fill_shape d D, resource.fill_item d D⟩

/-- Witness for C6: clearing the sample target and depth buffer to `9` and
`+infinity`. -/
theorem clear_render_target_spec_witness :
    ∃ t1, (sample_depth_rasterizer.clear_render_target 9 fval.pinf).render_target = some t1 ∧
      t1.shape = sample_target.shape ∧
      ∀ i, i < t1.get_number_of_elements → t1.item_linear i = some 9 :=
  (clear_render_target_spec sample_depth_rasterizer 9 fval.pinf).1 sample_target rfl

/-- C7. Sticky binding of `set_render_target(target, depth)`: a non-null
`target` becomes the bound render target and a null one leaves it as it was;
the same for `depth`, so a depth buffer once bound stays bound; the vertex
buffer, the viewport and the two stages are unchanged. -/
theorem set_render_target_sticky (r : rasterizer A RT Color)
    (target : Option (resource RT)) (depth : Option (resource fval)) :
    (∀ t, target = some t → (r.set_render_target target depth).render_target = some t) ∧
    (target = none → (r.set_render_target target depth).render_target = r.render_target) ∧
    (∀ d, depth = some d → (r.set_render_target target depth).depth_buffer = some d) ∧
    (depth = none → (r.set_render_target target depth).depth_buffer = r.depth_buffer) ∧
    (r.depth_buffer.isSome = true →
      (r.set_render_target target depth).depth_buffer.isSome = true) ∧
    (r.set_render_target target depth).vertex_buffer = r.vertex_buffer ∧
    (r.set_render_target target depth).width = r.width ∧
    (r.set_render_target target depth).height = r.height ∧
    (r.set_render_target target depth).vertex_shader = r.vertex_shader ∧
    (r.set_render_target target depth).pixel_shader = r.pixel_shader := by
  unfold set_render_target
  cases target <;> cases depth <;> simp

/-- Witness for C7: a call with a null depth argument keeps the sample depth
buffer bound. -/
theorem set_render_target_sticky_witness :
    (sample_depth_rasterizer.set_render_target (some sample_target) none).depth_buffer =
      some sample_depth :=
  (set_render_target_sticky sample_depth_rasterizer (some sample_target) none).2.2.2.1 rfl

/-- Any two amounts of fuel that cover the distance to the bound give the same
run: the loop never stops for lack of fuel. -/
theorem draw_loop_fuel (from_color : Color → RT) (bound : Nat) :
    ∀ (fuel fuel1 id : Nat) (r : rasterizer A RT Color),
      bound - id ≤ fuel → bound - id ≤ fuel1 →
      draw_loop from_color bound fuel id r = draw_loop from_color bound fuel1 id r := by
  intro fuel
  induction fuel with
  | zero =>
    intro fuel1 id r h _
    have hge : ¬ id < bound := by omega
    cases fuel1 <;> simp [draw_loop, hge]
  | succ n ih =>
    intro fuel1 id r h h1
    by_cases hlt : id < bound
    · cases fuel1 with
      | zero => omega
      | succ m =>
        simp only [draw_loop, hlt, if_true]
        congr 1
        funext s
        exact ih m (id + 3) s (by omega) (by omega)
    · cases fuel1 <;> simp [draw_loop, hlt]

/-- The fuel that `draw` starts with covers the distance to its bound. -/
theorem draw_fuel_suffices (num_vertexes vertex_offest : Nat) :
    (vertex_offest + num_vertexes) % 2 ^ 64 - vertex_offest ≤ num_vertexes := by
  have := Nat.mod_le (vertex_offest + num_vertexes) (2 ^ 64)
  omega

/-! ## The plane equation -/

theorem pixel_depth_eq_plane_depth (v0 v1 v2 : vertex A) (x y : Int) :
    pixel_depth v0 v1 v2 x y = plane_depth v0 v1 v2 (x : ℚ) (y : ℚ) := rfl

/-- C16. Plane-equation depth equals linear interpolation.  For a triangle with
`edge(A, B, C) ≠ 0` and every point `(x, y)`, the depth
`(-a * x - b * y - d) / c` from `get_equation_plane` is the finite value
`u * z0 + v * z1 + w * z2` with `u = edge(B, C, P) / E`, `v = edge(C, A, P) / E`,
`w = edge(A, B, P) / E`; in particular at every pixel. -/
theorem plane_depth_eq_barycentric (v0 v1 v2 : vertex A)
    (hE : edge_function ⟨v0.x, v0.y⟩ ⟨v1.x, v1.y⟩ ⟨v2.x, v2.y⟩ ≠ 0) :
    (∀ x y : ℚ, plane_depth v0 v1 v2 x y = fval.fin (barycentric_depth v0 v1 v2 x y)) ∧
    (∀ x y : Int, pixel_depth v0 v1 v2 x y =
      fval.fin (barycentric_depth v0 v1 v2 (x : ℚ) (y : ℚ))) := by
  have key : ∀ x y : ℚ,
      plane_depth v0 v1 v2 x y = fval.fin (barycentric_depth v0 v1 v2 x y) := by
    intro x y
    have hz := plane_z_eq v0 v1 v2
    have hn := plane_num_eq v0 v1 v2 x y
    have hc : (get_equation_plane v0.x v0.y v0.z v1.x v1.y v1.z v2.x v2.y v2.z).z ≠ 0 := by
      rw [hz]
      exact neg_ne_zero.mpr hE
    have hs := edge_sum ⟨v0.x, v0.y⟩ ⟨v1.x, v1.y⟩ ⟨v2.x, v2.y⟩ ⟨x, y⟩
    unfold plane_depth
    simp only
    rw [hn, hz]
    unfold fdiv
    rw [if_neg (neg_ne_zero.mpr hE)]
    congr 1
    unfold barycentric_depth
    simp only
    generalize edge_function ⟨v0.x, v0.y⟩ ⟨v1.x, v1.y⟩ ⟨v2.x, v2.y⟩ = E at hE hs ⊢
    generalize edge_function ⟨v0.x, v0.y⟩ ⟨v1.x, v1.y⟩ ⟨x, y⟩ = e0 at hs ⊢
    generalize edge_function ⟨v1.x, v1.y⟩ ⟨v2.x, v2.y⟩ ⟨x, y⟩ = e1 at hs ⊢
    generalize edge_function ⟨v2.x, v2.y⟩ ⟨v0.x, v0.y⟩ ⟨x, y⟩ = e2 at hs ⊢
    have h1 : e1 = E - e0 - e2 := by linarith
    subst h1
    rw [div_eq_iff (neg_ne_zero.mpr hE)]
    field_simp
    ring
  exact ⟨key, fun x y => key (x : ℚ) (y : ℚ)⟩

/-- Witness for C16: the triangle `(0, 0, 0)`, `(0, 3, 3)`, `(3, 0, 6)`, of signed
area `9`. -/
theorem plane_depth_eq_barycentric_witness :
    plane_depth (⟨0, 0, 0, ()⟩ : vertex Unit) ⟨0, 3, 3, ()⟩ ⟨3, 0, 6, ()⟩ 1 1 =
      fval.fin (barycentric_depth (⟨0, 0, 0, ()⟩ : vertex Unit) ⟨0, 3, 3, ()⟩ ⟨3, 0, 6, ()⟩ 1 1) :=
  (plane_depth_eq_barycentric (⟨0, 0, 0, ()⟩ : vertex Unit) ⟨0, 3, 3, ()⟩ ⟨3, 0, 6, ()⟩
    (by norm_num [edge_function])).1 1 1

theorem static_cast_int_natCast_sub_one {W : Nat} (hW : 1 ≤ W) :
    static_cast_int ((W : ℚ) - 1) = (W : Int) - 1 := by
  have h1 : (1 : ℚ) ≤ (W : ℚ) := by exact_mod_cast hW
  have h0 : (0 : ℚ) ≤ (W : ℚ) - 1 := by linarith
  have hcast : (W : ℚ) - 1 = (((W : Int) - 1 : Int) : ℚ) := by push_cast; ring
  unfold static_cast_int
  rw [if_pos h0, hcast, Int.floor_intCast]

theorem static_cast_int_zero : static_cast_int 0 = 0 := by
  simp [static_cast_int]

theorem clamp_zero {W : Nat} (hW : 1 ≤ W) : clamp 0 0 ((W : ℚ) - 1) = 0 := by
  have h1 : (1 : ℚ) ≤ (W : ℚ) := by exact_mod_cast hW
  have h2 : ¬ ((W : ℚ) - 1 < 0) := by linarith
  simp [clamp, h2]

theorem clamp_full {W : Nat} (hW : 1 ≤ W) : clamp (W : ℚ) 0 ((W : ℚ) - 1) = (W : ℚ) - 1 := by
  have h1 : (1 : ℚ) ≤ (W : ℚ) := by exact_mod_cast hW
  have h2 : ¬ ((W : ℚ) < 0) := by linarith
  have h3 : (W : ℚ) - 1 < (W : ℚ) := by linarith
  simp [clamp, h2, h3]

theorem draw_triples_zero (from_color : Color → RT) (id : Nat) (r : rasterizer A RT Color) :
    draw_triples from_color id 0 r = some r := by
  simp [draw_triples, for_each]

theorem draw_triples_succ (from_color : Color → RT) (id n : Nat) (r : rasterizer A RT Color) :
    draw_triples from_color id (n + 1) r =
      (draw_step from_color id r).bind (draw_triples from_color (id + 3) n) := by
  unfold draw_triples
  rw [List.range_succ_eq_map, for_each]
  simp only [Nat.mul_zero, Nat.add_zero]
  congr 1
  funext s
  rw [for_each_map]
  have hb : (fun j => draw_step from_color (id + 3 * Nat.succ j)) =
      (fun k => draw_step (A := A) from_color (id + 3 + 3 * k)) := by
    funext j
    rw [show id + 3 * Nat.succ j = id + 3 + 3 * j by omega]
  rw [hb]

/-- The loop of `draw` runs the body once per started triple of the range. -/
theorem draw_loop_triples (from_color : Color → RT) (bound : Nat) :
    ∀ (n fuel id : Nat) (r : rasterizer A RT Color), n ≤ fuel → bound ≤ id + 3 * n →
      (∀ k, k < n → id + 3 * k < bound) →
      draw_loop from_color bound fuel id r = draw_triples from_color id n r := by
  intro n
  induction n with
  | zero =>
    intro fuel id r _ hb _
    have hge : ¬ id < bound := by omega
    rw [draw_triples_zero]
    cases fuel <;> simp [draw_loop, hge]
  | succ n ih =>
    intro fuel id r hf hb hk
    have hlt : id < bound := by
      have := hk 0 (by omega)
      omega
    cases fuel with
    | zero => omega
    | succ f =>
      rw [draw_triples_succ]
      simp only [draw_loop, hlt, if_true]
      congr 1
      funext s
      apply ih f (id + 3) s (by omega) (by omega)
      intro k hkn
      have := hk (k + 1) (by omega)
      omega

/-- `draw(num, offset)` runs the body on `⌈num / 3⌉` consecutive triples. -/
theorem draw_eq_triples (from_color : Color → RT) (r : rasterizer A RT Color)
    (num offset : Nat) (hoff : offset + num < 2 ^ 64) :
    draw from_color r num offset = draw_triples from_color offset ((num + 2) / 3) r := by
  unfold draw
  rw [Nat.mod_eq_of_lt hoff]
  apply draw_loop_triples
  · omega
  · omega
  · intro k hk
    omega

theorem draw_step_reads {from_color : Color → RT} {id : Nat} {r r1 : rasterizer A RT Color}
    (h : draw_step from_color id r = some r1) :
    ∃ vb i0 i1 i2 v0 v1 v2, r.vertex_buffer = some vb ∧
      vb.item_linear id = some i0 ∧ vb.item_linear (id + 1) = some i1 ∧
      vb.item_linear (id + 2) = some i2 ∧
      r.to_screen i0 = some v0 ∧ r.to_screen i1 = some v1 ∧ r.to_screen i2 = some v2 ∧
      draw_triangle from_color v0 v1 v2 r = some r1 := by
  unfold draw_step at h
  cases hvb : r.vertex_buffer with
  | none => simp [hvb] at h
  | some vb =>
    cases h0 : vb.item_linear id with
    | none => simp [hvb, h0] at h
    | some i0 =>
      cases h1 : vb.item_linear (id + 1) with
      | none => simp [hvb, h0, h1] at h
      | some i1 =>
        cases h2 : vb.item_linear (id + 2) with
        | none => simp [hvb, h0, h1, h2] at h
        | some i2 =>
          cases hs0 : r.to_screen i0 with
          | none => simp [hvb, h0, h1, h2, hs0] at h
          | some v0 =>
            cases hs1 : r.to_screen i1 with
            | none => simp [hvb, h0, h1, h2, hs0, hs1] at h
            | some v1 =>
              cases hs2 : r.to_screen i2 with
              | none => simp [hvb, h0, h1, h2, hs0, hs1, hs2] at h
              | some v2 =>
                simp only [hvb, h0, h1, h2, hs0, hs1, hs2, Option.some_bind] at h
                exact ⟨vb, i0, i1, i2, v0, v1, v2, rfl, h0, h1, h2, hs0, hs1, hs2, h⟩

end rasterizer

theorem for_each_rel {I S : Type} {body : I → S → Option S} (R : S → S → Prop)
    (hrefl : ∀ s, R s s) (htrans : ∀ s s1 s2, R s s1 → R s1 s2 → R s s2)
    (hbody : ∀ i s s1, body i s = some s1 → R s s1) :
    ∀ (l : List I) (s s1 : S), for_each l body s = some s1 → R s s1 := by
  intro l
  induction l with
  | nil =>
    intro s s1 h
    simp only [for_each, Option.some.injEq] at h
    subst h
    exact hrefl s
  | cons i rest ih =>
    intro s s1 h
    simp only [for_each] at h
    cases hb : body i s with
    | none => simp [hb] at h
    | some s0 =>
      simp only [hb, Option.some_bind] at h
      exact htrans s s0 s1 (hbody i s s0 hb) (ih s0 s1 h)

namespace rasterizer
variable {A RT Color : Type}

/-! ## What a run never changes -/

theorem write_pixel_frame {from_color : Color → RT} {v0 : vertex A} {z : fval} {x y : Int}
    {r r1 : rasterizer A RT Color} (h : write_pixel from_color v0 z x y r = some r1) :
    frame r r1 := by
  unfold write_pixel at h
  cases hdt : r.depth_test z x y with
  | none => simp [hdt] at h
  | some pass =>
    cases pass with
    | false =>
      simp [hdt] at h
      subst h
      exact frame_refl r
    | true =>
      simp only [hdt, Option.some_bind, if_true] at h
      cases hrt : r.render_target with
      | none => simp [hrt] at h
      | some t =>
        simp only [hrt, Option.some_bind] at h
        cases hset : t.set_item_at x y (from_color (r.pixel_shader v0 0)) with
        | none => simp [hset] at h
        | some t1 =>
          simp only [hset, Option.some_bind] at h
          cases hdb : r.depth_buffer with
          | none =>
            simp only [hdb, Option.some.injEq] at h
            subst h
            refine ⟨rfl, rfl, rfl, rfl, rfl, ?_, ?_⟩
            · simp [hrt, resource.set_item_at_shape hset]
            · simp [hdb]
          | some d =>
            simp only [hdb] at h
            cases hds : d.set_item_at x y z with
            | none => simp [hds] at h
            | some d1 =>
              simp only [hds, Option.map_some', Option.some.injEq] at h
              subst h
              refine ⟨rfl, rfl, rfl, rfl, rfl, ?_, ?_⟩
              · simp [hrt, resource.set_item_at_shape hset]
              · simp [hdb, resource.set_item_at_shape hds]

theorem pixel_frame {from_color : Color → RT} {v0 v1 v2 : vertex A} {x y : Int}
    {r r1 : rasterizer A RT Color} (h : pixel from_color v0 v1 v2 x y r = some r1) :
    frame r r1 := by
  unfold pixel at h
  split at h
  · exact write_pixel_frame h
  · simp only [Option.some.injEq] at h
    subst h
    exact frame_refl r

theorem draw_triangle_frame {from_color : Color → RT} {v0 v1 v2 : vertex A}
    {r r1 : rasterizer A RT Color} (h : draw_triangle from_color v0 v1 v2 r = some r1) :
    frame r r1 := by
  unfold draw_triangle at h
  refine for_each_rel frame frame_refl (fun _ _ _ => frame_trans) ?_ _ r r1 h
  intro x s s1 hx
  refine for_each_rel frame frame_refl (fun _ _ _ => frame_trans) ?_ _ s s1 hx
  intro y t t1 hy
  exact pixel_frame hy

theorem draw_step_frame {from_color : Color → RT} {id : Nat}
    {r r1 : rasterizer A RT Color} (h : draw_step from_color id r = some r1) :
    frame r r1 := by
  obtain ⟨_, _, _, _, _, _, _, _, _, _, _, _, _, _, ht⟩ := draw_step_reads h
  exact draw_triangle_frame ht

theorem draw_triples_frame {from_color : Color → RT} {id n : Nat}
    {r r1 : rasterizer A RT Color} (h : draw_triples from_color id n r = some r1) :
    frame r r1 := by
  unfold draw_triples at h
  exact for_each_rel frame frame_refl (fun _ _ _ => frame_trans)
    (fun _ _ _ hs => draw_step_frame hs) _ r r1 h

/-- With destination buffers that fit, vertices in range and no zero `w`, the
run over `n` triples completes. -/
theorem draw_triples_succeeds (from_color : Color → RT) (vb : resource (vertex A)) :
    ∀ (n id : Nat) (r : rasterizer A RT Color), r.vertex_buffer = some vb →
      id + 3 * n ≤ vb.get_number_of_elements → fits r → 1 ≤ r.width → 1 ≤ r.height →
      (∀ v ∈ vb.data, (r.vertex_shader ⟨v.x, v.y, v.z, 1⟩ v).1.w ≠ 0) →
      ∃ r1, draw_triples from_color id n r = some r1 := by
  intro n
  induction n with
  | zero =>
    intro id r _ _ _ _ _ _
    exact ⟨r, draw_triples_zero from_color id r⟩
  | succ n ih =>
    intro id r hvb hlen hf hw hh hnz
    unfold resource.get_number_of_elements at hlen
    have hread : ∀ j, j < 3 → ∃ i, vb.item_linear (id + j) = some i ∧ i ∈ vb.data := by
      intro j hj
      have hlt : id + j < vb.data.length := by omega
      exact ⟨vb.data[id + j], by simp [resource.item_linear, hlt], List.getElem_mem _⟩
    obtain ⟨i0, h0, m0⟩ := hread 0 (by omega)
    obtain ⟨i1, h1, m1⟩ := hread 1 (by omega)
    obtain ⟨i2, h2, m2⟩ := hread 2 (by omega)
    have hscr : ∀ i, i ∈ vb.data → ∃ s, r.to_screen i = some s := by
      intro i hi
      have := hnz i hi
      simp [to_screen, this]
    obtain ⟨v0, hs0⟩ := hscr i0 m0
    obtain ⟨v1, hs1⟩ := hscr i1 m1
    obtain ⟨v2, hs2⟩ := hscr i2 m2
    obtain ⟨r1, ht, hfr, -, -⟩ := draw_triangle_spec from_color v0 v1 v2 r hf hw hh
    have hstep : draw_step from_color id r = some r1 := by
      rw [draw_step_eq hvb (show vb.item_linear id = some i0 from h0) h1 h2 hs0 hs1 hs2, ht]
    obtain ⟨r2, h2⟩ := ih (id + 3) r1 (hfr.1.trans hvb)
      (by unfold resource.get_number_of_elements; omega) (fits_of_frame hfr hf)
      (by rw [hfr.2.1]; exact hw) (by rw [hfr.2.2.1]; exact hh)
      (by rw [hfr.2.2.2.1]; exact hnz)
    exact ⟨r2, by rw [draw_triples_succ, hstep, Option.some_bind, h2]⟩

/-- With destination buffers that fit, vertices in range and no zero `w` among
them, the run over `n` triples passes through states `s 0 = r`, ..., `s n`, the
step from `s k` to `s (k + 1)` being the scan of the triangle read at
`id + 3 * k`, `+ 1`, `+ 2`. -/
theorem draw_triples_chain (from_color : Color → RT) (vb : resource (vertex A)) :
    ∀ (n id : Nat) (r : rasterizer A RT Color), r.vertex_buffer = some vb →
      id + 3 * n ≤ vb.get_number_of_elements → fits r → 1 ≤ r.width → 1 ≤ r.height →
      (∀ j, id ≤ j → j < id + 3 * n → ∀ v, vb.item_linear j = some v →
        (r.vertex_shader ⟨v.x, v.y, v.z, 1⟩ v).1.w ≠ 0) →
      ∃ s : Nat → rasterizer A RT Color, s 0 = r ∧
        (∀ k, k < n → ∃ i0 i1 i2 v0 v1 v2,
          vb.item_linear (id + 3 * k) = some i0 ∧
          vb.item_linear (id + 3 * k + 1) = some i1 ∧
          vb.item_linear (id + 3 * k + 2) = some i2 ∧
          (s k).to_screen i0 = some v0 ∧ (s k).to_screen i1 = some v1 ∧
          (s k).to_screen i2 = some v2 ∧
          draw_triangle from_color v0 v1 v2 (s k) = some (s (k + 1))) ∧
        draw_triples from_color id n r = some (s n) ∧ frame r (s n) := by
  intro n
  induction n with
  | zero =>
    intro id r _ _ _ _ _ _
    exact ⟨fun _ => r, rfl, fun k hk => absurd hk (Nat.not_lt_zero k),
      draw_triples_zero from_color id r, frame_refl r⟩
  | succ n ih =>
    intro id r hvb hlen hf hw hh hnz
    unfold resource.get_number_of_elements at hlen
    have hread : ∀ j, j < 3 → ∃ i, vb.item_linear (id + j) = some i := by
      intro j hj
      have hlt : id + j < vb.data.length := by omega
      exact ⟨vb.data[id + j], by simp [resource.item_linear, hlt]⟩
    obtain ⟨i0, h0⟩ := hread 0 (by omega)
    obtain ⟨i1, h1⟩ := hread 1 (by omega)
    obtain ⟨i2, h2⟩ := hread 2 (by omega)
    have hscr : ∀ j i, j < 3 → vb.item_linear (id + j) = some i →
        ∃ s, r.to_screen i = some s := by
      intro j i hj hi
      have := hnz (id + j) (by omega) (by omega) i hi
      simp [to_screen, this]
    obtain ⟨v0, hs0⟩ := hscr 0 i0 (by omega) h0
    obtain ⟨v1, hs1⟩ := hscr 1 i1 (by omega) h1
    obtain ⟨v2, hs2⟩ := hscr 2 i2 (by omega) h2
    obtain ⟨r1, ht, hfr, -, -⟩ := draw_triangle_spec from_color v0 v1 v2 r hf hw hh
    have hstep : draw_step from_color id r = some r1 := by
      rw [draw_step_eq hvb (show vb.item_linear id = some i0 from h0) h1 h2 hs0 hs1 hs2, ht]
    obtain ⟨s1, hs10, hchain, hrun, hfr1⟩ := ih (id + 3) r1 (hfr.1.trans hvb)
      (by unfold resource.get_number_of_elements; omega) (fits_of_frame hfr hf)
      (by rw [hfr.2.1]; exact hw) (by rw [hfr.2.2.1]; exact hh)
      (by
        intro j hj1 hj2 v hv
        rw [hfr.2.2.2.1]
        exact hnz j (by omega) (by omega) v hv)
    refine ⟨fun k => match k with | 0 => r | k + 1 => s1 k, rfl, ?_, ?_, ?_⟩
    · intro k hk
      cases k with
      | zero =>
        refine ⟨i0, i1, i2, v0, v1, v2, h0, h1, h2, hs0, hs1, hs2, ?_⟩
        show draw_triangle from_color v0 v1 v2 r = some (s1 0)
        rw [hs10]
        exact ht
      | succ k =>
        obtain ⟨j0, j1, j2, w0, w1, w2, g0, g1, g2, t0, t1, t2, hd⟩ := hchain k (by omega)
        have e : id + 3 * (k + 1) = id + 3 + 3 * k := by omega
        refine ⟨j0, j1, j2, w0, w1, w2, ?_, ?_, ?_, t0, t1, t2, hd⟩
        · rw [e]; exact g0
        · rw [e]; exact g1
        · rw [e]; exact g2
    · show draw_triples from_color id (n + 1) r = some (s1 n)
      rw [draw_triples_succ, hstep, Option.some_bind, hrun]
    · exact frame_trans hfr hfr1

/-- C14 (as amended).  A count that is not a multiple of 3 is not rejected:
`draw(num, offset)` runs the loop body over `num / 3 + 1` consecutive triples,
exactly as `draw(3 * (num / 3 + 1), offset)` does, and the last triple reads
the vertex at index `offset + 3 * (num / 3) + 2`, at or beyond the end
`offset + num` of the range. -/
theorem draw_rounds_count_up (from_color : Color → RT) (r : rasterizer A RT Color)
    (num offset : Nat) (hmal : num % 3 ≠ 0) (hoff : offset + num + 2 < 2 ^ 64) :
    draw from_color r num offset = draw_triples from_color offset (num / 3 + 1) r ∧
    draw from_color r num offset = draw from_color r (3 * (num / 3 + 1)) offset ∧
    offset + num ≤ offset + 3 * (num / 3) + 2 := by
  have h1 : draw from_color r num offset = draw_triples from_color offset (num / 3 + 1) r := by
    rw [draw_eq_triples from_color r num offset (by omega)]
    congr 1
    omega
  have h2 : draw from_color r (3 * (num / 3 + 1)) offset =
      draw_triples from_color offset (num / 3 + 1) r := by
    rw [draw_eq_triples from_color r _ offset (by omega)]
    congr 1
    omega
  exact ⟨h1, h1.trans h2.symm, by omega⟩

/-- Witness for C14 (as amended): `draw(1, 0)` on the sample rasterizer. -/
theorem draw_rounds_count_up_witness :
    draw id sample_rasterizer 1 0 = draw_triples id 0 (1 / 3 + 1) sample_rasterizer ∧
    draw id sample_rasterizer 1 0 = draw id sample_rasterizer (3 * (1 / 3 + 1)) 0 ∧
    0 + 1 ≤ 0 + 3 * (1 / 3) + 2 :=
  draw_rounds_count_up id sample_rasterizer 1 0 (by decide) (by decide)

/-- Counterexample to C14 as stated: the count `1` is not a multiple of 3, yet
`draw(1, 0)` assembles the sample triangle from the vertices at indices 0, 1, 2
and overwrites pixel `(1, 1)`, which held `0`, with the colour `7`; and on a
vertex buffer of one element it faults on the read at index 1. -/
theorem draw_malformed_count_draws :
    1 % 3 ≠ 0 ∧
    sample_rasterizer.color_at 1 1 = some 0 ∧
    (∃ r1, draw id sample_rasterizer 1 0 = some r1 ∧ r1.color_at 1 1 = some 7) ∧
    draw id { sample_rasterizer with
      vertex_buffer := some ⟨[⟨-1, 1, 0, ()⟩], 0, 0⟩ } 1 0 = none := by
  have h13 : draw id sample_rasterizer 1 0 = draw id sample_rasterizer 3 0 := by
    rw [draw_eq_triples id sample_rasterizer 1 0 (by decide),
      draw_eq_triples id sample_rasterizer 3 0 (by decide)]
  have hE : 0 < edge_function
      ⟨(⟨0, 0, 0, ()⟩ : vertex Unit).x, (⟨0, 0, 0, ()⟩ : vertex Unit).y⟩
      ⟨(⟨0, 3, 0, ()⟩ : vertex Unit).x, (⟨0, 3, 0, ()⟩ : vertex Unit).y⟩
      ⟨(⟨3, 0, 0, ()⟩ : vertex Unit).x, (⟨3, 0, 0, ()⟩ : vertex Unit).y⟩ := by
    norm_num [edge_function]
  obtain ⟨r1, hr1, -, hc, -⟩ := draw_triangle_at id sample_fits (by decide) (by decide) hE
    (show covered (⟨0, 0, 0, ()⟩ : vertex Unit) ⟨0, 3, 0, ()⟩ ⟨3, 0, 0, ()⟩ 1 1 = true by
      norm_num [covered, edge_function])
    (by decide) (show (1 : Int) < sample_rasterizer.width by decide) (by decide)
    (show (1 : Int) < sample_rasterizer.height by decide)
  refine ⟨by decide, ?_, ⟨r1, ?_, ?_⟩, ?_⟩
  · simp [color_at, sample_rasterizer, sample_target, resource.item_at, resource.item,
      resource.index]
  · rw [h13, ← hr1]
    exact draw_three (show _ = some sample_vertices from rfl)
      (show _ = some (⟨-1, 1, 0, ()⟩ : vertex Unit) from rfl)
      (show _ = some (⟨-1, -1 / 2, 0, ()⟩ : vertex Unit) from rfl)
      (show _ = some (⟨1 / 2, 1, 0, ()⟩ : vertex Unit) from rfl)
      (by norm_num [to_screen, sample_rasterizer, identity_stage])
      (by norm_num [to_screen, sample_rasterizer, identity_stage])
      (by norm_num [to_screen, sample_rasterizer, identity_stage]) (by norm_num)
  · rw [hc]
    simp [depth_test, sample_rasterizer]
  · rw [draw_eq_triples _ _ 1 0 (by decide)]
    simp [draw_triples, for_each, draw_step, resource.item_linear]

/-! ## Two triangles without a depth buffer -/

end rasterizer

/-! ## The order of depth values -/

theorem fval.gt_trans {a b c : fval} (h1 : a.gt b = true) (h2 : b.gt c = true) :
    a.gt c = true := by
  cases a <;> cases b <;> cases c <;> simp_all [fval.gt]
  exact lt_trans h2 h1

namespace rasterizer
variable {A RT Color : Type}

/-! ## One pixel under one and under two triangles, depth buffer bound -/

theorem pixel_after_none (g : Bool) (c : RT) (z : fval) (col : Option RT) :
    pixel_after g c z (col, none) = (col, none) := by
  simp [pixel_after]

theorem pixel_after_some (g : Bool) (c : RT) (z D : fval) (col : Option RT) :
    pixel_after g c z (col, some D) =
      if g = true ∧ D.gt z = true then (some c, some z) else (col, some D) := by
  unfold pixel_after
  by_cases hg : g = true <;> by_cases hd : D.gt z = true <;> simp [hg, hd]

/-- One triangle at one pixel: nothing changes or the depth goes strictly down. -/
theorem pixel_after_no_rise (g : Bool) (c : RT) (z : fval) (s : Option RT × Option fval) :
    pixel_after g c z s = s ∨
      ∃ D, s.2 = some D ∧ (pixel_after g c z s).2 = some z ∧ D.gt z = true := by
  obtain ⟨col, dep⟩ := s
  cases dep with
  | none => simp [pixel_after_none]
  | some D =>
    by_cases h : g = true ∧ D.gt z = true
    · right
      exact ⟨D, rfl, by simp [pixel_after_some, h], h.2⟩
    · left
      simp [pixel_after_some, h]

/-- The scan of one triangle, seen at every pixel, when a depth buffer is bound. -/
theorem draw_triangle_pixel_after (from_color : Color → RT) (v0 v1 v2 : vertex A)
    (r : rasterizer A RT Color) (hf : fits r) (hw : 1 ≤ r.width) (hh : 1 ≤ r.height)
    (hb : r.depth_buffer.isSome = true) :
    ∃ r1, draw_triangle from_color v0 v1 v2 r = some r1 ∧ frame r r1 ∧
      ∀ x y, (r1.color_at x y, r1.depth_at x y) =
        pixel_after (decide (in_box r v0 v1 v2 x y) && covered v0 v1 v2 x y)
          (from_color (r.pixel_shader v0 0)) (pixel_depth v0 v1 v2 x y)
          (r.color_at x y, r.depth_at x y) := by
  obtain ⟨r1, h1, h2, h3, h4⟩ := draw_triangle_spec from_color v0 v1 v2 r hf hw hh
  refine ⟨r1, h1, h2, ?_⟩
  intro x y
  rw [h3, h4]
  unfold hit
  rw [depth_test_eq, hb]
  cases hd : r.depth_at x y with
  | none => simp [pixel_after_none]
  | some D =>
    rw [pixel_after_some]
    by_cases hbox : in_box r v0 v1 v2 x y <;> by_cases hc : covered v0 v1 v2 x y = true <;>
      by_cases hg : D.gt (pixel_depth v0 v1 v2 x y) = true <;> simp [hbox, hc, hg]

/-! ## Two triangles with a depth buffer -/

theorem draw_loop_rel {from_color : Color → RT} {bound : Nat}
    (R : rasterizer A RT Color → rasterizer A RT Color → Prop)
    (hrefl : ∀ s, R s s) (htrans : ∀ s s1 s2, R s s1 → R s1 s2 → R s s2)
    (hstep : ∀ id s s1, draw_step from_color id s = some s1 → R s s1) :
    ∀ (fuel id : Nat) (s s1 : rasterizer A RT Color),
      draw_loop from_color bound fuel id s = some s1 → R s s1 := by
  intro fuel
  induction fuel with
  | zero =>
    intro id s s1 h
    unfold draw_loop at h
    split at h
    · simp at h
    · simp only [Option.some.injEq] at h
      subst h
      exact hrefl s
  | succ n ih =>
    intro id s s1 h
    unfold draw_loop at h
    split at h
    · cases hs : draw_step from_color id s with
      | none => simp [hs] at h
      | some s0 =>
        simp only [hs, Option.some_bind] at h
        exact htrans s s0 s1 (hstep id s s0 hs) (ih (id + 3) s0 s1 h)
    · simp only [Option.some.injEq] at h
      subst h
      exact hrefl s

theorem no_rise_refl (r : rasterizer A RT Color) : no_rise r r :=
  fun _ _ => Or.inl ⟨rfl, rfl⟩

theorem no_rise_trans {r r1 r2 : rasterizer A RT Color} (h1 : no_rise r r1)
    (h2 : no_rise r1 r2) : no_rise r r2 := by
  intro x y
  rcases h1 x y with ⟨c1, d1⟩ | ⟨D, D1, a1, a2, a3⟩
  · rcases h2 x y with ⟨c2, d2⟩ | ⟨E, E1, b1, b2, b3⟩
    · exact Or.inl ⟨c2.trans c1, d2.trans d1⟩
    · exact Or.inr ⟨E, E1, by rw [← d1, b1], b2, b3⟩
  · rcases h2 x y with ⟨c2, d2⟩ | ⟨E, E1, b1, b2, b3⟩
    · exact Or.inr ⟨D, D1, a1, by rw [d2, a2], a3⟩
    · rw [a2] at b1
      simp only [Option.some.injEq] at b1
      subst b1
      exact Or.inr ⟨D, E1, a1, b2, fval.gt_trans a3 b3⟩

/-- One iteration of the loop never raises a depth, and changes a colour only
where it lowers the depth. -/
theorem draw_step_no_rise {from_color : Color → RT} {id : Nat}
    {r r1 : rasterizer A RT Color} (hf : fits r) (hw : 1 ≤ r.width) (hh : 1 ≤ r.height)
    (hb : r.depth_buffer.isSome = true) (h : draw_step from_color id r = some r1) :
    no_rise r r1 := by
  obtain ⟨_, _, _, _, v0, v1, v2, _, _, _, _, _, _, _, ht⟩ := draw_step_reads h
  obtain ⟨s1, hs1, -, hp⟩ := draw_triangle_pixel_after from_color v0 v1 v2 r hf hw hh hb
  rw [ht] at hs1
  simp only [Option.some.injEq] at hs1
  subst hs1
  intro x y
  have hpx := hp x y
  rcases pixel_after_no_rise (decide (in_box r v0 v1 v2 x y) && covered v0 v1 v2 x y)
    (from_color (r.pixel_shader v0 0)) (pixel_depth v0 v1 v2 x y)
    (r.color_at x y, r.depth_at x y) with hsame | ⟨D, hD, hz, hgt⟩
  · rw [hsame] at hpx
    simp only [Prod.mk.injEq] at hpx
    exact Or.inl hpx
  · rw [← hpx] at hz
    exact Or.inr ⟨D, _, hD, hz, hgt⟩

/-- C19. The depth buffer is monotone under `draw`.  With a depth buffer bound
and destination buffers that fit a viewport of at least 1 x 1, after any call
of `draw` that returns, at every pixel the depth element is at most the value
it held before, and the render-target element differs from the value it held
before only where the depth element went strictly down. -/
theorem draw_depth_monotone (from_color : Color → RT) (r r1 : rasterizer A RT Color)
    (num offset : Nat) (hb : r.depth_buffer.isSome = true) (hf : fits r)
    (hw : 1 ≤ r.width) (hh : 1 ≤ r.height)
    (hdraw : draw from_color r num offset = some r1) :
    ∀ x y : Int,
      (∀ D, r.depth_at x y = some D → ∃ D1, r1.depth_at x y = some D1 ∧ D1.le D) ∧
      (r1.color_at x y ≠ r.color_at x y →
        ∃ D D1, r.depth_at x y = some D ∧ r1.depth_at x y = some D1 ∧ D.gt D1 = true) := by
  have hrel := @draw_loop_rel A RT Color from_color ((offset + num) % 2 ^ 64)
    (fun s s1 : rasterizer A RT Color =>
      fits s → 1 ≤ s.width → 1 ≤ s.height → s.depth_buffer.isSome = true →
        frame s s1 ∧ no_rise s s1)
    (fun s _ _ _ _ => ⟨frame_refl s, no_rise_refl s⟩)
    (fun s s1 s2 h1 h2 hf hw hh hb => by
      obtain ⟨f1, n1⟩ := h1 hf hw hh hb
      obtain ⟨f2, n2⟩ := h2 (fits_of_frame f1 hf) (by rw [f1.2.1]; exact hw)
        (by rw [f1.2.2.1]; exact hh) (by rw [depth_bound_frame f1, hb])
      exact ⟨frame_trans f1 f2, no_rise_trans n1 n2⟩)
    (fun id s s1 hs hf hw hh hb => ⟨draw_step_frame hs, draw_step_no_rise hf hw hh hb hs⟩)
    num offset r r1 hdraw
  obtain ⟨-, hnr⟩ := hrel hf hw hh hb
  intro x y
  rcases hnr x y with ⟨hc, hd⟩ | ⟨D, D1, a1, a2, a3⟩
  · refine ⟨?_, ?_⟩
    · intro D hD
      exact ⟨D, by rw [hd, hD], Or.inl rfl⟩
    · intro hne
      exact absurd hc hne
  · refine ⟨?_, ?_⟩
    · intro D0 hD0
      rw [a1] at hD0
      simp only [Option.some.injEq] at hD0
      subst hD0
      exact ⟨D1, a2, Or.inr a3⟩
    · intro _
      exact ⟨D, D1, a1, a2, a3⟩

/-- Witness for C19: the two sample triangles drawn by `draw(6, 0)` into the
depth buffer cleared to `+infinity`. -/
theorem draw_depth_monotone_witness :
    ∃ r1, draw id sample_depth_rasterizer 6 0 = some r1 ∧
      ∀ x y : Int,
        (∀ D, sample_depth_rasterizer.depth_at x y = some D →
          ∃ D1, r1.depth_at x y = some D1 ∧ D1.le D) ∧
        (r1.color_at x y ≠ sample_depth_rasterizer.color_at x y →
          ∃ D D1, sample_depth_rasterizer.depth_at x y = some D ∧
            r1.depth_at x y = some D1 ∧ D.gt D1 = true) := by
  have hrun : ∃ r1, draw id sample_depth_rasterizer 6 0 = some r1 := by
    rw [draw_eq_triples id sample_depth_rasterizer 6 0 (by decide)]
    exact draw_triples_succeeds id sample_two_triangles _ 0 sample_depth_rasterizer rfl
      (by decide) sample_depth_fits (by decide) (by decide) (by
        intro v hv
        simp [sample_depth_rasterizer, identity_stage])
  obtain ⟨r1, h1⟩ := hrun
  exact ⟨r1, h1, draw_depth_monotone id sample_depth_rasterizer r1 6 0 rfl sample_depth_fits
    (by decide) (by decide) h1⟩

end rasterizer

theorem for_each_commute {I S : Type} (f : S → S) (body : I → S → Option S)
    (h : ∀ i s, body i (f s) = (body i s).map f) :
    ∀ (l : List I) (s : S), for_each l body (f s) = (for_each l body s).map f := by
  intro l
  induction l with
  | nil =>
    intro s
    simp [for_each]
  | cons i rest ih =>
    intro s
    simp only [for_each, h]
    cases body i s with
    | none => simp
    | some s1 => simp [ih]

namespace rasterizer
variable {A RT Color : Type}

/-! ## The vertex stage's second component -/

theorem write_pixel_set_vertex_shader (from_color : Color → RT)
    (stage : float4 → vertex A → float4 × vertex A) (v0 : vertex A) (z : fval) (x y : Int)
    (r : rasterizer A RT Color) :
    write_pixel from_color v0 z x y (r.set_vertex_shader stage) =
      (write_pixel from_color v0 z x y r).map fun t => t.set_vertex_shader stage := by
  rcases r with ⟨vb, rt, db, w, h, vs, ps⟩
  cases rt with
  | none =>
    cases db with
    | none => simp [write_pixel, set_vertex_shader, depth_test]
    | some d =>
      cases hi : d.item_at x y with
      | none => simp [write_pixel, set_vertex_shader, depth_test, hi]
      | some st =>
        cases hg : st.gt z <;> simp [write_pixel, set_vertex_shader, depth_test, hi, hg]
  | some t =>
    cases hs : t.set_item_at x y (from_color (ps v0 0)) with
    | none =>
      cases db with
      | none => simp [write_pixel, set_vertex_shader, depth_test, hs]
      | some d =>
        cases hi : d.item_at x y with
        | none => simp [write_pixel, set_vertex_shader, depth_test, hi]
        | some st =>
          cases hg : st.gt z <;> simp [write_pixel, set_vertex_shader, depth_test, hi, hg, hs]
    | some t1 =>
      cases db with
      | none => simp [write_pixel, set_vertex_shader, depth_test, hs]
      | some d =>
        cases hi : d.item_at x y with
        | none => simp [write_pixel, set_vertex_shader, depth_test, hi]
        | some st =>
          cases hg : st.gt z with
          | false => simp [write_pixel, set_vertex_shader, depth_test, hi, hg, hs]
          | true =>
            cases hd : d.set_item_at x y z <;>
              simp [write_pixel, set_vertex_shader, depth_test, hi, hg, hs, hd]

theorem pixel_set_vertex_shader (from_color : Color → RT)
    (stage : float4 → vertex A → float4 × vertex A) (v0 v1 v2 : vertex A) (x y : Int)
    (r : rasterizer A RT Color) :
    pixel from_color v0 v1 v2 x y (r.set_vertex_shader stage) =
      (pixel from_color v0 v1 v2 x y r).map fun t => t.set_vertex_shader stage := by
  unfold pixel
  split
  · exact write_pixel_set_vertex_shader from_color stage v0 _ x y r
  · simp

theorem draw_triangle_set_vertex_shader (from_color : Color → RT)
    (stage : float4 → vertex A → float4 × vertex A) (v0 v1 v2 : vertex A)
    (r : rasterizer A RT Color) :
    draw_triangle from_color v0 v1 v2 (r.set_vertex_shader stage) =
      (draw_triangle from_color v0 v1 v2 r).map fun t => t.set_vertex_shader stage := by
  unfold draw_triangle
  have hb : (r.set_vertex_shader stage).bounding_box_begin v0 v1 v2 =
      r.bounding_box_begin v0 v1 v2 := rfl
  have he : (r.set_vertex_shader stage).bounding_box_end v0 v1 v2 =
      r.bounding_box_end v0 v1 v2 := rfl
  simp only [hb, he]
  apply for_each_commute (fun t : rasterizer A RT Color => t.set_vertex_shader stage)
  intro x s
  apply for_each_commute (fun t : rasterizer A RT Color => t.set_vertex_shader stage)
  intro y t
  exact pixel_set_vertex_shader from_color stage v0 v1 v2 x y t

theorem to_screen_set_vertex_shader (stage : float4 → vertex A → float4 × vertex A)
    (r : rasterizer A RT Color)
    (hpos : ∀ c v, (stage c v).1 = (r.vertex_shader c v).1) (v : vertex A) :
    (r.set_vertex_shader stage).to_screen v = r.to_screen v := by
  unfold to_screen
  simp only [set_vertex_shader, hpos]

theorem draw_step_set_vertex_shader (from_color : Color → RT)
    (stage : float4 → vertex A → float4 × vertex A) (r : rasterizer A RT Color)
    (hpos : ∀ c v, (stage c v).1 = (r.vertex_shader c v).1) (id : Nat) :
    draw_step from_color id (r.set_vertex_shader stage) =
      (draw_step from_color id r).map fun t => t.set_vertex_shader stage := by
  unfold draw_step
  have hvb : (r.set_vertex_shader stage).vertex_buffer = r.vertex_buffer := rfl
  rw [hvb]
  simp only [to_screen_set_vertex_shader stage r hpos, draw_triangle_set_vertex_shader]
  cases r.vertex_buffer with
  | none => rfl
  | some vb =>
    simp only [Option.some_bind]
    generalize vb.item_linear id = q0
    generalize vb.item_linear (id + 1) = q1
    generalize vb.item_linear (id + 2) = q2
    cases q0 with
    | none => rfl
    | some i0 =>
      cases q1 with
      | none => rfl
      | some i1 =>
        cases q2 with
        | none => rfl
        | some i2 =>
          simp only [Option.some_bind]
          generalize r.to_screen i0 = p0
          generalize r.to_screen i1 = p1
          generalize r.to_screen i2 = p2
          cases p0 with
          | none => rfl
          | some v0 =>
            cases p1 with
            | none => rfl
            | some v1 =>
              cases p2 with
              | none => rfl
              | some v2 => rfl

theorem draw_loop_set_vertex_shader (from_color : Color → RT)
    (stage : float4 → vertex A → float4 × vertex A) (bound : Nat) :
    ∀ (fuel id : Nat) (r : rasterizer A RT Color),
      (∀ c v, (stage c v).1 = (r.vertex_shader c v).1) →
      draw_loop from_color bound fuel id (r.set_vertex_shader stage) =
        (draw_loop from_color bound fuel id r).map fun t => t.set_vertex_shader stage := by
  intro fuel
  induction fuel with
  | zero =>
    intro id r _
    unfold draw_loop
    split <;> simp
  | succ n ih =>
    intro id r hpos
    unfold draw_loop
    split
    · rw [draw_step_set_vertex_shader from_color stage r hpos id]
      cases hs : draw_step from_color id r with
      | none => simp
      | some r1 =>
        simp only [Option.map_some', Option.some_bind]
        apply ih (id + 3) r1
        rw [(draw_step_frame hs).2.2.2.1]
        exact hpos
    · simp

theorem buffers_set_vertex_shader (stage : float4 → vertex A → float4 × vertex A)
    (r : rasterizer A RT Color) : (r.set_vertex_shader stage).buffers = r.buffers := rfl

/-- C20. The vertex record that the vertex stage returns is ignored.  For two
vertex stages that return the same homogeneous position on every input, `draw`
leaves the same render target and the same depth buffer, whatever records they
return; and the screen-space vertex, which is the record the pixel stage
receives, is the vertex-buffer copy with only `x`, `y`, `z` overwritten. -/
theorem draw_ignores_stage_record (from_color : Color → RT) (r : rasterizer A RT Color)
    (stage : float4 → vertex A → float4 × vertex A)
    (hpos : ∀ c v, (stage c v).1 = (r.vertex_shader c v).1) (num offset : Nat) :
    (draw from_color (r.set_vertex_shader stage) num offset).map buffers =
      (draw from_color r num offset).map buffers ∧
    (∀ v s, r.to_screen v = some s → s = { v with x := s.x, y := s.y, z := s.z }) := by
  constructor
  · unfold draw
    rw [draw_loop_set_vertex_shader from_color stage _ num offset r hpos]
    cases draw_loop from_color ((offset + num) % 2 ^ 64) num offset r with
    | none => simp
    | some r1 => simp [buffers_set_vertex_shader]
  · intro v s hs
    unfold to_screen at hs
    simp only at hs
    split at hs
    · simp at hs
    · simp only [Option.some.injEq] at hs
      subst hs
      rfl

/-- Witness for C20: the identity stage against a stage that returns the same
position and a record of its own, on the two sample triangles. -/
theorem draw_ignores_stage_record_witness :
    (draw id (sample_flat_rasterizer.set_vertex_shader
        (fun c _ => (c, (⟨0, 0, 0, 99⟩ : vertex Nat)))) 6 0).map buffers =
      (draw id sample_flat_rasterizer 6 0).map buffers :=
  (draw_ignores_stage_record id sample_flat_rasterizer
    (fun c _ => (c, (⟨0, 0, 0, 99⟩ : vertex Nat))) (fun _ _ => rfl) 6 0).1

end rasterizer

/-! ## Binary32 rounding: exact cases -/

theorem halvings_spec (fuel : Nat) : ∀ n : Nat, n ≤ fuel → 1 ≤ n →
    2 ^ halvings fuel n ≤ n ∧ n < 2 ^ (halvings fuel n + 1) := by
  induction fuel with
  | zero => intro n h0 h1; omega
  | succ fuel ih =>
    intro n hn h1
    unfold halvings
    by_cases h2 : n < 2
    · rw [if_pos h2]
      simp
      omega
    · rw [if_neg h2]
      obtain ⟨a, b⟩ := ih (n / 2) (by omega) (by omega)
      rw [pow_succ, pow_succ]
      rw [pow_succ] at b
      constructor <;> omega

theorem ilog2_le {q : ℚ} (hq : q ≠ 0) : (2 : ℚ) ^ ilog2 q ≤ |q| := by
  unfold ilog2
  simp only
  split
  · assumption
  · have hnum : 1 ≤ q.num.natAbs := Nat.one_le_iff_ne_zero.mpr (by simpa using hq)
    have hden : 1 ≤ q.den := q.den_pos
    obtain ⟨a1, -⟩ := halvings_spec _ _ (le_refl q.num.natAbs) hnum
    obtain ⟨-, b2⟩ := halvings_spec _ _ (le_refl q.den) hden
    have habs : |q| = (q.num.natAbs : ℚ) / (q.den : ℚ) := by
      rw [Rat.abs_def, Rat.divInt_eq_div]
      push_cast
      rw [Nat.cast_natAbs, Int.cast_abs]
    rw [habs]
    have hd : (0 : ℚ) < (q.den : ℚ) := by exact_mod_cast hden
    rw [le_div_iff₀ hd]
    have a1q : (2 : ℚ) ^ halvings q.num.natAbs q.num.natAbs ≤ (q.num.natAbs : ℚ) := by
      exact_mod_cast a1
    have b2q : (q.den : ℚ) < (2 : ℚ) ^ (halvings q.den q.den + 1) := by exact_mod_cast b2
    have h2 : (2 : ℚ) ≠ 0 := by norm_num
    have : (2 : ℚ) ^ ((halvings q.num.natAbs q.num.natAbs : Int) - (halvings q.den q.den : Int) - 1)
        * (2 : ℚ) ^ (halvings q.den q.den + 1) = (2 : ℚ) ^ halvings q.num.natAbs q.num.natAbs := by
      rw [← zpow_natCast (2 : ℚ) (halvings q.den q.den + 1), ← zpow_add₀ h2,
        ← zpow_natCast (2 : ℚ) (halvings q.num.natAbs q.num.natAbs)]
      congr 1
      push_cast
      ring
    have hpos : (0 : ℚ) < (2 : ℚ) ^ ((halvings q.num.natAbs q.num.natAbs : Int) - (halvings q.den q.den : Int) - 1) := by
      positivity
    calc (2 : ℚ) ^ ((halvings q.num.natAbs q.num.natAbs : Int) - (halvings q.den q.den : Int) - 1) * (q.den : ℚ)
        ≤ (2 : ℚ) ^ ((halvings q.num.natAbs q.num.natAbs : Int) - (halvings q.den q.den : Int) - 1)
          * (2 : ℚ) ^ (halvings q.den q.den + 1) := by
          apply mul_le_mul_of_nonneg_left (le_of_lt b2q) (le_of_lt hpos)
      _ = (2 : ℚ) ^ halvings q.num.natAbs q.num.natAbs := this
      _ ≤ _ := a1q

theorem round_half_even_intCast (n : Int) : round_half_even (n : ℚ) = n := by
  unfold round_half_even
  simp

/-- A value of at most 24 significant bits, not below the subnormal spacing, is
its own rounding. -/
theorem round32_dyadic (m k : Int) (hm : |m| < 2 ^ 24) (hk : -149 ≤ k) :
    round32 ((m : ℚ) * 2 ^ k) = (m : ℚ) * 2 ^ k := by
  unfold round32
  split
  · rename_i h0; rw [h0]
  · rename_i hq
    simp only
    have h2 : (2 : ℚ) ≠ 0 := by norm_num
    have hle := ilog2_le hq
    have hlt : |(m : ℚ) * 2 ^ k| < (2 : ℚ) ^ (k + 24) := by
      rw [abs_mul, abs_of_pos (show (0 : ℚ) < 2 ^ k by positivity), zpow_add₀ h2, mul_comm]
      apply mul_lt_mul_of_pos_left _ (by positivity)
      have : ((|m| : Int) : ℚ) < ((2 ^ 24 : Int) : ℚ) := by exact_mod_cast hm
      rw [Int.cast_abs] at this
      norm_num at this ⊢
      exact this
    have he : ilog2 ((m : ℚ) * 2 ^ k) < k + 24 := by
      have := lt_of_le_of_lt hle hlt
      exact (zpow_lt_zpow_iff_right₀ (by norm_num : (1 : ℚ) < 2)).mp this
    have hu : max (ilog2 ((m : ℚ) * 2 ^ k) - 23) (-149) ≤ k := by
      apply max_le <;> omega
    obtain ⟨j, hj⟩ := Int.eq_ofNat_of_zero_le (sub_nonneg.mpr hu)
    have hdiv : (m : ℚ) * 2 ^ k / 2 ^ max (ilog2 ((m : ℚ) * 2 ^ k) - 23) (-149) =
        ((m * 2 ^ j : Int) : ℚ) := by
      rw [mul_div_assoc, ← zpow_sub₀ h2, hj]
      push_cast
      rw [zpow_natCast]
    rw [hdiv, round_half_even_intCast]
    push_cast
    rw [mul_assoc, ← zpow_natCast (2 : ℚ) j, ← hj, ← zpow_add₀ h2]
    congr 2
    ring

theorem round32_intCast (n : Int) (h : |n| ≤ 2 ^ 24) : round32 (n : ℚ) = (n : ℚ) := by
  rcases lt_or_eq_of_le h with h1 | h1
  · simpa using round32_dyadic n 0 h1 (by norm_num)
  · rcases abs_eq (by norm_num : (0 : Int) ≤ 2 ^ 24) |>.mp h1 with h2 | h2
    · have := round32_dyadic (2 ^ 23) 1 (by norm_num) (by norm_num)
      rw [h2]
      norm_num at this ⊢
      exact this
    · have := round32_dyadic (-2 ^ 23) 1 (by norm_num) (by norm_num)
      rw [h2]
      norm_num at this ⊢
      exact this

theorem round32_natCast (n : Nat) (h : n ≤ 2 ^ 24) : round32 (n : ℚ) = (n : ℚ) := by
  have := round32_intCast (n : Int) (by rw [abs_of_nonneg (by positivity)]; exact_mod_cast h)
  simpa using this

/-! ## Binary32 rounding: the exponent and the error -/

theorem ilog2_lt {q : ℚ} (hq : q ≠ 0) : |q| < (2 : ℚ) ^ (ilog2 q + 1) := by
  have hnum : 1 ≤ q.num.natAbs := Nat.one_le_iff_ne_zero.mpr (by simpa using hq)
  have hden : 1 ≤ q.den := q.den_pos
  obtain ⟨-, a2⟩ := halvings_spec _ _ (le_refl q.num.natAbs) hnum
  obtain ⟨b1, -⟩ := halvings_spec _ _ (le_refl q.den) hden
  have habs : |q| = (q.num.natAbs : ℚ) / (q.den : ℚ) := by
    rw [Rat.abs_def, Rat.divInt_eq_div]
    push_cast
    rw [Nat.cast_natAbs, Int.cast_abs]
  have h2 : (2 : ℚ) ≠ 0 := by norm_num
  unfold ilog2
  simp only
  split
  · rw [habs]
    have hd : (0 : ℚ) < (q.den : ℚ) := by exact_mod_cast hden
    rw [div_lt_iff₀ hd]
    have a2q : (q.num.natAbs : ℚ) < (2 : ℚ) ^ (halvings q.num.natAbs q.num.natAbs + 1) := by
      exact_mod_cast a2
    have b1q : (2 : ℚ) ^ halvings q.den q.den ≤ (q.den : ℚ) := by exact_mod_cast b1
    have hpos : (0 : ℚ) <
        (2 : ℚ) ^ ((halvings q.num.natAbs q.num.natAbs : Int) - (halvings q.den q.den : Int)
          + 1) := by positivity
    have : (2 : ℚ) ^ ((halvings q.num.natAbs q.num.natAbs : Int) - (halvings q.den q.den : Int)
          + 1) * (2 : ℚ) ^ halvings q.den q.den =
        (2 : ℚ) ^ (halvings q.num.natAbs q.num.natAbs + 1) := by
      rw [← zpow_natCast (2 : ℚ) (halvings q.den q.den), ← zpow_add₀ h2,
        ← zpow_natCast (2 : ℚ) (halvings q.num.natAbs q.num.natAbs + 1)]
      congr 1
      push_cast
      ring
    calc (q.num.natAbs : ℚ) < (2 : ℚ) ^ (halvings q.num.natAbs q.num.natAbs + 1) := a2q
      _ = _ := this.symm
      _ ≤ _ := mul_le_mul_of_nonneg_left b1q (le_of_lt hpos)
  · rename_i hlt
    rw [sub_add_cancel]
    exact lt_of_not_le hlt

/-- The exponent that `round32` uses is the binary exponent of `q`. -/
theorem ilog2_spec {q : ℚ} (hq : q ≠ 0) :
    (2 : ℚ) ^ ilog2 q ≤ |q| ∧ |q| < (2 : ℚ) ^ (ilog2 q + 1) :=
  ⟨ilog2_le hq, ilog2_lt hq⟩

theorem round_half_even_error (m : ℚ) : |(round_half_even m : ℚ) - m| ≤ 1 / 2 := by
  have h1 := Int.floor_le m
  have h2 := Int.lt_floor_add_one m
  unfold round_half_even
  simp only
  split
  · rename_i h
    rw [abs_le]
    constructor <;> linarith
  · split
    · rename_i h h'
      push_cast
      rw [abs_le]
      constructor <;> linarith
    · rename_i h h'
      have hd : m - (⌊m⌋ : ℚ) = 1 / 2 := le_antisymm (not_lt.mp h') (not_lt.mp h)
      split
      · rw [abs_le]
        constructor <;> linarith
      · push_cast
        rw [abs_le]
        constructor <;> linarith

/-- The value `round32 q` is within half a unit in the last place of `q`. -/
theorem round32_error (q : ℚ) :
    |round32 q - q| ≤ (2 : ℚ) ^ max (ilog2 q - 23) (-149) / 2 := by
  unfold round32
  split
  · rename_i h
    rw [h]
    simp only [sub_zero, abs_zero]
    positivity
  · simp only
    have hu : (0 : ℚ) < (2 : ℚ) ^ max (ilog2 q - 23) (-149) := by positivity
    have h := round_half_even_error (q / (2 : ℚ) ^ max (ilog2 q - 23) (-149))
    have e : (round_half_even (q / (2 : ℚ) ^ max (ilog2 q - 23) (-149)) : ℚ) *
        (2 : ℚ) ^ max (ilog2 q - 23) (-149) - q =
        ((round_half_even (q / (2 : ℚ) ^ max (ilog2 q - 23) (-149)) : ℚ) -
          q / (2 : ℚ) ^ max (ilog2 q - 23) (-149)) * (2 : ℚ) ^ max (ilog2 q - 23) (-149) := by
      field_simp
    rw [e, abs_mul, abs_of_pos hu]
    calc _ ≤ 1 / 2 * (2 : ℚ) ^ max (ilog2 q - 23) (-149) :=
          mul_le_mul_of_nonneg_right h (le_of_lt hu)
      _ = _ := by ring

theorem static_cast_int32_of_range {q : ℚ} (h0 : 0 ≤ static_cast_int q)
    (h1 : static_cast_int q < 2 ^ 31) : static_cast_int32 q = some (static_cast_int q) := by
  unfold static_cast_int32
  rw [if_pos ⟨by omega, h1⟩]

namespace rasterizer
variable {A RT Color : Type}

/-! ## The binary32 scan of one triangle -/

/-- Up to `2 ^ 24` the bound of the clamp is `n - 1`. -/
theorem box_bound_eq {n : Nat} (h1 : 1 ≤ n) (h : n ≤ 2 ^ 24) : box_bound n = (n : ℚ) - 1 := by
  unfold box_bound
  rw [round32_natCast n h]
  have := round32_natCast (n - 1) (by omega)
  rw [Nat.cast_sub h1] at this
  simpa using this

theorem bounding_box_begin_f32_eq {r : rasterizer A RT Color} (hw : 1 ≤ r.width)
    (hh : 1 ≤ r.height) (hW : r.width ≤ 2 ^ 24) (hH : r.height ≤ 2 ^ 24) (v0 v1 v2 : vertex A) :
    r.bounding_box_begin_f32 v0 v1 v2 = r.bounding_box_begin v0 v1 v2 := by
  unfold bounding_box_begin_f32 bounding_box_begin
  rw [box_bound_eq hw hW, box_bound_eq hh hH]

theorem bounding_box_end_f32_eq {r : rasterizer A RT Color} (hw : 1 ≤ r.width)
    (hh : 1 ≤ r.height) (hW : r.width ≤ 2 ^ 24) (hH : r.height ≤ 2 ^ 24) (v0 v1 v2 : vertex A) :
    r.bounding_box_end_f32 v0 v1 v2 = r.bounding_box_end v0 v1 v2 := by
  unfold bounding_box_end_f32 bounding_box_end
  rw [box_bound_eq hw hW, box_bound_eq hh hH]

theorem in_box_f32_iff {r : rasterizer A RT Color} (hw : 1 ≤ r.width)
    (hh : 1 ≤ r.height) (hW : r.width ≤ 2 ^ 24) (hH : r.height ≤ 2 ^ 24) (v0 v1 v2 : vertex A)
    (x y : Int) : in_box_f32 r v0 v1 v2 x y ↔ in_box r v0 v1 v2 x y := by
  unfold in_box_f32 in_box
  rw [bounding_box_begin_f32_eq hw hh hW hH, bounding_box_end_f32_eq hw hh hW hH]

theorem in_box_f32_range {r : rasterizer A RT Color} (hw : 1 ≤ r.width)
    (hh : 1 ≤ r.height) (hW : r.width ≤ 2 ^ 24) (hH : r.height ≤ 2 ^ 24)
    {v0 v1 v2 : vertex A} {x y : Int} (h : in_box_f32 r v0 v1 v2 x y) :
    0 ≤ x ∧ x < r.width ∧ 0 ≤ y ∧ y < r.height :=
  in_box_range hw hh ((in_box_f32_iff hw hh hW hH v0 v1 v2 x y).mp h)

theorem hit_f32_congr {r r1 : rasterizer A RT Color} (h : frame r r1) {x y : Int}
    (hd : r1.depth_at x y = r.depth_at x y) (v0 v1 v2 : vertex A) :
    hit_f32 r1 v0 v1 v2 x y = hit_f32 r v0 v1 v2 x y := by
  unfold hit_f32
  rw [depth_test_congr h hd]

theorem pixel_f32_spec (from_color : Color → RT) (v0 v1 v2 : vertex A) {x y : Int}
    {r : rasterizer A RT Color} (hf : fits r) (hx0 : 0 ≤ x) (hx : x < r.width)
    (hy0 : 0 ≤ y) (hy : y < r.height) :
    ∃ r1, pixel_f32 from_color v0 v1 v2 x y r = some r1 ∧ frame r r1 ∧
      (∀ x1 y1, r1.color_at x1 y1 =
        if (x1 = x ∧ y1 = y) ∧ hit_f32 r v0 v1 v2 x y = true
        then some (from_color (r.pixel_shader v0 0)) else r.color_at x1 y1) ∧
      (∀ x1 y1, r1.depth_at x1 y1 =
        if (x1 = x ∧ y1 = y) ∧ hit_f32 r v0 v1 v2 x y = true
        then (r.depth_at x1 y1).map (fun _ => pixel_depth_f32 v0 v1 v2 x y)
        else r.depth_at x1 y1) := by
  cases hc : covered_f32 v0 v1 v2 x y with
  | false =>
    refine ⟨r, by simp [pixel_f32, hc], frame_refl r, ?_, ?_⟩ <;> intro x1 y1 <;>
      simp [hit_f32, hc]
  | true =>
    obtain ⟨r1, h1, h2, h3, h4⟩ :=
      write_pixel_spec from_color v0 (pixel_depth_f32 v0 v1 v2 x y) hf hx0 hx hy0 hy
    refine ⟨r1, by simp [pixel_f32, hc, h1], h2, ?_, ?_⟩
    · intro x1 y1
      rw [h3]
      simp [hit_f32, hc]
    · intro x1 y1
      rw [h4]
      simp [hit_f32, hc]

theorem scan_f32_spec (from_color : Color → RT) (v0 v1 v2 : vertex A) (ps : List (Int × Int))
    (hnd : ps.Nodup) (r : rasterizer A RT Color) (hf : fits r)
    (hin : ∀ p ∈ ps, 0 ≤ p.1 ∧ p.1 < r.width ∧ 0 ≤ p.2 ∧ p.2 < r.height) :
    ∃ r1, for_each ps (fun p => pixel_f32 from_color v0 v1 v2 p.1 p.2) r = some r1 ∧
      frame r r1 ∧
      (∀ x y, r1.color_at x y =
        if (x, y) ∈ ps ∧ hit_f32 r v0 v1 v2 x y = true
        then some (from_color (r.pixel_shader v0 0)) else r.color_at x y) ∧
      (∀ x y, r1.depth_at x y =
        if (x, y) ∈ ps ∧ hit_f32 r v0 v1 v2 x y = true
        then (r.depth_at x y).map (fun _ => pixel_depth_f32 v0 v1 v2 x y)
        else r.depth_at x y) := by
  induction ps generalizing r with
  | nil =>
    exact ⟨r, by simp [for_each], frame_refl r, by simp, by simp⟩
  | cons p rest ih =>
    obtain ⟨hp, hrest⟩ := List.nodup_cons.mp hnd
    obtain ⟨hx0, hx, hy0, hy⟩ := hin p (List.mem_cons_self _ _)
    obtain ⟨r1, h1, hfr1, hc1, hd1⟩ := pixel_f32_spec from_color v0 v1 v2 hf hx0 hx hy0 hy
    have hin1 : ∀ q ∈ rest, 0 ≤ q.1 ∧ q.1 < r1.width ∧ 0 ≤ q.2 ∧ q.2 < r1.height := by
      intro q hq
      rw [hfr1.2.1, hfr1.2.2.1]
      exact hin q (List.mem_cons_of_mem _ hq)
    obtain ⟨r2, h2, hfr2, hc2, hd2⟩ := ih hrest r1 (fits_of_frame hfr1 hf) hin1
    have hps : r1.pixel_shader = r.pixel_shader := hfr1.2.2.2.2.1
    refine ⟨r2, by simp [for_each, h1, h2], frame_trans hfr1 hfr2, ?_, ?_⟩
    · intro x y
      rw [hc2, hc1, hps]
      by_cases hxy : (x, y) = p
      · have hnot : (x, y) ∉ rest := hxy ▸ hp
        have hxy2 : x = p.1 ∧ y = p.2 := by
          rw [← hxy]; exact ⟨rfl, rfl⟩
        obtain ⟨rfl, rfl⟩ := hxy2
        simp [hnot]
      · have hxy2 : ¬ (x = p.1 ∧ y = p.2) := by
          rintro ⟨rfl, rfl⟩
          exact hxy rfl
        have hdeq : r1.depth_at x y = r.depth_at x y := by
          rw [hd1]; simp [hxy2]
        rw [hit_f32_congr hfr1 hdeq]
        simp [hxy, hxy2]
    · intro x y
      rw [hd2, hd1]
      by_cases hxy : (x, y) = p
      · have hnot : (x, y) ∉ rest := hxy ▸ hp
        have hxy2 : x = p.1 ∧ y = p.2 := by
          rw [← hxy]; exact ⟨rfl, rfl⟩
        obtain ⟨rfl, rfl⟩ := hxy2
        simp [hnot]
      · have hxy2 : ¬ (x = p.1 ∧ y = p.2) := by
          rintro ⟨rfl, rfl⟩
          exact hxy rfl
        have hdeq : r1.depth_at x y = r.depth_at x y := by
          rw [hd1]; simp [hxy2]
        rw [hit_f32_congr hfr1 hdeq]
        simp [hxy, hxy2]

/-- For a viewport of at most `2 ^ 24` by `2 ^ 24` the four casts of the scan
are defined, and the scan is the double loop over the box. -/
theorem draw_triangle_f32_loops (from_color : Color → RT) (v0 v1 v2 : vertex A)
    (r : rasterizer A RT Color) (hw : 1 ≤ r.width) (hh : 1 ≤ r.height)
    (hW : r.width ≤ 2 ^ 24) (hH : r.height ≤ 2 ^ 24) :
    draw_triangle_f32 from_color v0 v1 v2 r =
      for_each (int_range (static_cast_int (r.bounding_box_begin_f32 v0 v1 v2).x)
          (static_cast_int (r.bounding_box_end_f32 v0 v1 v2).x))
        (fun x => for_each (int_range (static_cast_int (r.bounding_box_begin_f32 v0 v1 v2).y)
          (static_cast_int (r.bounding_box_end_f32 v0 v1 v2).y))
          (fun y => pixel_f32 from_color v0 v1 v2 x y)) r := by
  have a1 := static_cast_int_clamp (v := min (min v0.x v1.x) v2.x) hw
  have a2 := static_cast_int_clamp (v := max (max v0.x v1.x) v2.x) hw
  have a3 := static_cast_int_clamp (v := min (min v0.y v1.y) v2.y) hh
  have a4 := static_cast_int_clamp (v := max (max v0.y v1.y) v2.y) hh
  have hW2 : (r.width : Int) ≤ 2 ^ 24 := by exact_mod_cast hW
  have hH2 : (r.height : Int) ≤ 2 ^ 24 := by exact_mod_cast hH
  unfold draw_triangle_f32
  simp only [bounding_box_begin_f32, bounding_box_end_f32, box_bound_eq hw hW,
    box_bound_eq hh hH]
  rw [static_cast_int32_of_range a1.1 (by omega), static_cast_int32_of_range a2.1 (by omega),
    static_cast_int32_of_range a3.1 (by omega), static_cast_int32_of_range a4.1 (by omega)]
  simp only [Option.some_bind]

/-- What the binary32 scan of one triangle leaves in the destination buffers. -/
theorem draw_triangle_f32_spec (from_color : Color → RT) (v0 v1 v2 : vertex A)
    (r : rasterizer A RT Color) (hf : fits r) (hw : 1 ≤ r.width) (hh : 1 ≤ r.height)
    (hW : r.width ≤ 2 ^ 24) (hH : r.height ≤ 2 ^ 24) :
    ∃ r1, draw_triangle_f32 from_color v0 v1 v2 r = some r1 ∧ frame r r1 ∧
      (∀ x y, r1.color_at x y =
        if in_box_f32 r v0 v1 v2 x y ∧ hit_f32 r v0 v1 v2 x y = true
        then some (from_color (r.pixel_shader v0 0)) else r.color_at x y) ∧
      (∀ x y, r1.depth_at x y =
        if in_box_f32 r v0 v1 v2 x y ∧ hit_f32 r v0 v1 v2 x y = true
        then (r.depth_at x y).map (fun _ => pixel_depth_f32 v0 v1 v2 x y)
        else r.depth_at x y) := by
  have hmem : ∀ x y, (x, y) ∈
      int_range (static_cast_int (r.bounding_box_begin_f32 v0 v1 v2).x)
        (static_cast_int (r.bounding_box_end_f32 v0 v1 v2).x) ×ˢ
      int_range (static_cast_int (r.bounding_box_begin_f32 v0 v1 v2).y)
        (static_cast_int (r.bounding_box_end_f32 v0 v1 v2).y) ↔ in_box_f32 r v0 v1 v2 x y := by
    intro x y
    rw [List.mem_product, mem_int_range, mem_int_range]
    unfold in_box_f32
    tauto
  obtain ⟨r1, h1, h2, h3, h4⟩ := scan_f32_spec from_color v0 v1 v2 _
    (List.Nodup.product (nodup_int_range _ _) (nodup_int_range _ _)) r hf
    (fun p hp => in_box_f32_range hw hh hW hH ((hmem p.1 p.2).mp hp))
  refine ⟨r1, ?_, h2, ?_, ?_⟩
  · rw [draw_triangle_f32_loops from_color v0 v1 v2 r hw hh hW hH, for_each_product]
    exact h1
  · intro x y
    rw [h3]
    simp only [hmem]
  · intro x y
    rw [h4]
    simp only [hmem]

theorem draw_triangle_f32_skip {from_color : Color → RT} {v0 v1 v2 : vertex A}
    {r : rasterizer A RT Color} (hw : 1 ≤ r.width) (hh : 1 ≤ r.height)
    (hW : r.width ≤ 2 ^ 24) (hH : r.height ≤ 2 ^ 24)
    (h : ∀ x y, in_box_f32 r v0 v1 v2 x y → pixel_f32 from_color v0 v1 v2 x y r = some r) :
    draw_triangle_f32 from_color v0 v1 v2 r = some r := by
  rw [draw_triangle_f32_loops from_color v0 v1 v2 r hw hh hW hH]
  apply for_each_skip
  intro x hx
  apply for_each_skip
  intro y hy
  exact h x y ⟨(mem_int_range.mp hx).1, (mem_int_range.mp hx).2, (mem_int_range.mp hy).1,
    (mem_int_range.mp hy).2⟩

/-! ## The binary32 `while` loop on one triangle -/

theorem draw_step_f32_eq {from_color : Color → RT} {r : rasterizer A RT Color} {id : Nat}
    {vb : resource (vertex A)} {i0 i1 i2 v0 v1 v2 : vertex A}
    (hvb : r.vertex_buffer = some vb)
    (h0 : vb.item_linear id = some i0) (h1 : vb.item_linear (id + 1) = some i1)
    (h2 : vb.item_linear (id + 2) = some i2)
    (hs0 : r.to_screen_f32 i0 = some v0) (hs1 : r.to_screen_f32 i1 = some v1)
    (hs2 : r.to_screen_f32 i2 = some v2) :
    draw_step_f32 from_color id r = draw_triangle_f32 from_color v0 v1 v2 r := by
  simp [draw_step_f32, hvb, h0, h1, h2, hs0, hs1, hs2]

theorem draw_three_f32 {from_color : Color → RT} {r : rasterizer A RT Color} {offset : Nat}
    {vb : resource (vertex A)} {i0 i1 i2 v0 v1 v2 : vertex A}
    (hvb : r.vertex_buffer = some vb)
    (h0 : vb.item_linear offset = some i0) (h1 : vb.item_linear (offset + 1) = some i1)
    (h2 : vb.item_linear (offset + 2) = some i2)
    (hs0 : r.to_screen_f32 i0 = some v0) (hs1 : r.to_screen_f32 i1 = some v1)
    (hs2 : r.to_screen_f32 i2 = some v2) (hoff : offset + 3 < 2 ^ 64) :
    draw_f32 from_color r 3 offset = draw_triangle_f32 from_color v0 v1 v2 r := by
  have hb : (offset + 3) % 2 ^ 64 = offset + 3 := Nat.mod_eq_of_lt hoff
  unfold draw_f32
  rw [hb]
  have hlt : offset < offset + 3 := by omega
  have hge : ¬ (offset + 3 < offset + 3) := by omega
  simp only [draw_loop_f32, hlt, if_true, hge, if_false]
  rw [draw_step_f32_eq hvb h0 h1 h2 hs0 hs1 hs2]
  cases draw_triangle_f32 from_color v0 v1 v2 r <;> simp

theorem to_screen_f32_frame {r r1 : rasterizer A RT Color} (h : frame r r1) (v : vertex A) :
    r1.to_screen_f32 v = r.to_screen_f32 v := by
  obtain ⟨-, hw, hh, hvs, -, -, -⟩ := h
  unfold to_screen_f32
  rw [hw, hh, hvs]

theorem in_box_f32_frame {r r1 : rasterizer A RT Color} (h : frame r r1) (v0 v1 v2 : vertex A)
    (x y : Int) : in_box_f32 r1 v0 v1 v2 x y ↔ in_box_f32 r v0 v1 v2 x y := by
  unfold in_box_f32 bounding_box_begin_f32 bounding_box_end_f32
  rw [h.2.1, h.2.2.1]

/-! ## Claims on the binary32 reading -/

/-- The binary32 coverage test, at a pixel whose coordinates convert to `float`
without rounding. -/
theorem covered_f32_iff (v0 v1 v2 : vertex A) {x y : Int} (hx : |x| ≤ 2 ^ 24)
    (hy : |y| ≤ 2 ^ 24) :
    covered_f32 v0 v1 v2 x y = true ↔
      (edge_function_f32 ⟨v0.x, v0.y⟩ ⟨v1.x, v1.y⟩ ⟨(x : ℚ), (y : ℚ)⟩).nonneg = true ∧
      (edge_function_f32 ⟨v1.x, v1.y⟩ ⟨v2.x, v2.y⟩ ⟨(x : ℚ), (y : ℚ)⟩).nonneg = true ∧
      (edge_function_f32 ⟨v2.x, v2.y⟩ ⟨v0.x, v0.y⟩ ⟨(x : ℚ), (y : ℚ)⟩).nonneg = true := by
  unfold covered_f32
  rw [round32_intCast x hx, round32_intCast y hy]
  simp [Bool.and_eq_true, and_assoc]

theorem covered_f32_iff_of_in_box {r : rasterizer A RT Color} (hw : 1 ≤ r.width)
    (hh : 1 ≤ r.height) (hW : r.width ≤ 2 ^ 24) (hH : r.height ≤ 2 ^ 24)
    {v0 v1 v2 : vertex A} {x y : Int} (hbox : in_box_f32 r v0 v1 v2 x y) :
    covered_f32 v0 v1 v2 x y = true ↔
      (edge_function_f32 ⟨v0.x, v0.y⟩ ⟨v1.x, v1.y⟩ ⟨(x : ℚ), (y : ℚ)⟩).nonneg = true ∧
      (edge_function_f32 ⟨v1.x, v1.y⟩ ⟨v2.x, v2.y⟩ ⟨(x : ℚ), (y : ℚ)⟩).nonneg = true ∧
      (edge_function_f32 ⟨v2.x, v2.y⟩ ⟨v0.x, v0.y⟩ ⟨(x : ℚ), (y : ℚ)⟩).nonneg = true := by
  obtain ⟨hx0, hx, hy0, hy⟩ := in_box_f32_range hw hh hW hH hbox
  have hW2 : (r.width : Int) ≤ 2 ^ 24 := by exact_mod_cast hW
  have hH2 : (r.height : Int) ≤ 2 ^ 24 := by exact_mod_cast hH
  exact covered_f32_iff v0 v1 v2 (by rw [abs_of_nonneg hx0]; omega)
    (by rw [abs_of_nonneg hy0]; omega)

/-- C1 (as amended).  Coverage of `draw` for one triangle, as the source
computes it in binary32.  With no depth buffer bound, a viewport of at least
1 x 1 and at most `2 ^ 24` x `2 ^ 24` and a render target that fits it, after
`draw(3, offset)` a pixel holds `from_color (pixel_shader v0 0)` when it lies in
the clamped bounding box and the three edge values that `edge_function`
computes in binary32 are all `≥ 0`, and holds the value it had before
otherwise.  A pixel of the viewport at which the three exact edge values are
positive lies in that box, so it is written exactly when rounding leaves its
three computed edge values `≥ 0`.  The vertex stage is any one that gives
finite screen coordinates. -/
theorem draw_coverage_binary32 (from_color : Color → RT) (r : rasterizer A RT Color)
    (offset : Nat) (vb : resource (vertex A)) (i0 i1 i2 v0 v1 v2 : vertex A)
    (hvb : r.vertex_buffer = some vb)
    (h0 : vb.item_linear offset = some i0) (h1 : vb.item_linear (offset + 1) = some i1)
    (h2 : vb.item_linear (offset + 2) = some i2)
    (hs0 : r.to_screen_f32 i0 = some v0) (hs1 : r.to_screen_f32 i1 = some v1)
    (hs2 : r.to_screen_f32 i2 = some v2) (hoff : offset + 3 < 2 ^ 64)
    (hnd : r.depth_buffer = none) (hf : fits r) (hw : 1 ≤ r.width) (hh : 1 ≤ r.height)
    (hW : r.width ≤ 2 ^ 24) (hH : r.height ≤ 2 ^ 24) :
    ∃ r1, draw_f32 from_color r 3 offset = some r1 ∧
      ∀ x y : Int,
        r1.color_at x y =
          (if in_box_f32 r v0 v1 v2 x y ∧
              (edge_function_f32 ⟨v0.x, v0.y⟩ ⟨v1.x, v1.y⟩ ⟨(x : ℚ), (y : ℚ)⟩).nonneg = true ∧
              (edge_function_f32 ⟨v1.x, v1.y⟩ ⟨v2.x, v2.y⟩ ⟨(x : ℚ), (y : ℚ)⟩).nonneg = true ∧
              (edge_function_f32 ⟨v2.x, v2.y⟩ ⟨v0.x, v0.y⟩ ⟨(x : ℚ), (y : ℚ)⟩).nonneg = true
           then some (from_color (r.pixel_shader v0 0)) else r.color_at x y) ∧
        (0 ≤ x → x < r.width → 0 ≤ y → y < r.height →
          0 < edge_function ⟨v0.x, v0.y⟩ ⟨v1.x, v1.y⟩ ⟨(x : ℚ), (y : ℚ)⟩ →
          0 < edge_function ⟨v1.x, v1.y⟩ ⟨v2.x, v2.y⟩ ⟨(x : ℚ), (y : ℚ)⟩ →
          0 < edge_function ⟨v2.x, v2.y⟩ ⟨v0.x, v0.y⟩ ⟨(x : ℚ), (y : ℚ)⟩ →
            in_box_f32 r v0 v1 v2 x y) := by
  obtain ⟨r1, hr1, -, hc, -⟩ := draw_triangle_f32_spec from_color v0 v1 v2 r hf hw hh hW hH
  refine ⟨r1, by rw [draw_three_f32 hvb h0 h1 h2 hs0 hs1 hs2 hoff, hr1], ?_⟩
  intro x y
  constructor
  · rw [hc]
    have hdt : r.depth_test (pixel_depth_f32 v0 v1 v2 x y) x y = some true := by
      simp [depth_test, hnd]
    by_cases hbox : in_box_f32 r v0 v1 v2 x y
    · have hiff := covered_f32_iff_of_in_box hw hh hW hH hbox
      by_cases hcov : covered_f32 v0 v1 v2 x y = true
      · rw [if_pos ⟨hbox, by simp [hit_f32, hcov, hdt]⟩, if_pos ⟨hbox, hiff.mp hcov⟩]
      · rw [if_neg (fun h => hcov (by
          have := h.2
          simp only [hit_f32, Bool.and_eq_true] at this
          exact this.1)), if_neg (fun h => hcov (hiff.mpr h.2))]
    · rw [if_neg (fun h => hbox h.1), if_neg (fun h => hbox h.1)]
  · intro hx0 hx hy0 hy e0 e1 e2
    have hcov : covered v0 v1 v2 x y = true :=
      (covered_iff v0 v1 v2 x y).mpr ⟨le_of_lt e0, le_of_lt e1, le_of_lt e2⟩
    have hE : 0 < edge_function ⟨v0.x, v0.y⟩ ⟨v1.x, v1.y⟩ ⟨v2.x, v2.y⟩ := by
      rw [← edge_sum ⟨v0.x, v0.y⟩ ⟨v1.x, v1.y⟩ ⟨v2.x, v2.y⟩ ⟨(x : ℚ), (y : ℚ)⟩]
      linarith
    exact (in_box_f32_iff hw hh hW hH v0 v1 v2 x y).mpr
      (in_box_of_covered hE hcov hx0 hx hy0 hy)

/-- Witness for C1 (as amended): the sample triangle `(0, 0)`, `(0, 3)`, `(3, 0)`
drawn with the identity vertex stage into the 4 x 4 target. -/
theorem draw_coverage_binary32_witness :
    ∃ r1, draw_f32 id sample_rasterizer 3 0 = some r1 ∧
      ∀ x y : Int,
        r1.color_at x y =
          (if in_box_f32 sample_rasterizer (⟨0, 0, 0, ()⟩ : vertex Unit) ⟨0, 3, 0, ()⟩
              ⟨3, 0, 0, ()⟩ x y ∧
              (edge_function_f32 ⟨0, 0⟩ ⟨0, 3⟩ ⟨(x : ℚ), (y : ℚ)⟩).nonneg = true ∧
              (edge_function_f32 ⟨0, 3⟩ ⟨3, 0⟩ ⟨(x : ℚ), (y : ℚ)⟩).nonneg = true ∧
              (edge_function_f32 ⟨3, 0⟩ ⟨0, 0⟩ ⟨(x : ℚ), (y : ℚ)⟩).nonneg = true
           then some 7 else sample_rasterizer.color_at x y) ∧
        (0 ≤ x → x < 4 → 0 ≤ y → y < 4 →
          0 < edge_function ⟨0, 0⟩ ⟨0, 3⟩ ⟨(x : ℚ), (y : ℚ)⟩ →
          0 < edge_function ⟨0, 3⟩ ⟨3, 0⟩ ⟨(x : ℚ), (y : ℚ)⟩ →
          0 < edge_function ⟨3, 0⟩ ⟨0, 0⟩ ⟨(x : ℚ), (y : ℚ)⟩ →
            in_box_f32 sample_rasterizer (⟨0, 0, 0, ()⟩ : vertex Unit) ⟨0, 3, 0, ()⟩
              ⟨3, 0, 0, ()⟩ x y) :=
  draw_coverage_binary32 id sample_rasterizer 0 sample_vertices
    ⟨-1, 1, 0, ()⟩ ⟨-1, -1 / 2, 0, ()⟩ ⟨1 / 2, 1, 0, ()⟩
    ⟨0, 0, 0, ()⟩ ⟨0, 3, 0, ()⟩ ⟨3, 0, 0, ()⟩
    rfl rfl rfl rfl (by decide!) (by decide!) (by decide!)
    (by norm_num) rfl sample_fits (by decide) (by decide) (by decide) (by decide)

/-- Counterexample to C1 as stated.  In an 8 x 8 viewport with the identity
vertex stage and no depth buffer, the three binary32 vertices of
`sample_vertices_grazing` map to screen points inside the viewport.  At pixel
`(4, 4)` the three exact edge values are positive (the first is `2 ^ (-23)`), but
the source computes the first as `-2 ^ (-21)`, and `draw(3, 0)` leaves the pixel
at the value `0` it had before; read in exact arithmetic, the same call writes
the colour `7` there. -/
theorem draw_coverage_rounds_off :
    sample_grazing_rasterizer.to_screen_f32 ⟨-7340035 / 16777216, 7 / 16, 0, ()⟩ =
      some ⟨9437181 / 4194304, 9 / 4, 0, ()⟩ ∧
    sample_grazing_rasterizer.to_screen_f32 ⟨2621441 / 4194304, -5 / 8, 0, ()⟩ =
      some ⟨6815745 / 1048576, 13 / 2, 0, ()⟩ ∧
    sample_grazing_rasterizer.to_screen_f32 ⟨1179649 / 2097152, 3407873 / 4194304, 0, ()⟩ =
      some ⟨3276801 / 524288, 786431 / 1048576, 0, ()⟩ ∧
    edge_function ⟨9437181 / 4194304, 9 / 4⟩ ⟨6815745 / 1048576, 13 / 2⟩ ⟨4, 4⟩ = 1 / 8388608 ∧
    0 < edge_function ⟨6815745 / 1048576, 13 / 2⟩ ⟨3276801 / 524288, 786431 / 1048576⟩ ⟨4, 4⟩ ∧
    0 < edge_function ⟨3276801 / 524288, 786431 / 1048576⟩ ⟨9437181 / 4194304, 9 / 4⟩ ⟨4, 4⟩ ∧
    edge_function_f32 ⟨9437181 / 4194304, 9 / 4⟩ ⟨6815745 / 1048576, 13 / 2⟩ ⟨4, 4⟩ =
      fval.fin (-1 / 2097152) ∧
    sample_grazing_rasterizer.color_at 4 4 = some 0 ∧
    (∃ r1, draw_f32 id sample_grazing_rasterizer 3 0 = some r1 ∧ r1.color_at 4 4 = some 0) ∧
    (∃ r1, draw id sample_grazing_rasterizer 3 0 = some r1 ∧ r1.color_at 4 4 = some 7) := by
  refine ⟨by decide!, by decide!, by decide!, by decide!, by decide!, by decide!, by decide!,
    by decide!, ?_, ?_⟩
  · have h : (draw_f32 id sample_grazing_rasterizer 3 0).bind (fun s => s.color_at 4 4) =
        some 0 := by decide!
    obtain ⟨r1, h1, h2⟩ := Option.bind_eq_some.mp h
    exact ⟨r1, h1, h2⟩
  · have h : (draw id sample_grazing_rasterizer 3 0).bind (fun s => s.color_at 4 4) =
        some 7 := by decide!
    obtain ⟨r1, h1, h2⟩ := Option.bind_eq_some.mp h
    exact ⟨r1, h1, h2⟩

/-- C2 (as amended).  Winding sensitivity, as the source computes it in
binary32.  For a triangle whose exact signed area `edge(A, B, C)` is negative,
in a viewport of at least 1 x 1 and at most `2 ^ 24` x `2 ^ 24`:
with destination buffers that fit, `draw(3, offset)` returns, and an element of
the render target or of the depth buffer differs afterwards only at a pixel of
the box at which the three edge values computed in binary32 are all `≥ 0`
although an exact edge value is negative there; and when at every pixel of the
box three computed edge values `≥ 0` come only with three exact edge values
`≥ 0` (no rounding hides a negative sign), `draw` returns with the state it was
called in, whatever the buffers. -/
theorem draw_opposite_winding_binary32 (from_color : Color → RT) (r : rasterizer A RT Color)
    (offset : Nat) (vb : resource (vertex A)) (i0 i1 i2 v0 v1 v2 : vertex A)
    (hvb : r.vertex_buffer = some vb)
    (h0 : vb.item_linear offset = some i0) (h1 : vb.item_linear (offset + 1) = some i1)
    (h2 : vb.item_linear (offset + 2) = some i2)
    (hs0 : r.to_screen_f32 i0 = some v0) (hs1 : r.to_screen_f32 i1 = some v1)
    (hs2 : r.to_screen_f32 i2 = some v2) (hoff : offset + 3 < 2 ^ 64)
    (hw : 1 ≤ r.width) (hh : 1 ≤ r.height) (hW : r.width ≤ 2 ^ 24) (hH : r.height ≤ 2 ^ 24)
    (hE : edge_function ⟨v0.x, v0.y⟩ ⟨v1.x, v1.y⟩ ⟨v2.x, v2.y⟩ < 0) :
    (fits r → ∃ r1, draw_f32 from_color r 3 offset = some r1 ∧
      ∀ x y : Int, (r1.color_at x y ≠ r.color_at x y ∨ r1.depth_at x y ≠ r.depth_at x y) →
        in_box_f32 r v0 v1 v2 x y ∧
        ((edge_function_f32 ⟨v0.x, v0.y⟩ ⟨v1.x, v1.y⟩ ⟨(x : ℚ), (y : ℚ)⟩).nonneg = true ∧
          (edge_function_f32 ⟨v1.x, v1.y⟩ ⟨v2.x, v2.y⟩ ⟨(x : ℚ), (y : ℚ)⟩).nonneg = true ∧
          (edge_function_f32 ⟨v2.x, v2.y⟩ ⟨v0.x, v0.y⟩ ⟨(x : ℚ), (y : ℚ)⟩).nonneg = true) ∧
        (edge_function ⟨v0.x, v0.y⟩ ⟨v1.x, v1.y⟩ ⟨(x : ℚ), (y : ℚ)⟩ < 0 ∨
          edge_function ⟨v1.x, v1.y⟩ ⟨v2.x, v2.y⟩ ⟨(x : ℚ), (y : ℚ)⟩ < 0 ∨
          edge_function ⟨v2.x, v2.y⟩ ⟨v0.x, v0.y⟩ ⟨(x : ℚ), (y : ℚ)⟩ < 0)) ∧
    ((∀ x y : Int, in_box_f32 r v0 v1 v2 x y →
        (edge_function_f32 ⟨v0.x, v0.y⟩ ⟨v1.x, v1.y⟩ ⟨(x : ℚ), (y : ℚ)⟩).nonneg = true →
        (edge_function_f32 ⟨v1.x, v1.y⟩ ⟨v2.x, v2.y⟩ ⟨(x : ℚ), (y : ℚ)⟩).nonneg = true →
        (edge_function_f32 ⟨v2.x, v2.y⟩ ⟨v0.x, v0.y⟩ ⟨(x : ℚ), (y : ℚ)⟩).nonneg = true →
        0 ≤ edge_function ⟨v0.x, v0.y⟩ ⟨v1.x, v1.y⟩ ⟨(x : ℚ), (y : ℚ)⟩ ∧
        0 ≤ edge_function ⟨v1.x, v1.y⟩ ⟨v2.x, v2.y⟩ ⟨(x : ℚ), (y : ℚ)⟩ ∧
        0 ≤ edge_function ⟨v2.x, v2.y⟩ ⟨v0.x, v0.y⟩ ⟨(x : ℚ), (y : ℚ)⟩) →
      draw_f32 from_color r 3 offset = some r) := by
  have hexact : ∀ x y : Int,
      edge_function ⟨v0.x, v0.y⟩ ⟨v1.x, v1.y⟩ ⟨(x : ℚ), (y : ℚ)⟩ < 0 ∨
      edge_function ⟨v1.x, v1.y⟩ ⟨v2.x, v2.y⟩ ⟨(x : ℚ), (y : ℚ)⟩ < 0 ∨
      edge_function ⟨v2.x, v2.y⟩ ⟨v0.x, v0.y⟩ ⟨(x : ℚ), (y : ℚ)⟩ < 0 := by
    intro x y
    have hs := edge_sum ⟨v0.x, v0.y⟩ ⟨v1.x, v1.y⟩ ⟨v2.x, v2.y⟩ ⟨(x : ℚ), (y : ℚ)⟩
    by_contra hcon
    push_neg at hcon
    linarith [hcon.1, hcon.2.1, hcon.2.2]
  constructor
  · intro hf
    obtain ⟨r1, hr1, -, hc, hd⟩ := draw_triangle_f32_spec from_color v0 v1 v2 r hf hw hh hW hH
    refine ⟨r1, by rw [draw_three_f32 hvb h0 h1 h2 hs0 hs1 hs2 hoff, hr1], ?_⟩
    intro x y hne
    by_cases hcond : in_box_f32 r v0 v1 v2 x y ∧ hit_f32 r v0 v1 v2 x y = true
    · obtain ⟨hbox, hhit⟩ := hcond
      have hcov : covered_f32 v0 v1 v2 x y = true := by
        unfold hit_f32 at hhit
        simp only [Bool.and_eq_true] at hhit
        exact hhit.1
      exact ⟨hbox, (covered_f32_iff_of_in_box hw hh hW hH hbox).mp hcov, hexact x y⟩
    · exfalso
      rw [hc, hd, if_neg hcond, if_neg hcond] at hne
      rcases hne with h | h <;> exact h rfl
  · intro hagree
    rw [draw_three_f32 hvb h0 h1 h2 hs0 hs1 hs2 hoff]
    apply draw_triangle_f32_skip hw hh hW hH
    intro x y hbox
    cases hcov : covered_f32 v0 v1 v2 x y with
    | false => simp [pixel_f32, hcov]
    | true =>
      exfalso
      obtain ⟨c0, c1, c2⟩ := (covered_f32_iff_of_in_box hw hh hW hH hbox).mp hcov
      obtain ⟨p0, p1, p2⟩ := hagree x y hbox c0 c1 c2
      rcases hexact x y with h | h | h <;> linarith

/-- Witness for C2 (as amended): the sample triangle with its last two vertices
exchanged, whose edge values are computed without rounding. -/
theorem draw_opposite_winding_binary32_witness :
    edge_function ⟨0, 0⟩ ⟨3, 0⟩ ⟨0, 3⟩ < 0 ∧
    draw_f32 id { sample_rasterizer with vertex_buffer := some sample_vertices_reversed } 3 0 =
      some { sample_rasterizer with vertex_buffer := some sample_vertices_reversed } :=
  ⟨by norm_num [edge_function],
   (draw_opposite_winding_binary32 id
    { sample_rasterizer with vertex_buffer := some sample_vertices_reversed } 0
    sample_vertices_reversed
    ⟨-1, 1, 0, ()⟩ ⟨1 / 2, 1, 0, ()⟩ ⟨-1, -1 / 2, 0, ()⟩
    ⟨0, 0, 0, ()⟩ ⟨3, 0, 0, ()⟩ ⟨0, 3, 0, ()⟩
    rfl rfl rfl rfl (by decide!) (by decide!) (by decide!)
    (by norm_num) (by decide) (by decide) (by decide) (by decide)
    (by norm_num [edge_function])).2 (by
      intro x y hbox
      obtain ⟨hx0, hx, hy0, hy⟩ := in_box_f32_range (by decide) (by decide) (by decide)
        (by decide) hbox
      have hx4 : x < 4 := hx
      have hy4 : y < 4 := hy
      interval_cases x <;> interval_cases y <;> decide!)⟩

/-- Counterexample to C2 as stated.  In the 4 x 4 sample viewport the three
binary32 vertices of `sample_vertices_sliver` map to `(1 / 4, 1 / 4)`,
`(11 / 4, 11 / 4)`, `(1 / 2, 1 / 2 + 2 ^ (-23))`, of signed area `-5 / 2 ^ 24`, exactly
and as computed.  At pixel `(0, 0)` the computed edge values are `0`, `0` and
`2 ^ (-25)` (the exact ones are `0`, `-11 / 2 ^ 25` and `2 ^ (-25)`), so the pixel
passes the coverage test and `draw(3, 0)` overwrites it, which held `0`, with
the colour `7`. -/
theorem draw_sliver_written :
    sample_rasterizer.to_screen_f32 ⟨-7 / 8, 7 / 8, 0, ()⟩ = some ⟨1 / 4, 1 / 4, 0, ()⟩ ∧
    sample_rasterizer.to_screen_f32 ⟨3 / 8, -3 / 8, 0, ()⟩ = some ⟨11 / 4, 11 / 4, 0, ()⟩ ∧
    sample_rasterizer.to_screen_f32 ⟨-3 / 4, 12582911 / 16777216, 0, ()⟩ =
      some ⟨1 / 2, 4194305 / 8388608, 0, ()⟩ ∧
    edge_function ⟨1 / 4, 1 / 4⟩ ⟨11 / 4, 11 / 4⟩ ⟨1 / 2, 4194305 / 8388608⟩ = -5 / 16777216 ∧
    edge_function_f32 ⟨1 / 4, 1 / 4⟩ ⟨11 / 4, 11 / 4⟩ ⟨1 / 2, 4194305 / 8388608⟩ =
      fval.fin (-5 / 16777216) ∧
    edge_function_f32 ⟨1 / 4, 1 / 4⟩ ⟨11 / 4, 11 / 4⟩ ⟨0, 0⟩ = fval.fin 0 ∧
    edge_function_f32 ⟨11 / 4, 11 / 4⟩ ⟨1 / 2, 4194305 / 8388608⟩ ⟨0, 0⟩ = fval.fin 0 ∧
    edge_function_f32 ⟨1 / 2, 4194305 / 8388608⟩ ⟨1 / 4, 1 / 4⟩ ⟨0, 0⟩ =
      fval.fin (1 / 33554432) ∧
    edge_function ⟨11 / 4, 11 / 4⟩ ⟨1 / 2, 4194305 / 8388608⟩ ⟨0, 0⟩ = -11 / 33554432 ∧
    color_at { sample_rasterizer with vertex_buffer := some sample_vertices_sliver } 0 0 =
      some 0 ∧
    ∃ r1, draw_f32 id { sample_rasterizer with vertex_buffer := some sample_vertices_sliver }
        3 0 = some r1 ∧ r1.color_at 0 0 = some 7 := by
  refine ⟨by decide!, by decide!, by decide!, by decide!, by decide!, by decide!, by decide!,
    by decide!, by decide!, by decide!, ?_⟩
  have h : (draw_f32 id { sample_rasterizer with vertex_buffer := some sample_vertices_sliver }
      3 0).bind (fun s => s.color_at 0 0) = some 7 := by decide!
  obtain ⟨r1, h1, h2⟩ := Option.bind_eq_some.mp h
  exact ⟨r1, h1, h2⟩

end rasterizer

/-! ## Zero and NaN in binary32 -/

theorem fval.of_rat_zero : fval.of_rat 0 = fval.fin 0 := by
  norm_num [fval.of_rat, round32]

theorem fval.sub_self_fin (a : ℚ) : (fval.fin a).sub (fval.fin a) = fval.fin 0 := by
  simp [fval.sub, fval.neg, fval.add, fval.of_rat_zero]

theorem fval.zero_mul_zn (t : fval) :
    (fval.fin 0).mul t = fval.fin 0 ∨ (fval.fin 0).mul t = fval.nan := by
  cases t <;> simp [fval.mul, fval.of_rat_zero]

theorem fval.zn_mul_fin {a : fval} (ha : a = fval.fin 0 ∨ a = fval.nan) (q : ℚ) :
    a.mul (fval.fin q) = fval.fin 0 ∨ a.mul (fval.fin q) = fval.nan := by
  rcases ha with rfl | rfl <;> simp [fval.mul, fval.of_rat_zero]

theorem fval.zn_neg {a : fval} (ha : a = fval.fin 0 ∨ a = fval.nan) :
    a.neg = fval.fin 0 ∨ a.neg = fval.nan := by
  rcases ha with rfl | rfl <;> simp [fval.neg]

theorem fval.zn_sub {a b : fval} (ha : a = fval.fin 0 ∨ a = fval.nan)
    (hb : b = fval.fin 0 ∨ b = fval.nan) :
    a.sub b = fval.fin 0 ∨ a.sub b = fval.nan := by
  rcases ha with rfl | rfl <;> rcases hb with rfl | rfl <;>
    simp [fval.sub, fval.neg, fval.add, fval.of_rat_zero]

theorem fval.zn_div_zero {a : fval} (ha : a = fval.fin 0 ∨ a = fval.nan) :
    a.div (fval.fin 0) = fval.nan := by
  rcases ha with rfl | rfl <;> simp [fval.div]

namespace rasterizer
variable {A RT Color : Type}

/-- Three vertices at one screen position: the plane coefficients and the
dividend compute to zero (or NaN), and the depth is NaN at every point. -/
theorem plane_depth_f32_coincident {v0 v1 v2 : vertex A} (h1x : v1.x = v0.x)
    (h1y : v1.y = v0.y) (h2x : v2.x = v0.x) (h2y : v2.y = v0.y) (x y : ℚ) :
    plane_depth_f32 v0 v1 v2 x y = fval.nan := by
  unfold plane_depth_f32 get_equation_plane_f32
  simp only [h1x, h1y, h2x, h2y, fval.sub_self_fin]
  have ha := fval.zn_sub (fval.zero_mul_zn ((fval.fin v2.z).sub (fval.fin v0.z)))
    (fval.zero_mul_zn ((fval.fin v1.z).sub (fval.fin v0.z)))
  have hb := fval.zn_sub (fval.zero_mul_zn ((fval.fin v1.z).sub (fval.fin v0.z)))
    (fval.zero_mul_zn ((fval.fin v2.z).sub (fval.fin v0.z)))
  have hc : ((fval.fin 0).mul (fval.fin 0)).sub ((fval.fin 0).mul (fval.fin 0)) = fval.fin 0 := by
    simp [fval.mul, fval.of_rat_zero, fval.sub_self_fin]
  rw [hc]
  have hd := fval.zn_sub (fval.zn_sub (fval.zn_mul_fin (fval.zn_neg ha) v0.x)
    (fval.zn_mul_fin hb v0.y)) (fval.zero_mul_zn (fval.fin v0.z))
  exact fval.zn_div_zero (fval.zn_sub (fval.zn_sub (fval.zn_mul_fin (fval.zn_neg ha) x)
    (fval.zn_mul_fin hb y)) hd)

/-- C3 (as amended).  Degenerate triangles, as the source computes them in
binary32.  `draw` has no guard for a zero signed area and a `float` division by
zero does not fault: it gives NaN or an infinity.  With a depth buffer bound and
destination buffers that fit a viewport of at least 1 x 1 and at most
`2 ^ 24` x `2 ^ 24`, `draw(3, offset)` returns with the state it was called in
when the depth it computes is NaN at every pixel of the box that passes the
coverage test, a NaN failing the strict depth test; and that is so for three
vertices at one screen position, whose plane coefficients and dividend compute
to zero, whatever their depths. -/
theorem draw_degenerate_binary32 (from_color : Color → RT) (r : rasterizer A RT Color)
    (offset : Nat) (vb : resource (vertex A)) (d : resource fval)
    (i0 i1 i2 v0 v1 v2 : vertex A)
    (hvb : r.vertex_buffer = some vb)
    (h0 : vb.item_linear offset = some i0) (h1 : vb.item_linear (offset + 1) = some i1)
    (h2 : vb.item_linear (offset + 2) = some i2)
    (hs0 : r.to_screen_f32 i0 = some v0) (hs1 : r.to_screen_f32 i1 = some v1)
    (hs2 : r.to_screen_f32 i2 = some v2) (hoff : offset + 3 < 2 ^ 64)
    (hdb : r.depth_buffer = some d) (hf : fits r) (hw : 1 ≤ r.width) (hh : 1 ≤ r.height)
    (hW : r.width ≤ 2 ^ 24) (hH : r.height ≤ 2 ^ 24) :
    ((∀ x y : Int, in_box_f32 r v0 v1 v2 x y → covered_f32 v0 v1 v2 x y = true →
        pixel_depth_f32 v0 v1 v2 x y = fval.nan) →
      draw_f32 from_color r 3 offset = some r) ∧
    (v1.x = v0.x ∧ v1.y = v0.y ∧ v2.x = v0.x ∧ v2.y = v0.y →
      (∀ x y : Int, pixel_depth_f32 v0 v1 v2 x y = fval.nan) ∧
      draw_f32 from_color r 3 offset = some r) := by
  have key : (∀ x y : Int, in_box_f32 r v0 v1 v2 x y → covered_f32 v0 v1 v2 x y = true →
        pixel_depth_f32 v0 v1 v2 x y = fval.nan) →
      draw_f32 from_color r 3 offset = some r := by
    intro hnan
    rw [draw_three_f32 hvb h0 h1 h2 hs0 hs1 hs2 hoff]
    apply draw_triangle_f32_skip hw hh hW hH
    intro x y hbox
    obtain ⟨hx0, hx, hy0, hy⟩ := in_box_f32_range hw hh hW hH hbox
    cases hc : covered_f32 v0 v1 v2 x y with
    | false => simp [pixel_f32, hc]
    | true =>
      obtain ⟨hd2, hdw, hdh⟩ := hf.2 d hdb
      obtain ⟨s, hs⟩ := resource.item_at_isSome hd2 hx0 (by omega : x < d.width) hy0
        (by omega : y < d.height)
      simp [pixel_f32, hc, hnan x y hbox hc, write_pixel, depth_test, hdb, hs, gt_nan]
  refine ⟨key, ?_⟩
  rintro ⟨h1x, h1y, h2x, h2y⟩
  have hall : ∀ x y : Int, pixel_depth_f32 v0 v1 v2 x y = fval.nan := fun x y =>
    plane_depth_f32_coincident h1x h1y h2x h2y _ _
  exact ⟨hall, key fun x y _ _ => hall x y⟩

theorem sample_coincident_depth_fits :
    fits { sample_rasterizer with
      vertex_buffer := some sample_vertices_coincident,
      depth_buffer := some sample_depth } :=
  ⟨⟨sample_target, rfl, by simp [resource.is_2d, sample_target],
      by simp [sample_rasterizer, sample_target],
      by simp [sample_rasterizer, sample_target]⟩,
    fun d hd => by
      simp only [Option.some.injEq] at hd
      subst hd
      simp [resource.is_2d, sample_depth, sample_rasterizer]⟩

/-- Witness for C3 (as amended): three coincident vertices drawn with the
`+infinity` depth buffer bound. -/
theorem draw_degenerate_binary32_witness :
    (∀ x y : Int, pixel_depth_f32 (⟨0, 0, 0, ()⟩ : vertex Unit) ⟨0, 0, 0, ()⟩ ⟨0, 0, 0, ()⟩
      x y = fval.nan) ∧
    draw_f32 id { sample_rasterizer with
        vertex_buffer := some sample_vertices_coincident,
        depth_buffer := some sample_depth } 3 0 =
      some { sample_rasterizer with
        vertex_buffer := some sample_vertices_coincident,
        depth_buffer := some sample_depth } :=
  (draw_degenerate_binary32 id { sample_rasterizer with
        vertex_buffer := some sample_vertices_coincident,
        depth_buffer := some sample_depth } 0 sample_vertices_coincident sample_depth
    ⟨-1, 1, 0, ()⟩ ⟨-1, 1, 0, ()⟩ ⟨-1, 1, 0, ()⟩
    ⟨0, 0, 0, ()⟩ ⟨0, 0, 0, ()⟩ ⟨0, 0, 0, ()⟩
    rfl rfl rfl rfl (by decide!) (by decide!) (by decide!)
    (by norm_num) rfl sample_coincident_depth_fits
    (by decide) (by decide) (by decide) (by decide)).2 ⟨rfl, rfl, rfl, rfl⟩

/-- Counterexample to C3 as stated.  With no depth buffer bound, three
coincident vertices at the screen point `(0, 0)` have signed area zero; the
divisor `plane.z` computes to `0`, the depth at pixel `(0, 0)` is the quotient
`0 / 0`, and `draw` overwrites the pixel, which held `0`, with the colour `7`.
With a depth buffer cleared to `+infinity` bound, the three collinear vertices
of `sample_vertices_collinear` (screen points `(0, 6)`, `(3 / 4, 45 / 8)`, `(2, 5)`)
have signed area zero and `plane.z` computes to `0`; at pixel `(2, 5)` the
dividend computes to a negative value, the depth is `-infinity`, which passes
the depth test, and `draw` writes the colour `7` and the depth `-infinity`
there. -/
theorem draw_degenerate_written :
    edge_function ⟨0, 0⟩ ⟨0, 0⟩ ⟨0, 0⟩ = 0 ∧
    (get_equation_plane_f32 0 0 0 0 0 0 0 0 0).z = fval.fin 0 ∧
    pixel_depth_f32 (⟨0, 0, 0, ()⟩ : vertex Unit) ⟨0, 0, 0, ()⟩ ⟨0, 0, 0, ()⟩ 0 0 = fval.nan ∧
    color_at { sample_rasterizer with vertex_buffer := some sample_vertices_coincident }
      0 0 = some 0 ∧
    (∃ r1, draw_f32 id { sample_rasterizer with
        vertex_buffer := some sample_vertices_coincident } 3 0 = some r1 ∧
      r1.color_at 0 0 = some 7) ∧
    sample_collinear_rasterizer.to_screen_f32 ⟨-1, -1 / 2, 13421773 / 67108864, ()⟩ =
      some ⟨0, 6, 13421773 / 67108864, ()⟩ ∧
    sample_collinear_rasterizer.to_screen_f32 ⟨-13 / 16, -13 / 32, 13421773 / 134217728, ()⟩ =
      some ⟨3 / 4, 45 / 8, 13421773 / 134217728, ()⟩ ∧
    sample_collinear_rasterizer.to_screen_f32 ⟨-1 / 2, -1 / 4, 5033165 / 16777216, ()⟩ =
      some ⟨2, 5, 5033165 / 16777216, ()⟩ ∧
    edge_function ⟨0, 6⟩ ⟨3 / 4, 45 / 8⟩ ⟨2, 5⟩ = 0 ∧
    (get_equation_plane_f32 0 6 (13421773 / 67108864) (3 / 4) (45 / 8) (13421773 / 134217728)
      2 5 (5033165 / 16777216)).z = fval.fin 0 ∧
    pixel_depth_f32 (⟨0, 6, 13421773 / 67108864, ()⟩ : vertex Unit)
      ⟨3 / 4, 45 / 8, 13421773 / 134217728, ()⟩ ⟨2, 5, 5033165 / 16777216, ()⟩ 2 5 =
      fval.ninf ∧
    sample_collinear_rasterizer.color_at 2 5 = some 0 ∧
    sample_collinear_rasterizer.depth_at 2 5 = some fval.pinf ∧
    (∃ r1, draw_f32 id sample_collinear_rasterizer 3 0 = some r1 ∧
      r1.color_at 2 5 = some 7 ∧ r1.depth_at 2 5 = some fval.ninf) := by
  refine ⟨by decide!, by decide!, by decide!, by decide!, ?_, by decide!, by decide!,
    by decide!, by decide!, by decide!, by decide!, by decide!, by decide!, ?_⟩
  · have h : (draw_f32 id { sample_rasterizer with
        vertex_buffer := some sample_vertices_coincident } 3 0).bind
        (fun s => s.color_at 0 0) = some 7 := by decide!
    obtain ⟨r1, h1, h2⟩ := Option.bind_eq_some.mp h
    exact ⟨r1, h1, h2⟩
  · have h : (draw_f32 id sample_collinear_rasterizer 3 0).bind
        (fun s => (s.color_at 2 5).bind fun c => (s.depth_at 2 5).map fun z => (c, z)) =
        some (7, fval.ninf) := by decide!
    obtain ⟨r1, h1, h2⟩ := Option.bind_eq_some.mp h
    obtain ⟨c, hc, h3⟩ := Option.bind_eq_some.mp h2
    obtain ⟨z, hz, h4⟩ := Option.map_eq_some'.mp h3
    simp only [Prod.mk.injEq] at h4
    exact ⟨r1, h1, by rw [hc, h4.1], by rw [hz, h4.2]⟩

/-- The effect of the binary32 scan of one triangle on a pixel of the box that
passes the computed coverage test. -/
theorem draw_triangle_f32_at (from_color : Color → RT) {v0 v1 v2 : vertex A}
    {r : rasterizer A RT Color} (hf : fits r) (hw : 1 ≤ r.width) (hh : 1 ≤ r.height)
    (hW : r.width ≤ 2 ^ 24) (hH : r.height ≤ 2 ^ 24) {x y : Int}
    (hbox : in_box_f32 r v0 v1 v2 x y) (hc : covered_f32 v0 v1 v2 x y = true) :
    ∃ r1, draw_triangle_f32 from_color v0 v1 v2 r = some r1 ∧ frame r r1 ∧
      r1.color_at x y =
        (if r.depth_test (pixel_depth_f32 v0 v1 v2 x y) x y = some true
         then some (from_color (r.pixel_shader v0 0)) else r.color_at x y) ∧
      r1.depth_at x y =
        (if r.depth_test (pixel_depth_f32 v0 v1 v2 x y) x y = some true
         then (r.depth_at x y).map (fun _ => pixel_depth_f32 v0 v1 v2 x y)
         else r.depth_at x y) := by
  obtain ⟨r1, h1, h2, h3, h4⟩ := draw_triangle_f32_spec from_color v0 v1 v2 r hf hw hh hW hH
  refine ⟨r1, h1, h2, ?_, ?_⟩
  · rw [h3]
    simp [hbox, hit_f32, hc]
  · rw [h4]
    simp [hbox, hit_f32, hc]

/-- Two triangles drawn one after the other in binary32, seen at a pixel of
both boxes that passes both coverage tests: the first with computed depth `za`
there, the second with computed depth `zb`. -/
theorem draw_two_f32_at (from_color : Color → RT) {a0 a1 a2 b0 b1 b2 : vertex A}
    {r : rasterizer A RT Color} (hf : fits r) (hw : 1 ≤ r.width) (hh : 1 ≤ r.height)
    (hW : r.width ≤ 2 ^ 24) (hH : r.height ≤ 2 ^ 24)
    (hb : r.depth_buffer.isSome = true) {x y : Int}
    (hba : in_box_f32 r a0 a1 a2 x y) (hbb : in_box_f32 r b0 b1 b2 x y)
    (hca : covered_f32 a0 a1 a2 x y = true) (hcb : covered_f32 b0 b1 b2 x y = true)
    {za zb : ℚ} (hza : pixel_depth_f32 a0 a1 a2 x y = fval.fin za)
    (hzb : pixel_depth_f32 b0 b1 b2 x y = fval.fin zb)
    {D : fval} (hD : r.depth_at x y = some D) (hDa : D.gt (fval.fin za) = true) :
    ∃ r1 r2, draw_triangle_f32 from_color a0 a1 a2 r = some r1 ∧ frame r r1 ∧
      draw_triangle_f32 from_color b0 b1 b2 r1 = some r2 ∧
      r2.color_at x y = (if zb < za then some (from_color (r.pixel_shader b0 0))
        else some (from_color (r.pixel_shader a0 0))) ∧
      r2.depth_at x y = some (fval.fin (if zb < za then zb else za)) := by
  obtain ⟨r1, h1, hfr1, hc1, hd1⟩ := draw_triangle_f32_at from_color hf hw hh hW hH hba hca
  rw [hza, depth_test_of_depth_at hb hD, hDa] at hc1 hd1
  simp only [if_true, hD, Option.map_some'] at hc1 hd1
  have hf1 := fits_of_frame hfr1 hf
  have hb1 : r1.depth_buffer.isSome = true := by rw [depth_bound_frame hfr1, hb]
  obtain ⟨r2, h2, -, hc2, hd2⟩ := draw_triangle_f32_at from_color hf1
    (by rw [hfr1.2.1]; exact hw) (by rw [hfr1.2.2.1]; exact hh)
    (by rw [hfr1.2.1]; exact hW) (by rw [hfr1.2.2.1]; exact hH)
    ((in_box_f32_frame hfr1 b0 b1 b2 x y).mpr hbb) hcb
  rw [hzb, depth_test_of_depth_at hb1 hd1] at hc2 hd2
  rw [hfr1.2.2.2.2.1] at hc2
  refine ⟨r1, r2, h1, hfr1, h2, ?_, ?_⟩
  · rw [hc2, hc1]
    by_cases hlt : zb < za <;> simp [fval.gt, hlt]
  · rw [hd2, hd1]
    by_cases hlt : zb < za <;> simp [fval.gt, hlt]

/-- C4 (as amended).  The triangle of smaller computed depth wins in either
order.  With a depth buffer bound, destination buffers that fit a viewport of
at least 1 x 1 and at most `2 ^ 24` x `2 ^ 24`, two triangles and a pixel of
both boxes that passes both binary32 coverage tests, where the depths the
source computes in binary32 are `zn < zf` and the depth element holds a value
greater than both: drawing near then far, and drawing far then near, both end
with the near triangle's colour in the render target and `zn` in the depth
buffer at that pixel. -/
theorem draw_nearer_wins_binary32 (from_color : Color → RT) (r : rasterizer A RT Color)
    (o_near o_far : Nat) (vb : resource (vertex A))
    (i0 i1 i2 j0 j1 j2 n0 n1 n2 f0 f1 f2 : vertex A) (zn zf : ℚ) (D : fval) (x y : Int)
    (hvb : r.vertex_buffer = some vb)
    (hi0 : vb.item_linear o_near = some i0) (hi1 : vb.item_linear (o_near + 1) = some i1)
    (hi2 : vb.item_linear (o_near + 2) = some i2)
    (hj0 : vb.item_linear o_far = some j0) (hj1 : vb.item_linear (o_far + 1) = some j1)
    (hj2 : vb.item_linear (o_far + 2) = some j2)
    (hn0 : r.to_screen_f32 i0 = some n0) (hn1 : r.to_screen_f32 i1 = some n1)
    (hn2 : r.to_screen_f32 i2 = some n2)
    (hf0 : r.to_screen_f32 j0 = some f0) (hf1 : r.to_screen_f32 j1 = some f1)
    (hf2 : r.to_screen_f32 j2 = some f2)
    (hon : o_near + 3 < 2 ^ 64) (hof : o_far + 3 < 2 ^ 64)
    (hb : r.depth_buffer.isSome = true) (hf : fits r) (hw : 1 ≤ r.width) (hh : 1 ≤ r.height)
    (hW : r.width ≤ 2 ^ 24) (hH : r.height ≤ 2 ^ 24)
    (hbn : in_box_f32 r n0 n1 n2 x y) (hbf : in_box_f32 r f0 f1 f2 x y)
    (hcn : covered_f32 n0 n1 n2 x y = true) (hcf : covered_f32 f0 f1 f2 x y = true)
    (hzn : pixel_depth_f32 n0 n1 n2 x y = fval.fin zn)
    (hzf : pixel_depth_f32 f0 f1 f2 x y = fval.fin zf) (hlt : zn < zf)
    (hD : r.depth_at x y = some D) (hDf : D.gt (fval.fin zf) = true) :
    (∃ r2, (draw_f32 from_color r 3 o_near).bind (fun r1 => draw_f32 from_color r1 3 o_far) =
        some r2 ∧
      r2.color_at x y = some (from_color (r.pixel_shader n0 0)) ∧
      r2.depth_at x y = some (fval.fin zn)) ∧
    (∃ r2, (draw_f32 from_color r 3 o_far).bind (fun r1 => draw_f32 from_color r1 3 o_near) =
        some r2 ∧
      r2.color_at x y = some (from_color (r.pixel_shader n0 0)) ∧
      r2.depth_at x y = some (fval.fin zn)) := by
  have hDn := gt_fin_trans hDf hlt
  have hnot : ¬ zf < zn := not_lt.mpr (le_of_lt hlt)
  constructor
  · obtain ⟨r1, r2, h1, hfr, h2, hc, hd⟩ := draw_two_f32_at from_color hf hw hh hW hH hb
      hbn hbf hcn hcf hzn hzf hD hDn
    refine ⟨r2, ?_, by simpa [hnot] using hc, by simpa [hnot] using hd⟩
    rw [draw_three_f32 hvb hi0 hi1 hi2 hn0 hn1 hn2 hon, h1, Option.some_bind]
    rw [draw_three_f32 (hfr.1.trans hvb) hj0 hj1 hj2 ((to_screen_f32_frame hfr j0).trans hf0)
      ((to_screen_f32_frame hfr j1).trans hf1) ((to_screen_f32_frame hfr j2).trans hf2) hof, h2]
  · obtain ⟨r1, r2, h1, hfr, h2, hc, hd⟩ := draw_two_f32_at from_color hf hw hh hW hH hb
      hbf hbn hcf hcn hzf hzn hD hDf
    refine ⟨r2, ?_, by simpa [hlt] using hc, by simpa [hlt] using hd⟩
    rw [draw_three_f32 hvb hj0 hj1 hj2 hf0 hf1 hf2 hof, h1, Option.some_bind]
    rw [draw_three_f32 (hfr.1.trans hvb) hi0 hi1 hi2 ((to_screen_f32_frame hfr i0).trans hn0)
      ((to_screen_f32_frame hfr i1).trans hn1) ((to_screen_f32_frame hfr i2).trans hn2) hon, h2]

/-- Witness for C4 (as amended): the two sample triangles at depths `0.2` and
`0.8`, which the source rounds to `13421773 / 2 ^ 26` and `13421773 / 2 ^ 24` and
computes back to these values at pixel `(1, 1)`, in a depth buffer cleared to
`+infinity`. -/
theorem draw_nearer_wins_binary32_witness :
    (∃ r2, (draw_f32 id sample_depth_rasterizer 3 0).bind (fun r1 => draw_f32 id r1 3 3) =
        some r2 ∧
      r2.color_at 1 1 = some 1 ∧ r2.depth_at 1 1 = some (fval.fin (13421773 / 67108864))) ∧
    (∃ r2, (draw_f32 id sample_depth_rasterizer 3 3).bind (fun r1 => draw_f32 id r1 3 0) =
        some r2 ∧
      r2.color_at 1 1 = some 1 ∧ r2.depth_at 1 1 = some (fval.fin (13421773 / 67108864))) :=
  draw_nearer_wins_binary32 id sample_depth_rasterizer 0 3 sample_two_triangles
    ⟨-1, 1, 1 / 5, 1⟩ ⟨-1, -1 / 2, 1 / 5, 1⟩ ⟨1 / 2, 1, 1 / 5, 1⟩
    ⟨-1, 1, 4 / 5, 2⟩ ⟨-1, -1 / 2, 4 / 5, 2⟩ ⟨1 / 2, 1, 4 / 5, 2⟩
    ⟨0, 0, 13421773 / 67108864, 1⟩ ⟨0, 3, 13421773 / 67108864, 1⟩ ⟨3, 0, 13421773 / 67108864, 1⟩
    ⟨0, 0, 13421773 / 16777216, 2⟩ ⟨0, 3, 13421773 / 16777216, 2⟩ ⟨3, 0, 13421773 / 16777216, 2⟩
    (13421773 / 67108864) (13421773 / 16777216) fval.pinf 1 1
    rfl rfl rfl rfl rfl rfl rfl
    (by decide!) (by decide!) (by decide!) (by decide!) (by decide!) (by decide!)
    (by norm_num) (by norm_num) rfl sample_depth_fits (by decide) (by decide)
    (by decide) (by decide) (by decide!) (by decide!) (by decide!) (by decide!)
    (by decide!) (by decide!) (by norm_num) (by decide!) rfl

/-- Counterexample to C4 as stated.  In an 8 x 8 viewport with a depth buffer
cleared to `+infinity`, the triangle over `(0, 0)`, `(0, 5)`, `(1, 0)` has the
constant depth `z_near = 4080219 / 2 ^ 33` and colour `1`, the triangle over
`(0, 0)`, `(0, 3)`, `(3, 0)` has the constant depth `z_far = 16320877 / 2 ^ 35`, the
next binary32 value above `z_near`, and colour `2`; both are correctly wound
and cover pixel `(0, 0)`.  The source computes the depth of the near triangle
there as `z_far` and the depth of the far triangle as `z_near`, and both orders
of drawing end with the far triangle's colour `2` in the render target and
`z_near` in the depth buffer. -/
theorem draw_adjacent_depths_swap :
    (4080219 / 8589934592 : ℚ) < 16320877 / 34359738368 ∧
    0 < edge_function ⟨0, 0⟩ ⟨0, 5⟩ ⟨1, 0⟩ ∧ 0 < edge_function ⟨0, 0⟩ ⟨0, 3⟩ ⟨3, 0⟩ ∧
    sample_adjacent_rasterizer.to_screen_f32 ⟨-1, 1, 4080219 / 8589934592, 1⟩ =
      some ⟨0, 0, 4080219 / 8589934592, 1⟩ ∧
    sample_adjacent_rasterizer.to_screen_f32 ⟨-1, -1 / 4, 4080219 / 8589934592, 1⟩ =
      some ⟨0, 5, 4080219 / 8589934592, 1⟩ ∧
    sample_adjacent_rasterizer.to_screen_f32 ⟨-3 / 4, 1, 4080219 / 8589934592, 1⟩ =
      some ⟨1, 0, 4080219 / 8589934592, 1⟩ ∧
    sample_adjacent_rasterizer.to_screen_f32 ⟨-1, 1, 16320877 / 34359738368, 2⟩ =
      some ⟨0, 0, 16320877 / 34359738368, 2⟩ ∧
    sample_adjacent_rasterizer.to_screen_f32 ⟨-1, 1 / 4, 16320877 / 34359738368, 2⟩ =
      some ⟨0, 3, 16320877 / 34359738368, 2⟩ ∧
    sample_adjacent_rasterizer.to_screen_f32 ⟨-1 / 4, 1, 16320877 / 34359738368, 2⟩ =
      some ⟨3, 0, 16320877 / 34359738368, 2⟩ ∧
    covered_f32 (⟨0, 0, 4080219 / 8589934592, 1⟩ : vertex Nat) ⟨0, 5, 4080219 / 8589934592, 1⟩
      ⟨1, 0, 4080219 / 8589934592, 1⟩ 0 0 = true ∧
    covered_f32 (⟨0, 0, 16320877 / 34359738368, 2⟩ : vertex Nat)
      ⟨0, 3, 16320877 / 34359738368, 2⟩ ⟨3, 0, 16320877 / 34359738368, 2⟩ 0 0 = true ∧
    pixel_depth_f32 (⟨0, 0, 4080219 / 8589934592, 1⟩ : vertex Nat)
      ⟨0, 5, 4080219 / 8589934592, 1⟩ ⟨1, 0, 4080219 / 8589934592, 1⟩ 0 0 =
      fval.fin (16320877 / 34359738368) ∧
    pixel_depth_f32 (⟨0, 0, 16320877 / 34359738368, 2⟩ : vertex Nat)
      ⟨0, 3, 16320877 / 34359738368, 2⟩ ⟨3, 0, 16320877 / 34359738368, 2⟩ 0 0 =
      fval.fin (4080219 / 8589934592) ∧
    sample_adjacent_rasterizer.depth_at 0 0 = some fval.pinf ∧
    (∃ r2, (draw_f32 id sample_adjacent_rasterizer 3 0).bind (fun r1 => draw_f32 id r1 3 3) =
        some r2 ∧
      r2.color_at 0 0 = some 2 ∧ r2.depth_at 0 0 = some (fval.fin (4080219 / 8589934592))) ∧
    (∃ r2, (draw_f32 id sample_adjacent_rasterizer 3 3).bind (fun r1 => draw_f32 id r1 3 0) =
        some r2 ∧
      r2.color_at 0 0 = some 2 ∧ r2.depth_at 0 0 = some (fval.fin (4080219 / 8589934592))) := by
  refine ⟨by decide!, by decide!, by decide!, by decide!, by decide!, by decide!, by decide!,
    by decide!, by decide!, by decide!, by decide!, by decide!, by decide!, by decide!,
    ?_, ?_⟩
  · have h : ((draw_f32 id sample_adjacent_rasterizer 3 0).bind
        (fun r1 => draw_f32 id r1 3 3)).bind
        (fun s => (s.color_at 0 0).bind fun c => (s.depth_at 0 0).map fun z => (c, z)) =
        some (2, fval.fin (4080219 / 8589934592)) := by decide!
    obtain ⟨r2, h1, h2⟩ := Option.bind_eq_some.mp h
    obtain ⟨c, hc, h3⟩ := Option.bind_eq_some.mp h2
    obtain ⟨z, hz, h4⟩ := Option.map_eq_some'.mp h3
    simp only [Prod.mk.injEq] at h4
    exact ⟨r2, h1, by rw [hc, h4.1], by rw [hz, h4.2]⟩
  · have h : ((draw_f32 id sample_adjacent_rasterizer 3 3).bind
        (fun r1 => draw_f32 id r1 3 0)).bind
        (fun s => (s.color_at 0 0).bind fun c => (s.depth_at 0 0).map fun z => (c, z)) =
        some (2, fval.fin (4080219 / 8589934592)) := by decide!
    obtain ⟨r2, h1, h2⟩ := Option.bind_eq_some.mp h
    obtain ⟨c, hc, h3⟩ := Option.bind_eq_some.mp h2
    obtain ⟨z, hz, h4⟩ := Option.map_eq_some'.mp h3
    simp only [Prod.mk.injEq] at h4
    exact ⟨r2, h1, by rw [hc, h4.1], by rw [hz, h4.2]⟩

end rasterizer

/-! ## Viewport dimensions in binary32 -/

/-- A natural number up to `2 ^ 24`, its double and its half are binary32
values. -/
theorem fval.of_rat_natCast_mul (n : Nat) (hn : n ≤ 2 ^ 24) (k : Int) (hk1 : -1 ≤ k)
    (hk2 : k ≤ 1) : fval.of_rat ((n : ℚ) * 2 ^ k) = fval.fin ((n : ℚ) * 2 ^ k) := by
  have hround : round32 ((n : ℚ) * 2 ^ k) = (n : ℚ) * 2 ^ k := by
    rcases Nat.lt_or_ge n (2 ^ 24) with h | h
    · have := round32_dyadic (n : Int) k
        (by rw [abs_of_nonneg (by positivity)]; exact_mod_cast h) (by omega)
      simpa using this
    · have hn2 : n = 2 ^ 24 := le_antisymm hn h
      have := round32_dyadic (2 ^ 23) (k + 1) (by norm_num) (by omega)
      have h2 : (2 : ℚ) ≠ 0 := by norm_num
      have e : (n : ℚ) * 2 ^ k = ((2 ^ 23 : Int) : ℚ) * 2 ^ (k + 1) := by
        rw [hn2, zpow_add₀ h2]
        push_cast
        ring
      rw [e]
      exact this
  have hn' : (n : ℚ) ≤ 2 ^ 24 := by exact_mod_cast hn
  have hn0 : (0 : ℚ) ≤ (n : ℚ) := by positivity
  have hp : (0 : ℚ) < 2 ^ k := by positivity
  have hk : (2 : ℚ) ^ k ≤ 2 := by
    have := zpow_le_zpow_right₀ (by norm_num : (1 : ℚ) ≤ 2) hk2
    simpa using this
  have hub : (n : ℚ) * 2 ^ k ≤ 2 ^ 24 * 2 := mul_le_mul hn' hk (le_of_lt hp) (by norm_num)
  have hlb : (0 : ℚ) ≤ (n : ℚ) * 2 ^ k := mul_nonneg hn0 (le_of_lt hp)
  unfold fval.of_rat
  rw [hround]
  rw [if_neg (by norm_num at hub ⊢; linarith), if_neg (by norm_num; linarith)]

theorem fval.div_fin_fin {a b : ℚ} (hb : b ≠ 0) :
    (fval.fin a).div (fval.fin b) = fval.of_rat (a / b) := by
  simp [fval.div, hb]

theorem fval.of_rat_natCast (n : Nat) (hn : n ≤ 2 ^ 24) :
    fval.of_rat (n : ℚ) = fval.fin (n : ℚ) := by
  simpa using fval.of_rat_natCast_mul n hn 0 (by norm_num) (by norm_num)

namespace rasterizer
variable {A RT Color : Type}

theorem viewport_axis_aux (n : Nat) (hn : n ≤ 2 ^ 24) (u : ℚ) (hu : u = -1 ∨ u = 0 ∨ u = 1) :
    ((((fval.fin u).add (fval.fin 1)).mul (fval.fin (n : ℚ))).div (fval.fin 2)) =
      fval.fin ((u + 1) * (n : ℚ) / 2) := by
  have hn1 := fval.of_rat_natCast n hn
  have hd := fval.of_rat_natCast_mul n hn 1 (by norm_num) (by norm_num)
  have hh := fval.of_rat_natCast_mul n hn (-1) (by norm_num) (by norm_num)
  have two : (2 : ℚ) ≠ 0 := by norm_num
  rcases hu with rfl | rfl | rfl
  · have s2 : (fval.fin (-1)).add (fval.fin 1) = fval.fin 0 := by decide!
    have s3 : (fval.fin 0).mul (fval.fin (n : ℚ)) = fval.fin 0 := by
      simp [fval.mul, fval.of_rat_zero]
    have s4 : (fval.fin 0).div (fval.fin 2) = fval.fin 0 := by decide!
    rw [s2, s3, s4]
    norm_num
  · have s2 : (fval.fin 0).add (fval.fin 1) = fval.fin 1 := by decide!
    have s3 : (fval.fin 1).mul (fval.fin (n : ℚ)) = fval.fin (n : ℚ) := by
      show fval.of_rat (1 * (n : ℚ)) = _
      rw [one_mul, hn1]
    have s4 : (fval.fin (n : ℚ)).div (fval.fin 2) = fval.fin ((n : ℚ) * 2 ^ (-1 : Int)) := by
      rw [fval.div_fin_fin two, ← hh]
      congr 1
      rw [zpow_neg_one]
      ring
    rw [s2, s3, s4]
    congr 1
    rw [zpow_neg_one]
    ring
  · have s2 : (fval.fin 1).add (fval.fin 1) = fval.fin 2 := by decide!
    have s3 : (fval.fin 2).mul (fval.fin (n : ℚ)) = fval.fin ((n : ℚ) * 2 ^ (1 : Int)) := by
      show fval.of_rat (2 * (n : ℚ)) = _
      rw [← hd]
      congr 1
      rw [zpow_one]
      ring
    have s4 : (fval.fin ((n : ℚ) * 2 ^ (1 : Int))).div (fval.fin 2) = fval.fin (n : ℚ) := by
      rw [fval.div_fin_fin two, ← hn1]
      congr 1
      rw [zpow_one]
      ring
    rw [s2, s3, s4]
    congr 1
    ring

/-- The viewport mapping of one axis at NDC `-1`, `0` and `1`, for a dimension
of at most `2 ^ 24`: no operation rounds. -/
theorem viewport_axis (n : Nat) (hn : n ≤ 2 ^ 24) (t : ℚ) (ht : t = -1 ∨ t = 0 ∨ t = 1) :
    ((((fval.fin t).div (fval.fin 1)).add (fval.fin 1)).mul (fval.of_rat (n : ℚ))).div
      (fval.fin 2) = fval.fin ((t + 1) * (n : ℚ) / 2) ∧
    ((((fval.fin t).div (fval.fin 1)).neg.add (fval.fin 1)).mul (fval.of_rat (n : ℚ))).div
      (fval.fin 2) = fval.fin ((-t + 1) * (n : ℚ) / 2) := by
  rw [fval.of_rat_natCast n hn]
  have hdiv : (fval.fin t).div (fval.fin 1) = fval.fin t := by
    rcases ht with rfl | rfl | rfl <;> decide!
  have hneg : (fval.fin t).neg = fval.fin (-t) := rfl
  rw [hdiv, hneg]
  refine ⟨viewport_axis_aux n hn t ht, viewport_axis_aux n hn (-t) ?_⟩
  rcases ht with rfl | rfl | rfl <;> norm_num

theorem to_screen_f32_corner (r : rasterizer A RT Color)
    (hid : ∀ c u, (r.vertex_shader c u).1 = c)
    (hW : r.width ≤ 2 ^ 24) (hH : r.height ≤ 2 ^ 24) (tx ty : ℚ)
    (hx : tx = -1 ∨ tx = 0 ∨ tx = 1) (hy : ty = -1 ∨ ty = 0 ∨ ty = 1)
    (z : ℚ) (hz : is_binary32 z) (a : A) :
    r.to_screen_f32 ⟨tx, ty, z, a⟩ =
      some ⟨(tx + 1) * (r.width : ℚ) / 2, (-ty + 1) * (r.height : ℚ) / 2, z, a⟩ := by
  have hzd : (fval.fin z).div (fval.fin 1) = fval.fin z := by
    rw [fval.div_fin_fin (by norm_num : (1 : ℚ) ≠ 0), div_one]
    exact hz
  unfold to_screen_f32
  simp only [hid]
  rw [(viewport_axis r.width hW tx hx).1, (viewport_axis r.height hH ty hy).2, hzd]

/-- C9 (as amended).  The bounding-box clamp keeps every access in range, for
viewports up to `2 ^ 24` x `2 ^ 24`.  For a viewport of at least 1 x 1 and at
most `2 ^ 24` x `2 ^ 24` and any three screen-space vertices, the four casts of
the scan are defined, every column `x` and row `y` the scan visits satisfies
`0 ≤ x ≤ width - 1` and `0 ≤ y ≤ height - 1`, and with destination buffers that
fit the viewport the scan completes, no element access being out of range.
The bound of the clamp, `static_cast<float>(width) - 1.f`, is `width - 1` for
these widths. -/
theorem draw_scan_in_range_binary32 (from_color : Color → RT) (r : rasterizer A RT Color)
    (v0 v1 v2 : vertex A) (hw : 1 ≤ r.width) (hh : 1 ≤ r.height)
    (hW : r.width ≤ 2 ^ 24) (hH : r.height ≤ 2 ^ 24) :
    (box_bound r.width = (r.width : ℚ) - 1 ∧ box_bound r.height = (r.height : ℚ) - 1) ∧
    (static_cast_int32 (r.bounding_box_begin_f32 v0 v1 v2).x =
        some (static_cast_int (r.bounding_box_begin_f32 v0 v1 v2).x) ∧
      static_cast_int32 (r.bounding_box_end_f32 v0 v1 v2).x =
        some (static_cast_int (r.bounding_box_end_f32 v0 v1 v2).x) ∧
      static_cast_int32 (r.bounding_box_begin_f32 v0 v1 v2).y =
        some (static_cast_int (r.bounding_box_begin_f32 v0 v1 v2).y) ∧
      static_cast_int32 (r.bounding_box_end_f32 v0 v1 v2).y =
        some (static_cast_int (r.bounding_box_end_f32 v0 v1 v2).y)) ∧
    (∀ x ∈ int_range (static_cast_int (r.bounding_box_begin_f32 v0 v1 v2).x)
        (static_cast_int (r.bounding_box_end_f32 v0 v1 v2).x),
      0 ≤ x ∧ x ≤ (r.width : Int) - 1) ∧
    (∀ y ∈ int_range (static_cast_int (r.bounding_box_begin_f32 v0 v1 v2).y)
        (static_cast_int (r.bounding_box_end_f32 v0 v1 v2).y),
      0 ≤ y ∧ y ≤ (r.height : Int) - 1) ∧
    (fits r → ∃ r1, draw_triangle_f32 from_color v0 v1 v2 r = some r1) := by
  have a1 := static_cast_int_clamp (v := min (min v0.x v1.x) v2.x) hw
  have a2 := static_cast_int_clamp (v := max (max v0.x v1.x) v2.x) hw
  have a3 := static_cast_int_clamp (v := min (min v0.y v1.y) v2.y) hh
  have a4 := static_cast_int_clamp (v := max (max v0.y v1.y) v2.y) hh
  have hW2 : (r.width : Int) ≤ 2 ^ 24 := by exact_mod_cast hW
  have hH2 : (r.height : Int) ≤ 2 ^ 24 := by exact_mod_cast hH
  have eb := bounding_box_begin_f32_eq hw hh hW hH v0 v1 v2
  have ee := bounding_box_end_f32_eq hw hh hW hH v0 v1 v2
  refine ⟨⟨box_bound_eq hw hW, box_bound_eq hh hH⟩, ?_, ?_, ?_, ?_⟩
  · rw [eb, ee]
    unfold bounding_box_begin bounding_box_end
    simp only
    exact ⟨static_cast_int32_of_range a1.1 (by omega),
      static_cast_int32_of_range a2.1 (by omega),
      static_cast_int32_of_range a3.1 (by omega),
      static_cast_int32_of_range a4.1 (by omega)⟩
  · intro x hx
    rw [eb, ee] at hx
    obtain ⟨h1, h2⟩ := mem_int_range.mp hx
    unfold bounding_box_begin at h1
    unfold bounding_box_end at h2
    simp only at h1 h2
    omega
  · intro y hy
    rw [eb, ee] at hy
    obtain ⟨h1, h2⟩ := mem_int_range.mp hy
    unfold bounding_box_begin at h1
    unfold bounding_box_end at h2
    simp only at h1 h2
    omega
  · intro hf
    obtain ⟨r1, h1, -⟩ := draw_triangle_f32_spec from_color v0 v1 v2 r hf hw hh hW hH
    exact ⟨r1, h1⟩

/-- Witness for C9 (as amended): a triangle that reaches far outside the 4 x 4
viewport. -/
theorem draw_scan_in_range_binary32_witness :
    ∃ r1, draw_triangle_f32 id (⟨-10, -10, 0, ()⟩ : vertex Unit) ⟨-10, 30, 0, ()⟩
      ⟨30, -10, 0, ()⟩ sample_rasterizer = some r1 :=
  (draw_scan_in_range_binary32 id sample_rasterizer ⟨-10, -10, 0, ()⟩ ⟨-10, 30, 0, ()⟩
    ⟨30, -10, 0, ()⟩ (by decide) (by decide) (by decide) (by decide)).2.2.2.2 sample_fits

theorem sample_wide_fits : fits sample_wide_rasterizer := by
  refine ⟨⟨⟨List.replicate 16777220 0, 16777220, 1⟩, rfl,
    (List.length_replicate 16777220 0).trans (Nat.mul_one 16777220).symm,
    le_refl _, le_refl _⟩, ?_⟩
  intro d hd
  have hnone : sample_wide_rasterizer.depth_buffer = none := rfl
  rw [hnone] at hd
  cases hd

/-- Counterexample to C9 as stated.  For the viewport width 16777220 the bound
`static_cast<float>(width) - 1.f` is 16777220, the width itself.  The three
vertices of `sample_vertices_wide` map to the screen points `(16777220, 0)`,
`(16777220, 2)`, `(33554440, 0)`; the scan visits the column `x = 16777220`, which
is not `≤ width - 1`, pixel `(16777220, 0)` passes the coverage test, and
`draw(3, 0)` on a render target of that width and height 1 reaches the
out-of-range access. -/
theorem draw_scan_reaches_width :
    box_bound 16777220 = 16777220 ∧
    sample_wide_rasterizer.to_screen_f32 ⟨1, 1, 0, ()⟩ = some ⟨16777220, 0, 0, ()⟩ ∧
    sample_wide_rasterizer.to_screen_f32 ⟨1, -3, 0, ()⟩ = some ⟨16777220, 2, 0, ()⟩ ∧
    sample_wide_rasterizer.to_screen_f32 ⟨3, 1, 0, ()⟩ = some ⟨33554440, 0, 0, ()⟩ ∧
    static_cast_int32 (sample_wide_rasterizer.bounding_box_end_f32 ⟨16777220, 0, 0, ()⟩
      ⟨16777220, 2, 0, ()⟩ ⟨33554440, 0, 0, ()⟩).x = some 16777220 ∧
    (16777220 : Int) ∈ int_range
      (static_cast_int (sample_wide_rasterizer.bounding_box_begin_f32 ⟨16777220, 0, 0, ()⟩
        ⟨16777220, 2, 0, ()⟩ ⟨33554440, 0, 0, ()⟩).x)
      (static_cast_int (sample_wide_rasterizer.bounding_box_end_f32 ⟨16777220, 0, 0, ()⟩
        ⟨16777220, 2, 0, ()⟩ ⟨33554440, 0, 0, ()⟩).x) ∧
    ¬ ((16777220 : Int) ≤ (sample_wide_rasterizer.width : Int) - 1) ∧
    covered_f32 (⟨16777220, 0, 0, ()⟩ : vertex Unit) ⟨16777220, 2, 0, ()⟩
      ⟨33554440, 0, 0, ()⟩ 16777220 0 = true ∧
    fits sample_wide_rasterizer ∧
    (draw_f32 id sample_wide_rasterizer 3 0).isNone = true := by
  refine ⟨by decide!, by decide!, by decide!, by decide!, by decide!, ?_, by decide!,
    by decide!, sample_wide_fits, by decide!⟩
  rw [mem_int_range]
  constructor <;> decide!

/-- C10 (as amended).  Viewport mapping, as the source computes it in binary32.
For a vertex-stage output `(x, y, z, w)` the screen-space vertex is the
vertex-buffer copy with `x := ((x / w + 1) * width) / 2`,
`y := ((-(y / w) + 1) * height) / 2` and `z := z / w`, every division, addition
and multiplication rounded to binary32 and `width`, `height` converted to
`float` (stated for results that are finite).  When `w ≠ 0`
and none of these operations rounds, these are the exact values
`(x / w + 1) * width / 2`, `(-(y / w) + 1) * height / 2` and `z / w`.  With the
identity stage and a viewport of at least 1 x 1 and at most `2 ^ 24` x `2 ^ 24`,
NDC `(0, 0, 0)` maps to `(width / 2, height / 2, 0)` and NDC `(-1, -1)` to
`(0, height)`, which the clamp of the bounding box brings to `(0, height - 1)`. -/
theorem to_screen_viewport_binary32 (r : rasterizer A RT Color) (v : vertex A) :
    (∀ p : float4, (r.vertex_shader ⟨v.x, v.y, v.z, 1⟩ v).1 = p → ∀ s : vertex A,
      (r.to_screen_f32 v = some s ↔
        fval.fin s.x =
          ((((fval.fin p.x).div (fval.fin p.w)).add (fval.fin 1)).mul
            (fval.of_rat (r.width : ℚ))).div (fval.fin 2) ∧
        fval.fin s.y =
          ((((fval.fin p.y).div (fval.fin p.w)).neg.add (fval.fin 1)).mul
            (fval.of_rat (r.height : ℚ))).div (fval.fin 2) ∧
        fval.fin s.z = (fval.fin p.z).div (fval.fin p.w) ∧ s.attr = v.attr)) ∧
    (∀ p : float4, (r.vertex_shader ⟨v.x, v.y, v.z, 1⟩ v).1 = p → p.w ≠ 0 →
      is_binary32 (p.x / p.w) → is_binary32 (p.x / p.w + 1) → is_binary32 (r.width : ℚ) →
      is_binary32 ((p.x / p.w + 1) * (r.width : ℚ)) →
      is_binary32 ((p.x / p.w + 1) * (r.width : ℚ) / 2) →
      is_binary32 (p.y / p.w) → is_binary32 (-(p.y / p.w) + 1) → is_binary32 (r.height : ℚ) →
      is_binary32 ((-(p.y / p.w) + 1) * (r.height : ℚ)) →
      is_binary32 ((-(p.y / p.w) + 1) * (r.height : ℚ) / 2) →
      is_binary32 (p.z / p.w) →
      r.to_screen_f32 v = some { v with
        x := (p.x / p.w + 1) * (r.width : ℚ) / 2,
        y := (-(p.y / p.w) + 1) * (r.height : ℚ) / 2,
        z := p.z / p.w }) ∧
    ((∀ c u, (r.vertex_shader c u).1 = c) → 1 ≤ r.width → 1 ≤ r.height →
      r.width ≤ 2 ^ 24 → r.height ≤ 2 ^ 24 → ∀ a : A,
      r.to_screen_f32 ⟨0, 0, 0, a⟩ = some ⟨(r.width : ℚ) / 2, (r.height : ℚ) / 2, 0, a⟩ ∧
      (∀ z, is_binary32 z → r.to_screen_f32 ⟨-1, -1, z, a⟩ = some ⟨0, (r.height : ℚ), z, a⟩) ∧
      clamp 0 0 (box_bound r.width) = 0 ∧
      clamp (r.height : ℚ) 0 (box_bound r.height) = (r.height : ℚ) - 1) := by
  refine ⟨?_, ?_, ?_⟩
  · intro p hp s
    unfold to_screen_f32
    simp only [hp]
    generalize ((((fval.fin p.x).div (fval.fin p.w)).add (fval.fin 1)).mul
            (fval.of_rat (r.width : ℚ))).div (fval.fin 2) = sx
    generalize ((((fval.fin p.y).div (fval.fin p.w)).neg.add (fval.fin 1)).mul
            (fval.of_rat (r.height : ℚ))).div (fval.fin 2) = sy
    generalize (fval.fin p.z).div (fval.fin p.w) = sz
    obtain ⟨x, y, z, attr⟩ := s
    cases sx <;> cases sy <;> cases sz <;> simp
    constructor
    · rintro ⟨rfl, rfl, rfl, rfl⟩
      exact ⟨rfl, rfl, rfl, rfl⟩
    · rintro ⟨rfl, rfl, rfl, rfl⟩
      exact ⟨rfl, rfl, rfl, rfl⟩
  · intro p hp hw x1 x2 x3 x4 x5 y1 y2 y3 y4 y5 z1
    unfold is_binary32 at x1 x2 x3 x4 x5 y1 y2 y3 y4 y5 z1
    have two : (2 : ℚ) ≠ 0 := by norm_num
    unfold to_screen_f32
    simp only [hp]
    rw [fval.div_fin_fin hw, fval.div_fin_fin hw, fval.div_fin_fin hw, x1, y1, z1, x3, y3]
    simp only [fval.add, fval.mul, fval.neg]
    rw [x2, y2]
    simp only [fval.mul]
    rw [x4, y4, fval.div_fin_fin two, fval.div_fin_fin two, x5, y5]
  · intro hid hw hh hW hH a
    have hw1 : (1 : ℚ) ≤ (r.width : ℚ) := by exact_mod_cast hw
    have hh1 : (1 : ℚ) ≤ (r.height : ℚ) := by exact_mod_cast hh
    refine ⟨?_, ?_, ?_, ?_⟩
    · have := to_screen_f32_corner r hid hW hH 0 0 (Or.inr (Or.inl rfl)) (Or.inr (Or.inl rfl))
        0 fval.of_rat_zero a
      rw [this]
      norm_num
    · intro z hz
      have := to_screen_f32_corner r hid hW hH (-1) (-1) (Or.inl rfl) (Or.inl rfl) z hz a
      rw [this]
      norm_num
    · rw [box_bound_eq hw hW]
      exact clamp_zero hw
    · rw [box_bound_eq hh hH]
      exact clamp_full hh

/-- Witness for C10 (as amended): the sample rasterizer, whose viewport is 4 x 4
and whose vertex stage is the identity. -/
theorem to_screen_viewport_binary32_witness :
    to_screen_f32 sample_rasterizer ⟨0, 0, 0, ()⟩ =
      some ⟨((4 : Nat) : ℚ) / 2, ((4 : Nat) : ℚ) / 2, 0, ()⟩ ∧
    (∀ z, is_binary32 z →
      to_screen_f32 sample_rasterizer ⟨-1, -1, z, ()⟩ = some ⟨0, ((4 : Nat) : ℚ), z, ()⟩) ∧
    clamp 0 0 (box_bound 4) = 0 ∧
    clamp ((4 : Nat) : ℚ) 0 (box_bound 4) = ((4 : Nat) : ℚ) - 1 :=
  (to_screen_viewport_binary32 sample_rasterizer ⟨0, 0, 0, ()⟩).2.2 (fun _ _ => rfl)
    (by decide) (by decide) (by decide) (by decide) ()

/-- Counterexample to C10 as stated.  In a 4 x 4 viewport a vertex-stage output
with `x = 1` and `w = 3` has the exact screen coordinate
`(1 / 3 + 1) * 4 / 2 = 8 / 3`; the source computes `11184811 / 2 ^ 22`.  And for
the viewport height 16777220 with the identity stage, NDC `(-1, -1)` maps to
`(0, 16777220)` and the clamp, whose bound `static_cast<float>(height) - 1.f` is
16777220, leaves it there: not at `height - 1`. -/
theorem to_screen_rounds :
    (sample_third_rasterizer.vertex_shader ⟨1, 0, 0, 1⟩ ⟨1, 0, 0, ()⟩).1 = ⟨1, 0, 0, 3⟩ ∧
    ((1 : ℚ) / 3 + 1) * ((4 : Nat) : ℚ) / 2 = 8 / 3 ∧
    sample_third_rasterizer.to_screen_f32 ⟨1, 0, 0, ()⟩ =
      some ⟨11184811 / 4194304, 2, 0, ()⟩ ∧
    (11184811 / 4194304 : ℚ) ≠ 8 / 3 ∧
    to_screen_f32 { sample_rasterizer with width := 16777220, height := 16777220 }
      ⟨-1, -1, 0, ()⟩ = some ⟨0, 16777220, 0, ()⟩ ∧
    clamp (16777220 : ℚ) 0 (box_bound 16777220) = 16777220 ∧
    clamp (16777220 : ℚ) 0 (box_bound 16777220) ≠ 16777220 - 1 := by
  refine ⟨rfl, by decide!, by decide!, by decide!, by decide!, by decide!, by decide!⟩

/-- C11 (as amended).  Y flip at the corners.  With the identity vertex stage
and a viewport of at least 1 x 1 and at most `2 ^ 24` x `2 ^ 24`, the viewport
mapping in binary32 followed by the clamp and the cast lands NDC `(-1, -1)` at
the bottom-left pixel `(0, height - 1)`, NDC `(1, 1)` at the top-right pixel
`(width - 1, 0)`, NDC `(-1, 1)` at the top-left pixel `(0, 0)` and NDC `(1, -1)` at
the bottom-right pixel `(width - 1, height - 1)`. -/
theorem landing_pixel_corners_binary32 (r : rasterizer A RT Color)
    (hid : ∀ c u, (r.vertex_shader c u).1 = c) (hw : 1 ≤ r.width) (hh : 1 ≤ r.height)
    (hW : r.width ≤ 2 ^ 24) (hH : r.height ≤ 2 ^ 24)
    (z : ℚ) (hz : is_binary32 z) (a : A) :
    (r.to_screen_f32 ⟨-1, -1, z, a⟩).map r.landing_pixel_f32 =
      some (0, (r.height : Int) - 1) ∧
    (r.to_screen_f32 ⟨1, 1, z, a⟩).map r.landing_pixel_f32 = some ((r.width : Int) - 1, 0) ∧
    (r.to_screen_f32 ⟨-1, 1, z, a⟩).map r.landing_pixel_f32 = some (0, 0) ∧
    (r.to_screen_f32 ⟨1, -1, z, a⟩).map r.landing_pixel_f32 =
      some ((r.width : Int) - 1, (r.height : Int) - 1) := by
  have e0 : ((-1 : ℚ) + 1) * (r.width : ℚ) / 2 = 0 := by ring
  have e1 : ((1 : ℚ) + 1) * (r.width : ℚ) / 2 = (r.width : ℚ) := by ring
  have f0 : (-(1 : ℚ) + 1) * (r.height : ℚ) / 2 = 0 := by ring
  have f1 : (-(-1 : ℚ) + 1) * (r.height : ℚ) / 2 = (r.height : ℚ) := by ring
  have hland : ∀ s : vertex A, r.landing_pixel_f32 s =
      (static_cast_int (clamp s.x 0 ((r.width : ℚ) - 1)),
       static_cast_int (clamp s.y 0 ((r.height : ℚ) - 1))) := by
    intro s
    simp [landing_pixel_f32, bounding_box_begin_f32, box_bound_eq hw hW, box_bound_eq hh hH]
  have m1 : (-1 : ℚ) = -1 ∨ (-1 : ℚ) = 0 ∨ (-1 : ℚ) = 1 := Or.inl rfl
  have p1 : (1 : ℚ) = -1 ∨ (1 : ℚ) = 0 ∨ (1 : ℚ) = 1 := Or.inr (Or.inr rfl)
  refine ⟨?_, ?_, ?_, ?_⟩
  · rw [to_screen_f32_corner r hid hW hH _ _ m1 m1 z hz a, Option.map_some', hland]
    simp only [e0, f1, clamp_zero hw, clamp_full hh, static_cast_int_zero,
      static_cast_int_natCast_sub_one hh]
  · rw [to_screen_f32_corner r hid hW hH _ _ p1 p1 z hz a, Option.map_some', hland]
    simp only [e1, f0, clamp_zero hh, clamp_full hw, static_cast_int_zero,
      static_cast_int_natCast_sub_one hw]
  · rw [to_screen_f32_corner r hid hW hH _ _ m1 p1 z hz a, Option.map_some', hland]
    simp only [e0, f0, clamp_zero hw, clamp_zero hh, static_cast_int_zero]
  · rw [to_screen_f32_corner r hid hW hH _ _ p1 m1 z hz a, Option.map_some', hland]
    simp only [e1, f1, clamp_full hw, clamp_full hh, static_cast_int_natCast_sub_one hw,
      static_cast_int_natCast_sub_one hh]

/-- Witness for C11 (as amended): the 4 x 4 sample viewport. -/
theorem landing_pixel_corners_binary32_witness :
    (to_screen_f32 sample_rasterizer ⟨-1, -1, 0, ()⟩).map sample_rasterizer.landing_pixel_f32 =
      some (0, ((4 : Nat) : Int) - 1) ∧
    (to_screen_f32 sample_rasterizer ⟨1, 1, 0, ()⟩).map sample_rasterizer.landing_pixel_f32 =
      some (((4 : Nat) : Int) - 1, 0) ∧
    (to_screen_f32 sample_rasterizer ⟨-1, 1, 0, ()⟩).map sample_rasterizer.landing_pixel_f32 =
      some (0, 0) ∧
    (to_screen_f32 sample_rasterizer ⟨1, -1, 0, ()⟩).map sample_rasterizer.landing_pixel_f32 =
      some (((4 : Nat) : Int) - 1, ((4 : Nat) : Int) - 1) :=
  landing_pixel_corners_binary32 sample_rasterizer (fun _ _ => rfl) (by decide) (by decide)
    (by decide) (by decide) 0 fval.of_rat_zero ()

/-- Counterexample to C11 as stated: in the 4 x 4 sample viewport NDC `(-1, -1)`
lands at pixel `(0, 3)`, the bottom-left and not the top-left pixel `(0, 0)`,
and NDC `(1, 1)` lands at pixel `(3, 0)`, the top-right and not the
bottom-right pixel `(3, 3)`.  And beyond `2 ^ 24` the corner can miss the last
column: for the width 16777218 NDC `x = 1` lands in column 16777216, which is
`width - 2`, and for the width 16777220 in column 16777220, which is `width`. -/
theorem landing_pixel_corners_unflipped :
    (to_screen_f32 sample_rasterizer ⟨-1, -1, 0, ()⟩).map sample_rasterizer.landing_pixel_f32 =
      some (0, 3) ∧
    (to_screen_f32 sample_rasterizer ⟨-1, -1, 0, ()⟩).map sample_rasterizer.landing_pixel_f32 ≠
      some (0, 0) ∧
    (to_screen_f32 sample_rasterizer ⟨1, 1, 0, ()⟩).map sample_rasterizer.landing_pixel_f32 =
      some (3, 0) ∧
    (to_screen_f32 sample_rasterizer ⟨1, 1, 0, ()⟩).map sample_rasterizer.landing_pixel_f32 ≠
      some (3, 3) ∧
    (to_screen_f32 { sample_rasterizer with width := 16777218 } ⟨1, 1, 0, ()⟩).map
      (landing_pixel_f32 { sample_rasterizer with width := 16777218 }) =
      some (16777216, 0) ∧
    (to_screen_f32 { sample_rasterizer with width := 16777220 } ⟨1, 1, 0, ()⟩).map
      (landing_pixel_f32 { sample_rasterizer with width := 16777220 }) =
      some (16777220, 0) := by
  refine ⟨by decide!, by decide!, by decide!, by decide!, by decide!, by decide!⟩

end rasterizer

theorem fval.sub_fin_fin (a b : ℚ) : (fval.fin a).sub (fval.fin b) = fval.of_rat (a - b) := by
  simp [fval.sub, fval.neg, fval.add, sub_eq_add_neg]

theorem fval.mul_fin_fin (a b : ℚ) : (fval.fin a).mul (fval.fin b) = fval.of_rat (a * b) := rfl

namespace rasterizer
variable {A RT Color : Type}

/-- In exact arithmetic the plane passes through its three points, and for
`c ≠ 0` the depth solved at a vertex is the depth of that vertex. -/
theorem get_equation_plane_exact (x1 y1 z1 x2 y2 z2 x3 y3 z3 : ℚ) :
    (get_equation_plane x1 y1 z1 x2 y2 z2 x3 y3 z3).x * x1
      + (get_equation_plane x1 y1 z1 x2 y2 z2 x3 y3 z3).y * y1
      + (get_equation_plane x1 y1 z1 x2 y2 z2 x3 y3 z3).z * z1
      + (get_equation_plane x1 y1 z1 x2 y2 z2 x3 y3 z3).w = 0 ∧
    (get_equation_plane x1 y1 z1 x2 y2 z2 x3 y3 z3).x * x2
      + (get_equation_plane x1 y1 z1 x2 y2 z2 x3 y3 z3).y * y2
      + (get_equation_plane x1 y1 z1 x2 y2 z2 x3 y3 z3).z * z2
      + (get_equation_plane x1 y1 z1 x2 y2 z2 x3 y3 z3).w = 0 ∧
    (get_equation_plane x1 y1 z1 x2 y2 z2 x3 y3 z3).x * x3
      + (get_equation_plane x1 y1 z1 x2 y2 z2 x3 y3 z3).y * y3
      + (get_equation_plane x1 y1 z1 x2 y2 z2 x3 y3 z3).z * z3
      + (get_equation_plane x1 y1 z1 x2 y2 z2 x3 y3 z3).w = 0 ∧
    ((get_equation_plane x1 y1 z1 x2 y2 z2 x3 y3 z3).z ≠ 0 →
      plane_depth (⟨x1, y1, z1, ()⟩ : vertex Unit) ⟨x2, y2, z2, ()⟩ ⟨x3, y3, z3, ()⟩ x1 y1 =
        fval.fin z1 ∧
      plane_depth (⟨x1, y1, z1, ()⟩ : vertex Unit) ⟨x2, y2, z2, ()⟩ ⟨x3, y3, z3, ()⟩ x2 y2 =
        fval.fin z2 ∧
      plane_depth (⟨x1, y1, z1, ()⟩ : vertex Unit) ⟨x2, y2, z2, ()⟩ ⟨x3, y3, z3, ()⟩ x3 y3 =
        fval.fin z3) := by
  refine ⟨?_, ?_, ?_, ?_⟩
  · simp only [get_equation_plane]; ring
  · simp only [get_equation_plane]; ring
  · simp only [get_equation_plane]; ring
  · intro hc
    have hc1 : (x2 - x1) * (y3 - y1) - (y2 - y1) * (x3 - x1) ≠ 0 := by
      simpa [get_equation_plane] using hc
    refine ⟨?_, ?_, ?_⟩
    · simp only [plane_depth, get_equation_plane, fdiv, if_neg hc1]
      try (congr 1; rw [div_eq_iff hc1]; ring)
    · simp only [plane_depth, get_equation_plane, fdiv, if_neg hc1]
      try (congr 1; rw [div_eq_iff hc1]; ring)
    · simp only [plane_depth, get_equation_plane, fdiv, if_neg hc1]
      try (congr 1; rw [div_eq_iff hc1]; ring)

/-- When no operation rounds, `get_equation_plane` returns in binary32 what it
returns in exact arithmetic. -/
theorem get_equation_plane_f32_unrounded {x1 y1 z1 x2 y2 z2 x3 y3 z3 : ℚ}
    (h : plane_unrounded x1 y1 z1 x2 y2 z2 x3 y3 z3) :
    get_equation_plane_f32 x1 y1 z1 x2 y2 z2 x3 y3 z3 =
      ⟨fval.fin (get_equation_plane x1 y1 z1 x2 y2 z2 x3 y3 z3).x,
       fval.fin (get_equation_plane x1 y1 z1 x2 y2 z2 x3 y3 z3).y,
       fval.fin (get_equation_plane x1 y1 z1 x2 y2 z2 x3 y3 z3).z,
       fval.fin (get_equation_plane x1 y1 z1 x2 y2 z2 x3 y3 z3).w⟩ := by
  obtain ⟨h1, h2, h3, h4, h5, h6, p1, p2, p3, p4, p5, p6, ha, hb, hc, d1, d2, d3, d4, hd⟩ := h
  unfold is_binary32 at h1 h2 h3 h4 h5 h6 p1 p2 p3 p4 p5 p6 ha hb hc d1 d2 d3 d4 hd
  simp only [get_equation_plane] at ha hb hc d1 d2 d3 d4 hd ⊢
  unfold get_equation_plane_f32
  simp only [fval.sub_fin_fin, h1, h2, h3, h4, h5, h6, fval.mul_fin_fin, p1, p2, p3, p4, p5, p6,
    ha, hb, hc, fval.neg, d1, d2, d3, d4, hd]

/-- When no operation rounds, the depth solved in binary32 is the exact
quotient. -/
theorem plane_depth_f32_unrounded {v0 v1 v2 : vertex A} {x y : ℚ}
    (h : plane_unrounded v0.x v0.y v0.z v1.x v1.y v1.z v2.x v2.y v2.z)
    (hd : depth_unrounded (get_equation_plane v0.x v0.y v0.z v1.x v1.y v1.z v2.x v2.y v2.z)
      x y) :
    plane_depth_f32 v0 v1 v2 x y = plane_depth v0 v1 v2 x y := by
  obtain ⟨hc, n1, n2, n3, n4, n5⟩ := hd
  unfold is_binary32 at n1 n2 n3 n4 n5
  unfold plane_depth_f32 plane_depth
  rw [get_equation_plane_f32_unrounded h]
  simp only [fval.neg, fval.mul_fin_fin, n1, n2, fval.sub_fin_fin, n3, n4,
    fval.div_fin_fin hc, n5, fdiv, if_neg hc]

/-- C17 (as amended).  `get_equation_plane` returns `(a, b, c, d)` with `(a, b, c)`
the cross product of `P2 - P1` and `P3 - P1` and `d = -a * x1 - b * y1 - c * z1`,
every subtraction and multiplication rounded to binary32.  In exact arithmetic
`a * xi + b * yi + c * zi + d` is `0` at each of the three input points and, when
`c ≠ 0`, the depth solved at a vertex's own `(xi, yi)` is `zi`.  In binary32, when
none of the operations of `get_equation_plane` rounds, the result is that exact
one; and when, moreover, `c ≠ 0` and no operation of the depth
`(-a * x - b * y - d) / c` rounds at a vertex's own `(xi, yi)`, the depth solved
there is `zi`. -/
theorem get_equation_plane_binary32 (x1 y1 z1 x2 y2 z2 x3 y3 z3 : ℚ) :
    (get_equation_plane_f32 x1 y1 z1 x2 y2 z2 x3 y3 z3).x =
      ((((fval.fin y2).sub (fval.fin y1)).mul ((fval.fin z3).sub (fval.fin z1))).sub
        (((fval.fin y3).sub (fval.fin y1)).mul ((fval.fin z2).sub (fval.fin z1)))) ∧
    (get_equation_plane_f32 x1 y1 z1 x2 y2 z2 x3 y3 z3).y =
      ((((fval.fin x3).sub (fval.fin x1)).mul ((fval.fin z2).sub (fval.fin z1))).sub
        (((fval.fin x2).sub (fval.fin x1)).mul ((fval.fin z3).sub (fval.fin z1)))) ∧
    (get_equation_plane_f32 x1 y1 z1 x2 y2 z2 x3 y3 z3).z =
      ((((fval.fin x2).sub (fval.fin x1)).mul ((fval.fin y3).sub (fval.fin y1))).sub
        (((fval.fin y2).sub (fval.fin y1)).mul ((fval.fin x3).sub (fval.fin x1)))) ∧
    (get_equation_plane_f32 x1 y1 z1 x2 y2 z2 x3 y3 z3).w =
      ((((get_equation_plane_f32 x1 y1 z1 x2 y2 z2 x3 y3 z3).x.neg.mul (fval.fin x1)).sub
        ((get_equation_plane_f32 x1 y1 z1 x2 y2 z2 x3 y3 z3).y.mul (fval.fin y1))).sub
        ((get_equation_plane_f32 x1 y1 z1 x2 y2 z2 x3 y3 z3).z.mul (fval.fin z1))) ∧
    (plane_unrounded x1 y1 z1 x2 y2 z2 x3 y3 z3 →
      get_equation_plane_f32 x1 y1 z1 x2 y2 z2 x3 y3 z3 =
        ⟨fval.fin (get_equation_plane x1 y1 z1 x2 y2 z2 x3 y3 z3).x,
         fval.fin (get_equation_plane x1 y1 z1 x2 y2 z2 x3 y3 z3).y,
         fval.fin (get_equation_plane x1 y1 z1 x2 y2 z2 x3 y3 z3).z,
         fval.fin (get_equation_plane x1 y1 z1 x2 y2 z2 x3 y3 z3).w⟩ ∧
      (depth_unrounded (get_equation_plane x1 y1 z1 x2 y2 z2 x3 y3 z3) x1 y1 →
        plane_depth_f32 (⟨x1, y1, z1, ()⟩ : vertex Unit) ⟨x2, y2, z2, ()⟩ ⟨x3, y3, z3, ()⟩
          x1 y1 = fval.fin z1) ∧
      (depth_unrounded (get_equation_plane x1 y1 z1 x2 y2 z2 x3 y3 z3) x2 y2 →
        plane_depth_f32 (⟨x1, y1, z1, ()⟩ : vertex Unit) ⟨x2, y2, z2, ()⟩ ⟨x3, y3, z3, ()⟩
          x2 y2 = fval.fin z2) ∧
      (depth_unrounded (get_equation_plane x1 y1 z1 x2 y2 z2 x3 y3 z3) x3 y3 →
        plane_depth_f32 (⟨x1, y1, z1, ()⟩ : vertex Unit) ⟨x2, y2, z2, ()⟩ ⟨x3, y3, z3, ()⟩
          x3 y3 = fval.fin z3)) ∧
    (get_equation_plane x1 y1 z1 x2 y2 z2 x3 y3 z3).x * x1
      + (get_equation_plane x1 y1 z1 x2 y2 z2 x3 y3 z3).y * y1
      + (get_equation_plane x1 y1 z1 x2 y2 z2 x3 y3 z3).z * z1
      + (get_equation_plane x1 y1 z1 x2 y2 z2 x3 y3 z3).w = 0 ∧
    (get_equation_plane x1 y1 z1 x2 y2 z2 x3 y3 z3).x * x2
      + (get_equation_plane x1 y1 z1 x2 y2 z2 x3 y3 z3).y * y2
      + (get_equation_plane x1 y1 z1 x2 y2 z2 x3 y3 z3).z * z2
      + (get_equation_plane x1 y1 z1 x2 y2 z2 x3 y3 z3).w = 0 ∧
    (get_equation_plane x1 y1 z1 x2 y2 z2 x3 y3 z3).x * x3
      + (get_equation_plane x1 y1 z1 x2 y2 z2 x3 y3 z3).y * y3
      + (get_equation_plane x1 y1 z1 x2 y2 z2 x3 y3 z3).z * z3
      + (get_equation_plane x1 y1 z1 x2 y2 z2 x3 y3 z3).w = 0 ∧
    ((get_equation_plane x1 y1 z1 x2 y2 z2 x3 y3 z3).z ≠ 0 →
      plane_depth (⟨x1, y1, z1, ()⟩ : vertex Unit) ⟨x2, y2, z2, ()⟩ ⟨x3, y3, z3, ()⟩ x1 y1 =
        fval.fin z1 ∧
      plane_depth (⟨x1, y1, z1, ()⟩ : vertex Unit) ⟨x2, y2, z2, ()⟩ ⟨x3, y3, z3, ()⟩ x2 y2 =
        fval.fin z2 ∧
      plane_depth (⟨x1, y1, z1, ()⟩ : vertex Unit) ⟨x2, y2, z2, ()⟩ ⟨x3, y3, z3, ()⟩ x3 y3 =
        fval.fin z3) := by
  obtain ⟨e1, e2, e3, e4⟩ := get_equation_plane_exact x1 y1 z1 x2 y2 z2 x3 y3 z3
  refine ⟨rfl, rfl, rfl, rfl, ?_, e1, e2, e3, e4⟩
  intro hu
  refine ⟨get_equation_plane_f32_unrounded hu, ?_, ?_, ?_⟩
  · intro hd
    have hu' : plane_unrounded (⟨x1, y1, z1, ()⟩ : vertex Unit).x (⟨x1, y1, z1, ()⟩ : vertex Unit).y
        (⟨x1, y1, z1, ()⟩ : vertex Unit).z (⟨x2, y2, z2, ()⟩ : vertex Unit).x
        (⟨x2, y2, z2, ()⟩ : vertex Unit).y (⟨x2, y2, z2, ()⟩ : vertex Unit).z
        (⟨x3, y3, z3, ()⟩ : vertex Unit).x (⟨x3, y3, z3, ()⟩ : vertex Unit).y
        (⟨x3, y3, z3, ()⟩ : vertex Unit).z := hu
    rw [plane_depth_f32_unrounded hu' hd]
    exact (e4 hd.1).1
  · intro hd
    have hu' : plane_unrounded (⟨x1, y1, z1, ()⟩ : vertex Unit).x (⟨x1, y1, z1, ()⟩ : vertex Unit).y
        (⟨x1, y1, z1, ()⟩ : vertex Unit).z (⟨x2, y2, z2, ()⟩ : vertex Unit).x
        (⟨x2, y2, z2, ()⟩ : vertex Unit).y (⟨x2, y2, z2, ()⟩ : vertex Unit).z
        (⟨x3, y3, z3, ()⟩ : vertex Unit).x (⟨x3, y3, z3, ()⟩ : vertex Unit).y
        (⟨x3, y3, z3, ()⟩ : vertex Unit).z := hu
    rw [plane_depth_f32_unrounded hu' hd]
    exact (e4 hd.1).2.1
  · intro hd
    have hu' : plane_unrounded (⟨x1, y1, z1, ()⟩ : vertex Unit).x (⟨x1, y1, z1, ()⟩ : vertex Unit).y
        (⟨x1, y1, z1, ()⟩ : vertex Unit).z (⟨x2, y2, z2, ()⟩ : vertex Unit).x
        (⟨x2, y2, z2, ()⟩ : vertex Unit).y (⟨x2, y2, z2, ()⟩ : vertex Unit).z
        (⟨x3, y3, z3, ()⟩ : vertex Unit).x (⟨x3, y3, z3, ()⟩ : vertex Unit).y
        (⟨x3, y3, z3, ()⟩ : vertex Unit).z := hu
    rw [plane_depth_f32_unrounded hu' hd]
    exact (e4 hd.1).2.2

/-- Witness for C17 (as amended): the plane through `(0, 0, 0)`, `(0, 3, 3)`,
`(3, 0, 6)`, whose coefficients `(18, 9, -9, 0)` and vertex depths are computed
without rounding. -/
theorem get_equation_plane_binary32_witness :
    plane_unrounded 0 0 0 0 3 3 3 0 6 ∧
    get_equation_plane 0 0 0 0 3 3 3 0 6 = ⟨18, 9, -9, 0⟩ ∧
    get_equation_plane_f32 0 0 0 0 3 3 3 0 6 =
      ⟨fval.fin (get_equation_plane 0 0 0 0 3 3 3 0 6).x,
       fval.fin (get_equation_plane 0 0 0 0 3 3 3 0 6).y,
       fval.fin (get_equation_plane 0 0 0 0 3 3 3 0 6).z,
       fval.fin (get_equation_plane 0 0 0 0 3 3 3 0 6).w⟩ ∧
    plane_depth_f32 (⟨0, 0, 0, ()⟩ : vertex Unit) ⟨0, 3, 3, ()⟩ ⟨3, 0, 6, ()⟩ 0 0 = fval.fin 0 ∧
    plane_depth_f32 (⟨0, 0, 0, ()⟩ : vertex Unit) ⟨0, 3, 3, ()⟩ ⟨3, 0, 6, ()⟩ 0 3 = fval.fin 3 ∧
    plane_depth_f32 (⟨0, 0, 0, ()⟩ : vertex Unit) ⟨0, 3, 3, ()⟩ ⟨3, 0, 6, ()⟩ 3 0 = fval.fin 6 :=
  have h := (get_equation_plane_binary32 0 0 0 0 3 3 3 0 6).2.2.2.2.1 (by decide!)
  ⟨by decide!, by decide!, h.1, h.2.1 (by decide!), h.2.2.1 (by decide!),
    h.2.2.2 (by decide!)⟩

/-- Counterexample to C17 as stated: for the three points `(0, 0, z)`, `(0, 5, z)`,
`(1, 0, z)` with the binary32 value `z = 4080219 / 2 ^ 33`, `get_equation_plane`
returns `(0, 0, -5, 2550137 / 2 ^ 30)`, for which `a * x1 + b * y1 + c * z1 + d` is
`2 ^ (-33)` and not `0`; `c` is not `0`, and the depth solved at the first
vertex's own `(0, 0)` is `16320877 / 2 ^ 35`, the next binary32 value above `z`. -/
theorem get_equation_plane_misses :
    is_binary32 (4080219 / 8589934592) ∧
    get_equation_plane_f32 0 0 (4080219 / 8589934592) 0 5 (4080219 / 8589934592)
      1 0 (4080219 / 8589934592) =
      ⟨fval.fin 0, fval.fin 0, fval.fin (-5), fval.fin (2550137 / 1073741824)⟩ ∧
    (0 : ℚ) * 0 + 0 * 0 + -5 * (4080219 / 8589934592) + 2550137 / 1073741824 =
      1 / 8589934592 ∧
    plane_depth_f32 (⟨0, 0, 4080219 / 8589934592, ()⟩ : vertex Unit)
      ⟨0, 5, 4080219 / 8589934592, ()⟩ ⟨1, 0, 4080219 / 8589934592, ()⟩ 0 0 =
      fval.fin (16320877 / 34359738368) ∧
    (16320877 / 34359738368 : ℚ) ≠ 4080219 / 8589934592 := by
  refine ⟨by decide!, by decide!, by decide!, by decide!, by decide!⟩

end rasterizer


namespace rasterizer
variable {A RT Color : Type}

/-! ## The binary32 `while` loop as a run over whole triangles -/

theorem draw_triples_f32_zero (from_color : Color → RT) (id : Nat)
    (r : rasterizer A RT Color) : draw_triples_f32 from_color id 0 r = some r := by
  simp [draw_triples_f32, for_each]

theorem draw_triples_f32_succ (from_color : Color → RT) (id n : Nat)
    (r : rasterizer A RT Color) :
    draw_triples_f32 from_color id (n + 1) r =
      (draw_step_f32 from_color id r).bind (draw_triples_f32 from_color (id + 3) n) := by
  unfold draw_triples_f32
  rw [List.range_succ_eq_map, for_each]
  simp only [Nat.mul_zero, Nat.add_zero]
  congr 1
  funext s
  rw [for_each_map]
  have hb : (fun j => draw_step_f32 from_color (id + 3 * Nat.succ j)) =
      (fun k => draw_step_f32 (A := A) from_color (id + 3 + 3 * k)) := by
    funext j
    rw [show id + 3 * Nat.succ j = id + 3 + 3 * j by omega]
  rw [hb]

theorem draw_loop_f32_triples (from_color : Color → RT) (bound : Nat) :
    ∀ (n fuel id : Nat) (r : rasterizer A RT Color), n ≤ fuel → bound ≤ id + 3 * n →
      (∀ k, k < n → id + 3 * k < bound) →
      draw_loop_f32 from_color bound fuel id r = draw_triples_f32 from_color id n r := by
  intro n
  induction n with
  | zero =>
    intro fuel id r _ hb _
    have hge : ¬ id < bound := by omega
    rw [draw_triples_f32_zero]
    cases fuel <;> simp [draw_loop_f32, hge]
  | succ n ih =>
    intro fuel id r hf hb hk
    have hlt : id < bound := by
      have := hk 0 (by omega)
      omega
    cases fuel with
    | zero => omega
    | succ f =>
      rw [draw_triples_f32_succ]
      simp only [draw_loop_f32, hlt, if_true]
      congr 1
      funext s
      apply ih f (id + 3) s (by omega) (by omega)
      intro k hkn
      have := hk (k + 1) (by omega)
      omega

theorem draw_f32_eq_triples (from_color : Color → RT) (r : rasterizer A RT Color)
    (num offset : Nat) (hoff : offset + num < 2 ^ 64) :
    draw_f32 from_color r num offset =
      draw_triples_f32 from_color offset ((num + 2) / 3) r := by
  unfold draw_f32
  rw [Nat.mod_eq_of_lt hoff]
  apply draw_loop_f32_triples
  · omega
  · omega
  · intro k hk
    omega

theorem pixel_f32_frame {from_color : Color → RT} {v0 v1 v2 : vertex A} {x y : Int}
    {r r1 : rasterizer A RT Color} (h : pixel_f32 from_color v0 v1 v2 x y r = some r1) :
    frame r r1 := by
  unfold pixel_f32 at h
  split at h
  · exact write_pixel_frame h
  · simp only [Option.some.injEq] at h
    subst h
    exact frame_refl r

theorem draw_triangle_f32_frame {from_color : Color → RT} {v0 v1 v2 : vertex A}
    {r r1 : rasterizer A RT Color} (h : draw_triangle_f32 from_color v0 v1 v2 r = some r1) :
    frame r r1 := by
  unfold draw_triangle_f32 at h
  simp only at h
  obtain ⟨x0, -, h⟩ := Option.bind_eq_some.mp h
  obtain ⟨x1, -, h⟩ := Option.bind_eq_some.mp h
  refine for_each_rel frame frame_refl (fun _ _ _ => frame_trans) ?_ _ r r1 h
  intro x s s1 hx
  obtain ⟨y0, -, hx⟩ := Option.bind_eq_some.mp hx
  obtain ⟨y1, -, hx⟩ := Option.bind_eq_some.mp hx
  refine for_each_rel frame frame_refl (fun _ _ _ => frame_trans) ?_ _ s s1 hx
  intro y t t1 hy
  exact pixel_f32_frame hy

theorem draw_step_f32_frame {from_color : Color → RT} {id : Nat}
    {r r1 : rasterizer A RT Color} (h : draw_step_f32 from_color id r = some r1) :
    frame r r1 := by
  unfold draw_step_f32 at h
  obtain ⟨vb, -, h⟩ := Option.bind_eq_some.mp h
  obtain ⟨i0, -, h⟩ := Option.bind_eq_some.mp h
  obtain ⟨i1, -, h⟩ := Option.bind_eq_some.mp h
  obtain ⟨i2, -, h⟩ := Option.bind_eq_some.mp h
  obtain ⟨v0, -, h⟩ := Option.bind_eq_some.mp h
  obtain ⟨v1, -, h⟩ := Option.bind_eq_some.mp h
  obtain ⟨v2, -, h⟩ := Option.bind_eq_some.mp h
  exact draw_triangle_f32_frame h

theorem draw_triples_f32_frame {from_color : Color → RT} {id n : Nat}
    {r r1 : rasterizer A RT Color} (h : draw_triples_f32 from_color id n r = some r1) :
    frame r r1 := by
  unfold draw_triples_f32 at h
  exact for_each_rel frame frame_refl (fun _ _ _ => frame_trans)
    (fun _ _ _ hs => draw_step_f32_frame hs) _ r r1 h

/-- The binary32 run over `n` triples, with destination buffers that fit a
viewport of at most `2 ^ 24` x `2 ^ 24` and finite screen coordinates for the
vertices of the range: it passes through states `s 0 = r`, ..., `s n`, the step
from `s k` to `s (k + 1)` being the scan of the triangle read at `id + 3 * k`,
`+ 1`, `+ 2`. -/
theorem draw_triples_f32_chain (from_color : Color → RT) (vb : resource (vertex A)) :
    ∀ (n id : Nat) (r : rasterizer A RT Color), r.vertex_buffer = some vb →
      id + 3 * n ≤ vb.get_number_of_elements → fits r → 1 ≤ r.width → 1 ≤ r.height →
      r.width ≤ 2 ^ 24 → r.height ≤ 2 ^ 24 →
      (∀ j, id ≤ j → j < id + 3 * n → ∀ v, vb.item_linear j = some v →
        ∃ s, r.to_screen_f32 v = some s) →
      ∃ s : Nat → rasterizer A RT Color, s 0 = r ∧
        (∀ k, k < n → ∃ i0 i1 i2 v0 v1 v2,
          vb.item_linear (id + 3 * k) = some i0 ∧
          vb.item_linear (id + 3 * k + 1) = some i1 ∧
          vb.item_linear (id + 3 * k + 2) = some i2 ∧
          (s k).to_screen_f32 i0 = some v0 ∧ (s k).to_screen_f32 i1 = some v1 ∧
          (s k).to_screen_f32 i2 = some v2 ∧
          draw_triangle_f32 from_color v0 v1 v2 (s k) = some (s (k + 1))) ∧
        draw_triples_f32 from_color id n r = some (s n) ∧ frame r (s n) := by
  intro n
  induction n with
  | zero =>
    intro id r _ _ _ _ _ _ _ _
    exact ⟨fun _ => r, rfl, fun k hk => absurd hk (Nat.not_lt_zero k),
      draw_triples_f32_zero from_color id r, frame_refl r⟩
  | succ n ih =>
    intro id r hvb hlen hf hw hh hW hH hfin
    unfold resource.get_number_of_elements at hlen
    have hread : ∀ j, j < 3 → ∃ i, vb.item_linear (id + j) = some i := by
      intro j hj
      have hlt : id + j < vb.data.length := by omega
      exact ⟨vb.data[id + j], by simp [resource.item_linear, hlt]⟩
    obtain ⟨i0, h0⟩ := hread 0 (by omega)
    obtain ⟨i1, h1⟩ := hread 1 (by omega)
    obtain ⟨i2, h2⟩ := hread 2 (by omega)
    obtain ⟨v0, hs0⟩ := hfin (id + 0) (by omega) (by omega) i0 h0
    obtain ⟨v1, hs1⟩ := hfin (id + 1) (by omega) (by omega) i1 h1
    obtain ⟨v2, hs2⟩ := hfin (id + 2) (by omega) (by omega) i2 h2
    obtain ⟨r1, ht, hfr, -, -⟩ :=
      draw_triangle_f32_spec from_color v0 v1 v2 r hf hw hh hW hH
    have hstep : draw_step_f32 from_color id r = some r1 := by
      rw [draw_step_f32_eq hvb (show vb.item_linear id = some i0 from h0) h1 h2 hs0 hs1 hs2, ht]
    obtain ⟨s1, hs10, hchain, hrun, hfr1⟩ := ih (id + 3) r1 (hfr.1.trans hvb)
      (by unfold resource.get_number_of_elements; omega) (fits_of_frame hfr hf)
      (by rw [hfr.2.1]; exact hw) (by rw [hfr.2.2.1]; exact hh)
      (by rw [hfr.2.1]; exact hW) (by rw [hfr.2.2.1]; exact hH)
      (by
        intro j hj1 hj2 v hv
        rw [to_screen_f32_frame hfr]
        exact hfin j (by omega) (by omega) v hv)
    refine ⟨fun k => match k with | 0 => r | k + 1 => s1 k, rfl, ?_, ?_, ?_⟩
    · intro k hk
      cases k with
      | zero =>
        refine ⟨i0, i1, i2, v0, v1, v2, h0, h1, h2, hs0, hs1, hs2, ?_⟩
        show draw_triangle_f32 from_color v0 v1 v2 r = some (s1 0)
        rw [hs10]
        exact ht
      | succ k =>
        obtain ⟨j0, j1, j2, w0, w1, w2, g0, g1, g2, t0, t1, t2, hd⟩ := hchain k (by omega)
        have e : id + 3 * (k + 1) = id + 3 + 3 * k := by omega
        refine ⟨j0, j1, j2, w0, w1, w2, ?_, ?_, ?_, t0, t1, t2, hd⟩
        · rw [e]; exact g0
        · rw [e]; exact g1
        · rw [e]; exact g2
    · show draw_triples_f32 from_color id (n + 1) r = some (s1 n)
      rw [draw_triples_f32_succ, hstep, Option.some_bind, hrun]
    · exact frame_trans hfr hfr1

/-- C15. Triangle assembly under the precondition, in exact arithmetic (first
half) and in binary32 (second half).  When the count is `3 * n` and
`offset + 3 * n` is at most the element count of the vertex buffer, `draw` is the
run of the loop body over exactly `n` triples.  The `k`-th iteration reads the
three vertices at indices `offset + 3 * k`, `+ 1`, `+ 2`, each in range, and its
body is the vertex stage on these three followed by the scan of that triangle.
A run that returns leaves the vertex buffer as it was.  With destination buffers
that fit a viewport of at least 1 x 1 (in binary32: of at most `2 ^ 24` in each
dimension) and, among the vertices of the range, no vertex-stage output of
`w = 0` (in binary32: finite screen coordinates), the run does return: it passes
through states `s 0`, ..., `s n`, from the state of the call to the state
returned, the step from `s k` to `s (k + 1)` being the scan of the `k`-th
triangle, and every state has the vertex buffer of the call. -/
theorem draw_assembles_triples (from_color : Color → RT) (r : rasterizer A RT Color)
    (n offset : Nat) (vb : resource (vertex A)) (hvb : r.vertex_buffer = some vb)
    (hrange : offset + 3 * n ≤ vb.get_number_of_elements)
    (hsize : vb.get_number_of_elements < 2 ^ 64) :
    (draw from_color r (3 * n) offset = draw_triples from_color offset n r ∧
     (∀ k, k < n → ∃ i0 i1 i2,
       offset + 3 * k + 2 < vb.get_number_of_elements ∧
       vb.item_linear (offset + 3 * k) = some i0 ∧
       vb.item_linear (offset + 3 * k + 1) = some i1 ∧
       vb.item_linear (offset + 3 * k + 2) = some i2 ∧
       ∀ s : rasterizer A RT Color, s.vertex_buffer = some vb →
         draw_step from_color (offset + 3 * k) s =
           (s.to_screen i0).bind fun v0 => (s.to_screen i1).bind fun v1 =>
             (s.to_screen i2).bind fun v2 => draw_triangle from_color v0 v1 v2 s) ∧
     (∀ r1, draw from_color r (3 * n) offset = some r1 → r1.vertex_buffer = some vb) ∧
     (fits r → 1 ≤ r.width → 1 ≤ r.height →
       (∀ j, offset ≤ j → j < offset + 3 * n → ∀ v, vb.item_linear j = some v →
         (r.vertex_shader ⟨v.x, v.y, v.z, 1⟩ v).1.w ≠ 0) →
       ∃ s : Nat → rasterizer A RT Color, s 0 = r ∧
         (∀ k, k < n → ∃ i0 i1 i2 v0 v1 v2,
           vb.item_linear (offset + 3 * k) = some i0 ∧
           vb.item_linear (offset + 3 * k + 1) = some i1 ∧
           vb.item_linear (offset + 3 * k + 2) = some i2 ∧
           (s k).to_screen i0 = some v0 ∧ (s k).to_screen i1 = some v1 ∧
           (s k).to_screen i2 = some v2 ∧
           draw_triangle from_color v0 v1 v2 (s k) = some (s (k + 1))) ∧
         draw from_color r (3 * n) offset = some (s n) ∧
         (s n).vertex_buffer = some vb)) ∧
    (draw_f32 from_color r (3 * n) offset = draw_triples_f32 from_color offset n r ∧
     (∀ k, k < n → ∃ i0 i1 i2,
       offset + 3 * k + 2 < vb.get_number_of_elements ∧
       vb.item_linear (offset + 3 * k) = some i0 ∧
       vb.item_linear (offset + 3 * k + 1) = some i1 ∧
       vb.item_linear (offset + 3 * k + 2) = some i2 ∧
       ∀ s : rasterizer A RT Color, s.vertex_buffer = some vb →
         draw_step_f32 from_color (offset + 3 * k) s =
           (s.to_screen_f32 i0).bind fun v0 => (s.to_screen_f32 i1).bind fun v1 =>
             (s.to_screen_f32 i2).bind fun v2 => draw_triangle_f32 from_color v0 v1 v2 s) ∧
     (∀ r1, draw_f32 from_color r (3 * n) offset = some r1 → r1.vertex_buffer = some vb) ∧
     (fits r → 1 ≤ r.width → 1 ≤ r.height → r.width ≤ 2 ^ 24 → r.height ≤ 2 ^ 24 →
       (∀ j, offset ≤ j → j < offset + 3 * n → ∀ v, vb.item_linear j = some v →
         ∃ s, r.to_screen_f32 v = some s) →
       ∃ s : Nat → rasterizer A RT Color, s 0 = r ∧
         (∀ k, k < n → ∃ i0 i1 i2 v0 v1 v2,
           vb.item_linear (offset + 3 * k) = some i0 ∧
           vb.item_linear (offset + 3 * k + 1) = some i1 ∧
           vb.item_linear (offset + 3 * k + 2) = some i2 ∧
           (s k).to_screen_f32 i0 = some v0 ∧ (s k).to_screen_f32 i1 = some v1 ∧
           (s k).to_screen_f32 i2 = some v2 ∧
           draw_triangle_f32 from_color v0 v1 v2 (s k) = some (s (k + 1))) ∧
         draw_f32 from_color r (3 * n) offset = some (s n) ∧
         (s n).vertex_buffer = some vb)) := by
  have heq : draw from_color r (3 * n) offset = draw_triples from_color offset n r := by
    rw [draw_eq_triples from_color r (3 * n) offset (by omega)]
    congr 1
    omega
  have heqf : draw_f32 from_color r (3 * n) offset =
      draw_triples_f32 from_color offset n r := by
    rw [draw_f32_eq_triples from_color r (3 * n) offset (by omega)]
    congr 1
    omega
  have hreads : ∀ k, k < n → ∃ i0 i1 i2,
      offset + 3 * k + 2 < vb.get_number_of_elements ∧
      vb.item_linear (offset + 3 * k) = some i0 ∧
      vb.item_linear (offset + 3 * k + 1) = some i1 ∧
      vb.item_linear (offset + 3 * k + 2) = some i2 := by
    intro k hk
    have hrange2 := hrange
    unfold resource.get_number_of_elements at hrange
    have hread : ∀ j, j < 3 → ∃ i, vb.item_linear (offset + 3 * k + j) = some i := by
      intro j hj
      have hlt : offset + 3 * k + j < vb.data.length := by omega
      exact ⟨vb.data[offset + 3 * k + j], by simp [resource.item_linear, hlt]⟩
    obtain ⟨i0, h0⟩ := hread 0 (by omega)
    obtain ⟨i1, h1⟩ := hread 1 (by omega)
    obtain ⟨i2, h2⟩ := hread 2 (by omega)
    exact ⟨i0, i1, i2, by omega, h0, h1, h2⟩
  refine ⟨⟨heq, ?_, ?_, ?_⟩, ⟨heqf, ?_, ?_, ?_⟩⟩
  · intro k hk
    obtain ⟨i0, i1, i2, hlt, h0, h1, h2⟩ := hreads k hk
    refine ⟨i0, i1, i2, hlt, h0, h1, h2, ?_⟩
    intro s hs
    simp [draw_step, hs, h0, h1, h2]
  · intro r1 h
    rw [heq] at h
    exact (draw_triples_frame h).1.trans hvb
  · intro hf hw hh hnz
    obtain ⟨s, hs0, hchain, hrun, hfr⟩ :=
      draw_triples_chain from_color vb n offset r hvb hrange hf hw hh hnz
    exact ⟨s, hs0, hchain, heq.trans hrun, hfr.1.trans hvb⟩
  · intro k hk
    obtain ⟨i0, i1, i2, hlt, h0, h1, h2⟩ := hreads k hk
    refine ⟨i0, i1, i2, hlt, h0, h1, h2, ?_⟩
    intro s hs
    simp [draw_step_f32, hs, h0, h1, h2]
  · intro r1 h
    rw [heqf] at h
    exact (draw_triples_f32_frame h).1.trans hvb
  · intro hf hw hh hW hH hfin
    obtain ⟨s, hs0, hchain, hrun, hfr⟩ :=
      draw_triples_f32_chain from_color vb n offset r hvb hrange hf hw hh hW hH hfin
    exact ⟨s, hs0, hchain, heqf.trans hrun, hfr.1.trans hvb⟩

/-- Witness for C15: the two sample triangles drawn by `draw(6, 0)`, in both
readings. -/
theorem draw_assembles_triples_witness :
    (draw id sample_depth_rasterizer (3 * 2) 0 =
        draw_triples id 0 2 sample_depth_rasterizer ∧
      ∃ s : Nat → rasterizer Nat Nat Nat, s 0 = sample_depth_rasterizer ∧
        (∀ k, k < 2 → ∃ i0 i1 i2 v0 v1 v2,
          sample_two_triangles.item_linear (0 + 3 * k) = some i0 ∧
          sample_two_triangles.item_linear (0 + 3 * k + 1) = some i1 ∧
          sample_two_triangles.item_linear (0 + 3 * k + 2) = some i2 ∧
          (s k).to_screen i0 = some v0 ∧ (s k).to_screen i1 = some v1 ∧
          (s k).to_screen i2 = some v2 ∧
          draw_triangle id v0 v1 v2 (s k) = some (s (k + 1))) ∧
        draw id sample_depth_rasterizer (3 * 2) 0 = some (s 2) ∧
        (s 2).vertex_buffer = some sample_two_triangles) ∧
    (draw_f32 id sample_depth_rasterizer (3 * 2) 0 =
        draw_triples_f32 id 0 2 sample_depth_rasterizer ∧
      ∃ s : Nat → rasterizer Nat Nat Nat, s 0 = sample_depth_rasterizer ∧
        (∀ k, k < 2 → ∃ i0 i1 i2 v0 v1 v2,
          sample_two_triangles.item_linear (0 + 3 * k) = some i0 ∧
          sample_two_triangles.item_linear (0 + 3 * k + 1) = some i1 ∧
          sample_two_triangles.item_linear (0 + 3 * k + 2) = some i2 ∧
          (s k).to_screen_f32 i0 = some v0 ∧ (s k).to_screen_f32 i1 = some v1 ∧
          (s k).to_screen_f32 i2 = some v2 ∧
          draw_triangle_f32 id v0 v1 v2 (s k) = some (s (k + 1))) ∧
        draw_f32 id sample_depth_rasterizer (3 * 2) 0 = some (s 2) ∧
        (s 2).vertex_buffer = some sample_two_triangles) :=
  have h := draw_assembles_triples id sample_depth_rasterizer 2 0
    sample_two_triangles rfl (by decide) (by decide)
  ⟨⟨h.1.1, h.1.2.2.2 sample_depth_fits (by decide) (by decide) (by
      intro j _ _ v _
      simp [sample_depth_rasterizer, identity_stage])⟩,
    ⟨h.2.1, h.2.2.2.2 sample_depth_fits (by decide) (by decide) (by decide) (by decide) (by
      intro j _ hj v hv
      have hs : ∀ i, i < 6 → ((sample_two_triangles.item_linear i).bind
          (fun u => (sample_depth_rasterizer.to_screen_f32 u).map (fun _ => ()))).isSome
          = true := by decide!
      have := hs j (by omega)
      rw [hv] at this
      cases hq : sample_depth_rasterizer.to_screen_f32 v with
      | none => simp [hq] at this
      | some q => exact ⟨q, rfl⟩)⟩⟩

end rasterizer

end cg.renderer
